import Mathlib

/-! # io_mmcf.c : the Max Media Player CompactFlash sector driver

A shallow embedding of `source/disc_io/io_mmcf.c`.

* The card is an arbitrary state machine (`Device`): reading or writing one of
  its memory-mapped registers may change its state.
* The processor side is a `Machine`: the card state, the byte-addressed memory
  holding the caller's buffer, and the list of bus accesses performed so far.
* The constants of `io_cf_common.h` (status bits, opcodes, the polling bound)
  are not part of this file's source; they are the fields of `Consts`.
* Two build configurations are embedded: `_CF_ALLOW_UNALIGNED` and the plain
  16-bit copy.  The `_CF_USE_DMA` configuration hands the copy to the DMA
  engine and is outside this development.
* Memory is little-endian; a 16-bit access at address `a` touches the bytes
  `a` and `a + 1`.  This is what the source does at an even `a`.  At an odd `a`
  the source's `u16` access is misaligned and C leaves it undefined: the
  `_CF_ALLOW_UNALIGNED` build never makes one (it copies an odd buffer byte by
  byte), the plain build makes one exactly when the caller's buffer is odd, and
  what the embedding computes in that case says nothing about the source.
-/

namespace MMCF

/-! ## Registers, devices, machines -/

/-- The memory-mapped locations of the card.  `REG_MMP_STS` and `REG_MMP_CMD`
are the same address (0x080E0000), hence one constructor. -/
inductive Reg where
  | STS_CMD
  | ERR
  | SEC
  | LBA1
  | LBA2
  | LBA3
  | LBA4
  | DATA
  deriving DecidableEq, Repr

/-- One 16-bit bus access, with the value read or written. -/
inductive Access where
  | rd (r : Reg) (v : Nat)
  | wr (r : Reg) (v : Nat)
  deriving DecidableEq, Repr

/-- The card as seen from the bus: a state machine over `σ`. -/
structure Device (σ : Type) where
  read : Reg → σ → Nat × σ
  write : Reg → Nat → σ → σ

/-- Processor-side state: the card, the memory, and the bus accesses so far
(oldest first). -/
structure Machine (σ : Type) where
  dev : σ
  mem : Nat → Nat
  trace : List Access

/-- A machine that has not yet touched the bus. -/
def Machine.start {σ : Type} (dev : σ) (mem : Nat → Nat) : Machine σ :=
  { dev := dev, mem := mem, trace := [] }

/-- The constants of `io_cf_common.h`. -/
structure Consts where
  CF_STS_INSERTED : Nat
  CF_STS_BUSY : Nat
  CF_STS_READY : Nat
  CF_CMD_LBA : Nat
  CF_CMD_READ : Nat
  CF_CMD_WRITE : Nat
  CF_CARD_TIMEOUT : Nat

/-- The non-DMA build configurations. -/
inductive Build where
  | allowUnaligned
  | direct
  deriving DecidableEq, Repr

/-- A `vu16` read: the device answers, the value is 16 bits wide. -/
def busRead {σ : Type} (d : Device σ) (r : Reg) (m : Machine σ) : Nat × Machine σ :=
  let v := (d.read r m.dev).1 % 65536
  (v, { m with dev := (d.read r m.dev).2, trace := m.trace ++ [Access.rd r v] })

/-- A `vu16` write: the value is truncated to 16 bits. -/
def busWrite {σ : Type} (d : Device σ) (r : Reg) (v : Nat) (m : Machine σ) : Machine σ :=
  { m with dev := d.write r (v % 65536) m.dev, trace := m.trace ++ [Access.wr r (v % 65536)] }

/-! ## Memory -/

/-- Load of a `u8`. -/
def load8 (mem : Nat → Nat) (a : Nat) : Nat := mem a % 256

/-- Store of a `u8`. -/
def store8 (mem : Nat → Nat) (a v : Nat) : Nat → Nat :=
  fun x => if x = a then v % 256 else mem x

/-- Load of a `u16`, little-endian.  Exact for an even `a`; the source leaves a
`u16` load at an odd address undefined. -/
def load16 (mem : Nat → Nat) (a : Nat) : Nat := load8 mem a + 256 * load8 mem (a + 1)

/-- Store of a `u16`, little-endian.  Exact for an even `a`; the source leaves
a `u16` store at an odd address undefined. -/
def store16 (mem : Nat → Nat) (a v : Nat) : Nat → Nat :=
  store8 (store8 mem a (v % 256)) (a + 1) (v / 256 % 256)

/-! ## The bounded status polls -/

/-- The loop `while (cont (REG_MMP_STS) && (i < CF_CARD_TIMEOUT)) i++;`.
The register is sampled before `i` is compared, as `&&` evaluates left to right.
Returns the final `i`.  `fuel` bounds the recursion; `T + 1 - i` is enough. -/
def pollLoop {σ : Type} (d : Device σ) (T : Nat) (cont : Nat → Bool) :
    Nat → Nat → Machine σ → Nat × Machine σ
  | 0, i, m => (i, m)
  | fuel + 1, i, m =>
    let r := busRead d Reg.STS_CMD m
    if cont r.1 && decide (i < T) then pollLoop d T cont fuel (i + 1) r.2
    else (i, r.2)

/-- A poll entered with `i = 0`. -/
def poll {σ : Type} (d : Device σ) (T : Nat) (cont : Nat → Bool) (m : Machine σ) :
    Nat × Machine σ :=
  pollLoop d T cont (T + 1) 0 m

/-- Lines 134-138: `while ((REG_MMP_CMD & CF_STS_BUSY) && (i < CF_CARD_TIMEOUT))`. -/
def waitWhileBusy {σ : Type} (c : Consts) (d : Device σ) (m : Machine σ) : Nat × Machine σ :=
  poll d c.CF_CARD_TIMEOUT (fun v => v &&& c.CF_STS_BUSY != 0) m

/-- Lines 141-145: `while ((!(REG_MMP_STS & CF_STS_INSERTED)) && (i < CF_CARD_TIMEOUT))`. -/
def waitUntilInserted {σ : Type} (c : Consts) (d : Device σ) (m : Machine σ) :
    Nat × Machine σ :=
  poll d c.CF_CARD_TIMEOUT (fun v => !(v &&& c.CF_STS_INSERTED != 0)) m

/-- Lines 165-169: `while (((REG_MMP_STS & 0xff) != CF_STS_READY) && (i < CF_CARD_TIMEOUT))`. -/
def waitUntilReady {σ : Type} (c : Consts) (d : Device σ) (m : Machine σ) : Nat × Machine σ :=
  poll d c.CF_CARD_TIMEOUT (fun v => v &&& 0xff != c.CF_STS_READY) m

/-- The two waits that open `_MMCF_clearStatus`, `_MMCF_readSectors` and
`_MMCF_writeSectors`.  The counter of the first wait is overwritten by `i = 0`;
the counter of the second is returned. -/
def preludeWaits {σ : Type} (c : Consts) (d : Device σ) (m : Machine σ) : Nat × Machine σ :=
  waitUntilInserted c d (waitWhileBusy c d m).2

/-! ## The entry points -/

/-- `_MMCF_isInserted` (lines 76-80). -/
def _MMCF_isInserted {σ : Type} (c : Consts) (d : Device σ) (m : Machine σ) :
    Bool × Machine σ :=
  let m1 := busWrite d Reg.STS_CMD c.CF_STS_INSERTED m
  let r := busRead d Reg.STS_CMD m1
  (decide (r.1 &&& 0xff = c.CF_STS_INSERTED), r.2)

/-- `_MMCF_clearStatus` (lines 88-108). -/
def _MMCF_clearStatus {σ : Type} (c : Consts) (d : Device σ) (m : Machine σ) :
    Bool × Machine σ :=
  let r := preludeWaits c d m
  if r.1 ≥ c.CF_CARD_TIMEOUT then (false, r.2) else (true, r.2)

/-- `_MMCF_shutdown` (lines 313-315). -/
def _MMCF_shutdown {σ : Type} (c : Consts) (d : Device σ) (m : Machine σ) :
    Bool × Machine σ :=
  _MMCF_clearStatus c d m

/-- Lines 149-159 and 249-259: sector count, the four address bytes, then the
opcode. -/
def issueCommand {σ : Type} (c : Consts) (d : Device σ) (opcode sector numSectors : Nat)
    (m : Machine σ) : Machine σ :=
  let m := busWrite d Reg.SEC (if numSectors < 256 then numSectors else 0) m
  let m := busWrite d Reg.LBA1 (sector &&& 0xFF) m
  let m := busWrite d Reg.LBA2 ((sector >>> 8) &&& 0xFF) m
  let m := busWrite d Reg.LBA3 ((sector >>> 16) &&& 0xFF) m
  let m := busWrite d Reg.LBA4 (((sector >>> 24) &&& 0x0F) ||| c.CF_CMD_LBA) m
  busWrite d Reg.STS_CMD opcode m

/-- Lines 186-191: `while (i--) { temp = *MMP_DATA; *buff_u8++ = temp & 0xFF;
*buff_u8++ = temp >> 8; }`.  Returns the advanced `buff_u8`. -/
def readBytes {σ : Type} (d : Device σ) : Nat → Nat → Machine σ → Nat × Machine σ
  | 0, buff_u8, m => (buff_u8, m)
  | i + 1, buff_u8, m =>
    let r := busRead d Reg.DATA m
    let temp := r.1
    let mem1 := store8 r.2.mem buff_u8 (temp &&& 0xFF)
    let mem2 := store8 mem1 (buff_u8 + 1) (temp >>> 8)
    readBytes d i (buff_u8 + 2) { r.2 with mem := mem2 }

/-- Lines 193-194 and 198-199: `while (i--) *buff++ = *MMP_DATA;`.  Returns the
advanced `buff`.  Exact for an even `buff` (the only case in which the
`_CF_ALLOW_UNALIGNED` build gets here); for an odd `buff` the `u16` stores of
the source are misaligned and undefined. -/
def readHalfwords {σ : Type} (d : Device σ) : Nat → Nat → Machine σ → Nat × Machine σ
  | 0, buff, m => (buff, m)
  | i + 1, buff, m =>
    let r := busRead d Reg.DATA m
    readHalfwords d i (buff + 2) { r.2 with mem := store16 r.2.mem buff r.1 }

/-- Lines 183-200: the transfer of one sector from the data port.  Takes and
returns the pair `(buff, buff_u8)`. -/
def readData {σ : Type} (b : Build) (d : Device σ) (p : Nat × Nat) (m : Machine σ) :
    (Nat × Nat) × Machine σ :=
  match b with
  | Build.allowUnaligned =>
    if p.2 &&& 0x01 != 0 then
      let r := readBytes d 256 p.2 m
      ((p.1, r.1), r.2)
    else
      let r := readHalfwords d 256 p.1 m
      ((r.1, p.2), r.2)
  | Build.direct =>
    let r := readHalfwords d 256 p.1 m
    ((r.1, p.2), r.2)

/-- Lines 162-206: `while (numSectors--) { ... }` and the final `return true`. -/
def readSectorLoop {σ : Type} (c : Consts) (b : Build) (d : Device σ) :
    Nat → Nat × Nat → Machine σ → Bool × Machine σ
  | 0, _, m => (true, m)
  | numSectors + 1, p, m =>
    let w := waitUntilReady c d m
    if w.1 ≥ c.CF_CARD_TIMEOUT then (false, w.2)
    else
      let r := readData b d p w.2
      readSectorLoop c b d numSectors r.1 r.2

/-- `_MMCF_readSectors` (lines 120-207).  `sector` and `numSectors` are `u32`. -/
def _MMCF_readSectors {σ : Type} (c : Consts) (b : Build) (d : Device σ)
    (sector numSectors buffer : Nat) (m : Machine σ) : Bool × Machine σ :=
  let sector := sector % 4294967296
  let numSectors := numSectors % 4294967296
  let r := preludeWaits c d m
  if r.1 ≥ c.CF_CARD_TIMEOUT then (false, r.2)
  else
    readSectorLoop c b d numSectors (buffer, buffer)
      (issueCommand c d c.CF_CMD_READ sector numSectors r.2)

/-- Lines 285-290: `while (i--) { temp = *buff_u8++; temp |= *buff_u8++ << 8;
*MMP_DATA = temp; }`. -/
def writeBytes {σ : Type} (d : Device σ) : Nat → Nat → Machine σ → Nat × Machine σ
  | 0, buff_u8, m => (buff_u8, m)
  | i + 1, buff_u8, m =>
    let temp := load8 m.mem buff_u8
    let temp := temp ||| (load8 m.mem (buff_u8 + 1) <<< 8)
    writeBytes d i (buff_u8 + 2) (busWrite d Reg.DATA temp m)

/-- Lines 292-293 and 297-298: `while (i--) *MMP_DATA = *buff++;`.  Exact for an
even `buff` (the only case in which the `_CF_ALLOW_UNALIGNED` build gets here);
for an odd `buff` the `u16` loads of the source are misaligned and undefined. -/
def writeHalfwords {σ : Type} (d : Device σ) : Nat → Nat → Machine σ → Nat × Machine σ
  | 0, buff, m => (buff, m)
  | i + 1, buff, m =>
    writeHalfwords d i (buff + 2) (busWrite d Reg.DATA (load16 m.mem buff) m)

/-- Lines 282-299: the transfer of one sector to the data port. -/
def writeData {σ : Type} (b : Build) (d : Device σ) (p : Nat × Nat) (m : Machine σ) :
    (Nat × Nat) × Machine σ :=
  match b with
  | Build.allowUnaligned =>
    if p.2 &&& 0x01 != 0 then
      let r := writeBytes d 256 p.2 m
      ((p.1, r.1), r.2)
    else
      let r := writeHalfwords d 256 p.1 m
      ((r.1, p.2), r.2)
  | Build.direct =>
    let r := writeHalfwords d 256 p.1 m
    ((r.1, p.2), r.2)

/-- Lines 261-306: `while (numSectors--) { ... }` and the final `return true`. -/
def writeSectorLoop {σ : Type} (c : Consts) (b : Build) (d : Device σ) :
    Nat → Nat × Nat → Machine σ → Bool × Machine σ
  | 0, _, m => (true, m)
  | numSectors + 1, p, m =>
    let w := waitUntilReady c d m
    if w.1 ≥ c.CF_CARD_TIMEOUT then (false, w.2)
    else
      let r := writeData b d p w.2
      writeSectorLoop c b d numSectors r.1 r.2

/-- `_MMCF_writeSectors` (lines 220-307). -/
def _MMCF_writeSectors {σ : Type} (c : Consts) (b : Build) (d : Device σ)
    (sector numSectors buffer : Nat) (m : Machine σ) : Bool × Machine σ :=
  let sector := sector % 4294967296
  let numSectors := numSectors % 4294967296
  let r := preludeWaits c d m
  if r.1 ≥ c.CF_CARD_TIMEOUT then (false, r.2)
  else
    writeSectorLoop c b d numSectors (buffer, buffer)
      (issueCommand c d c.CF_CMD_WRITE sector numSectors r.2)

/-- `_MMCF_startUp` (lines 322-336).  `~temp & 0xFF` is computed on the promoted
32-bit `int`. -/
def _MMCF_startUp {σ : Type} (d : Device σ) (m : Machine σ) : Bool × Machine σ :=
  let r0 := busRead d Reg.LBA1 m
  let temp := r0.1
  let m1 := busWrite d Reg.LBA1 ((4294967295 - temp) &&& 0xFF) r0.2
  let temp := ((4294967295 - temp) &&& 0xFF) % 65536
  let r1 := busRead d Reg.LBA1 m1
  if !(r1.1 == temp) then (false, r1.2)
  else
    let m2 := busWrite d Reg.LBA1 0xAA55 r1.2
    let r2 := busRead d Reg.LBA1 m2
    if r2.1 == 0xAA55 then (false, r2.2) else (true, r2.2)

/-! ## Reading the bus trace -/

/-- A sample of the status register. -/
def Access.isStatusRead : Access → Bool
  | Access.rd Reg.STS_CMD _ => true
  | _ => false

/-- A read of the data port. -/
def Access.isDataRead : Access → Bool
  | Access.rd Reg.DATA _ => true
  | _ => false

/-- A write of the data port. -/
def Access.isDataWrite : Access → Bool
  | Access.wr Reg.DATA _ => true
  | _ => false

/-- Any access of the data port. -/
def Access.isData (a : Access) : Bool := a.isDataRead || a.isDataWrite

/-- A write to a register other than the data port. -/
def Access.isRegWrite : Access → Bool
  | Access.wr Reg.DATA _ => false
  | Access.wr _ _ => true
  | _ => false

/-- The words read from the data port, in order. -/
def dataReads (t : List Access) : List Nat :=
  t.filterMap fun a => match a with
    | Access.rd Reg.DATA v => some v
    | _ => none

/-- The words written to the data port, in order. -/
def dataWrites (t : List Access) : List Nat :=
  t.filterMap fun a => match a with
    | Access.wr Reg.DATA v => some v
    | _ => none

/-- The values written to register `r`, in order. -/
def writesTo (r : Reg) (t : List Access) : List Nat :=
  t.filterMap fun a => match a with
    | Access.wr q v => if q = r then some v else none
    | _ => none

/-- The number of samples of the status register. -/
def statusSamples (t : List Access) : Nat := t.countP Access.isStatusRead

/-! ## What the card sees during one sector -/

/-- The words delivered by `n` successive reads of the data port, and the card
afterwards. -/
def drain {σ : Type} (d : Device σ) : Nat → σ → List Nat × σ
  | 0, s => ([], s)
  | n + 1, s =>
    let r := drain d n (d.read Reg.DATA s).2
    ((d.read Reg.DATA s).1 % 65536 :: r.1, r.2)

/-- The card after the words `ws` were written to the data port. -/
def feed {σ : Type} (d : Device σ) : List Nat → σ → σ
  | [], s => s
  | w :: ws, s => feed d ws (d.write Reg.DATA (w % 65536) s)

/-- Memory after the 16-bit words `ws` were stored from address `a` on. -/
def storeWords (mem : Nat → Nat) : Nat → List Nat → Nat → Nat
  | _, [] => mem
  | a, w :: ws => storeWords (store16 mem a w) (a + 2) ws

/-- The `n` 16-bit words held by memory from address `a` on. -/
def loadWords (mem : Nat → Nat) : Nat → Nat → List Nat
  | _, 0 => []
  | a, n + 1 => load16 mem a :: loadWords mem (a + 2) n

/-- The address at which the next sector is transferred, given the pair
`(buff, buff_u8)`. -/
def cursor (b : Build) (p : Nat × Nat) : Nat :=
  match b with
  | Build.allowUnaligned => if p.2 &&& 0x01 != 0 then p.2 else p.1
  | Build.direct => p.1

/-! ## The per-sector ready-waits of a run -/

/-- Pointers and machine at the start of iteration `k` of the loop of
`_MMCF_readSectors`, none of the earlier waits having timed out. -/
def readIter {σ : Type} (c : Consts) (b : Build) (d : Device σ) :
    Nat → (Nat × Nat) × Machine σ → (Nat × Nat) × Machine σ
  | 0, x => x
  | k + 1, x => readIter c b d k (readData b d x.1 (waitUntilReady c d x.2).2)

/-- The ready-wait of sector `k` of a read succeeds. -/
def readReadyOK {σ : Type} (c : Consts) (b : Build) (d : Device σ)
    (x : (Nat × Nat) × Machine σ) (k : Nat) : Bool :=
  decide ((waitUntilReady c d (readIter c b d k x).2).1 < c.CF_CARD_TIMEOUT)

/-- Pointers and machine at the start of iteration `k` of the loop of
`_MMCF_writeSectors`, none of the earlier waits having timed out. -/
def writeIter {σ : Type} (c : Consts) (b : Build) (d : Device σ) :
    Nat → (Nat × Nat) × Machine σ → (Nat × Nat) × Machine σ
  | 0, x => x
  | k + 1, x => writeIter c b d k (writeData b d x.1 (waitUntilReady c d x.2).2)

/-- The ready-wait of sector `k` of a write succeeds. -/
def writeReadyOK {σ : Type} (c : Consts) (b : Build) (d : Device σ)
    (x : (Nat × Nat) × Machine σ) (k : Nat) : Bool :=
  decide ((waitUntilReady c d (writeIter c b d k x).2).1 < c.CF_CARD_TIMEOUT)

/-- The machine on which the per-sector loop of a read or write starts: after
the opening waits and the six register writes. -/
def commandIssued {σ : Type} (c : Consts) (d : Device σ) (opcode sector numSectors : Nat)
    (m : Machine σ) : Machine σ :=
  issueCommand c d opcode (sector % 4294967296) (numSectors % 4294967296)
    (preludeWaits c d m).2

/-- The six register writes of a command, in order. -/
def commandWrites (c : Consts) (opcode sector numSectors : Nat) : List Access :=
  [Access.wr Reg.SEC ((if numSectors < 256 then numSectors else 0) % 65536),
   Access.wr Reg.LBA1 ((sector &&& 0xFF) % 65536),
   Access.wr Reg.LBA2 (((sector >>> 8) &&& 0xFF) % 65536),
   Access.wr Reg.LBA3 (((sector >>> 16) &&& 0xFF) % 65536),
   Access.wr Reg.LBA4 ((((sector >>> 24) &&& 0x0F) ||| c.CF_CMD_LBA) % 65536),
   Access.wr Reg.STS_CMD (opcode % 65536)]

/-! ## Example cards -/

/-- An instance of the constants: the usual ATA status bits and opcodes, with
polling bound `T`. -/
def sampleConsts (T : Nat) : Consts :=
  { CF_STS_INSERTED := 0x50
    CF_STS_BUSY := 0x80
    CF_STS_READY := 0x58
    CF_CMD_LBA := 0xE0
    CF_CMD_READ := 0x20
    CF_CMD_WRITE := 0x30
    CF_CARD_TIMEOUT := T }

/-- A card without state: the status register always reads `sts`, the data
port always delivers `w`, every other register reads `other`; writes are
ignored. -/
def constCard (sts w other : Nat) : Device Unit :=
  { read := fun r s =>
      (match r with
        | Reg.STS_CMD => sts
        | Reg.DATA => w
        | _ => other, s)
    write := fun _ _ s => s }

/-- A memory holding zeroes. -/
def zeroMem : Nat → Nat := fun _ => 0

/-! ## Well-behaved cards and the simulated medium -/

/-- The card after the six register writes of a command, seen from the card. -/
def latch {σ : Type} (c : Consts) (d : Device σ) (opcode sector numSectors : Nat) (s : σ) : σ :=
  let s := d.write Reg.SEC ((if numSectors < 256 then numSectors else 0) % 65536) s
  let s := d.write Reg.LBA1 ((sector &&& 0xFF) % 65536) s
  let s := d.write Reg.LBA2 (((sector >>> 8) &&& 0xFF) % 65536) s
  let s := d.write Reg.LBA3 (((sector >>> 16) &&& 0xFF) % 65536) s
  let s := d.write Reg.LBA4 ((((sector >>> 24) &&& 0x0F) ||| c.CF_CMD_LBA) % 65536) s
  d.write Reg.STS_CMD (opcode % 65536) s

/-- Every sample of the status register shows the card not busy, inserted and
ready. -/
def AlwaysReady {σ : Type} (c : Consts) (d : Device σ) : Prop :=
  ∀ s, ((d.read Reg.STS_CMD s).1 % 65536) &&& c.CF_STS_BUSY = 0 ∧
    ((d.read Reg.STS_CMD s).1 % 65536) &&& c.CF_STS_INSERTED ≠ 0 ∧
    ((d.read Reg.STS_CMD s).1 % 65536) &&& 0xff = c.CF_STS_READY

/-- Sampling the status register does not change the card. -/
def PureStatus {σ : Type} (d : Device σ) : Prop :=
  ∀ s, (d.read Reg.STS_CMD s).2 = s

/-- The state of the simulated medium: the stored 16-bit words by word address,
the latched registers, and the word address of the next data-port transfer. -/
structure SimCard where
  store : Nat → Nat
  sec : Nat
  lba1 : Nat
  lba2 : Nat
  lba3 : Nat
  lba4 : Nat
  pos : Nat

/-- The sector addressed by the latched registers. -/
def SimCard.lba (s : SimCard) : Nat :=
  s.lba1 % 256 + 256 * (s.lba2 % 256) + 65536 * (s.lba3 % 256) + 16777216 * (s.lba4 % 16)

/-- The simulated medium of the round-trip law.  A read or write opcode in the
command register starts a transfer at the addressed sector; each write of the
data port stores one word and each read returns one, in order; the status
register always reads `sts`. -/
def simCard (c : Consts) (sts : Nat) : Device SimCard :=
  { read := fun r s =>
      match r with
      | Reg.STS_CMD => (sts, s)
      | Reg.ERR => (0, s)
      | Reg.SEC => (s.sec, s)
      | Reg.LBA1 => (s.lba1, s)
      | Reg.LBA2 => (s.lba2, s)
      | Reg.LBA3 => (s.lba3, s)
      | Reg.LBA4 => (s.lba4, s)
      | Reg.DATA => (s.store s.pos, { s with pos := s.pos + 1 })
    write := fun r v s =>
      match r with
      | Reg.STS_CMD =>
        if v = c.CF_CMD_READ % 65536 ∨ v = c.CF_CMD_WRITE % 65536 then
          { s with pos := 256 * s.lba }
        else s
      | Reg.ERR => s
      | Reg.SEC => { s with sec := v }
      | Reg.LBA1 => { s with lba1 := v }
      | Reg.LBA2 => { s with lba2 := v }
      | Reg.LBA3 => { s with lba3 := v }
      | Reg.LBA4 => { s with lba4 := v }
      | Reg.DATA =>
        { s with store := fun a => if a = s.pos then v else s.store a, pos := s.pos + 1 } }

/-- A blank simulated medium. -/
def blankSim : SimCard :=
  { store := fun _ => 0, sec := 0, lba1 := 0, lba2 := 0, lba3 := 0, lba4 := 0, pos := 0 }

/-- A memory holding the incrementing bytes 0, 1, 2, ... (modulo 256). -/
def countingMem : Nat → Nat := fun a => a % 256

/-- The word address at which the simulated medium starts a transfer for
`sector`, as decoded from the four address registers. -/
def simStart (c : Consts) (sector : Nat) : Nat :=
  256 * (((sector &&& 0xFF) % 65536) % 256
    + 256 * ((((sector >>> 8) &&& 0xFF) % 65536) % 256)
    + 65536 * ((((sector >>> 16) &&& 0xFF) % 65536) % 256)
    + 16777216 * (((((sector >>> 24) &&& 0x0F) ||| c.CF_CMD_LBA) % 65536) % 16))

/-- Six register writes, in the order sector count, LBA1, LBA2, LBA3, LBA4,
command. -/
def sixWrites (sec lba1 lba2 lba3 lba4 cmd : Nat) : List Access :=
  [Access.wr Reg.SEC sec, Access.wr Reg.LBA1 lba1, Access.wr Reg.LBA2 lba2,
   Access.wr Reg.LBA3 lba3, Access.wr Reg.LBA4 lba4, Access.wr Reg.STS_CMD cmd]

/-- A card that is ready until `limit` words went through its data port and
from then on reports inserted but not ready.  Its state counts the words. -/
def fadingCard (limit : Nat) : Device Nat :=
  { read := fun r s =>
      match r with
      | Reg.STS_CMD => (if s < limit then 0x58 else 0x50, s)
      | Reg.DATA => (0x1234, s + 1)
      | _ => (0, s)
    write := fun r _ s =>
      match r with
      | Reg.DATA => s + 1
      | _ => s }

/-- The pattern `~temp & 0xFF` that `_MMCF_startUp` writes to LBA1, as a
function of the card: the low byte of the initial value, inverted. -/
def probePattern {σ : Type} (d : Device σ) (s : σ) : Nat :=
  255 - ((d.read Reg.LBA1 s).1 % 65536) % 256

/-- The 16-bit value read back from LBA1 after the pattern was written, and
the card afterwards. -/
def probeReadback {σ : Type} (d : Device σ) (s : σ) : Nat × σ :=
  let r := d.read Reg.LBA1 (d.write Reg.LBA1 (probePattern d s) (d.read Reg.LBA1 s).2)
  (r.1 % 65536, r.2)

/-- The 16-bit value read back from LBA1 after 0xAA55 was written. -/
def wideReadback {σ : Type} (d : Device σ) (s : σ) : Nat :=
  (d.read Reg.LBA1 (d.write Reg.LBA1 0xAA55 (probeReadback d s).2)).1 % 65536

/-- A card whose LBA1 register is 8 bits wide: it keeps the low byte of what is
written and reads it back. -/
def byteCard : Device Nat :=
  { read := fun r s =>
      match r with
      | Reg.LBA1 => (s, s)
      | Reg.STS_CMD => (0x58, s)
      | _ => (0, s)
    write := fun r v s =>
      match r with
      | Reg.LBA1 => v % 256
      | _ => s }

/-! ## The status samples a card would deliver -/

/-- The card after `j` successive reads of the status register. -/
def statusAfter {σ : Type} (d : Device σ) : Nat → σ → σ
  | 0, s => s
  | j + 1, s => statusAfter d j (d.read Reg.STS_CMD s).2

/-- The 16-bit value that sample number `j + 1` of the status register
delivers, counting from card state `s`. -/
def nthStatus {σ : Type} (d : Device σ) (s : σ) (j : Nat) : Nat :=
  (d.read Reg.STS_CMD (statusAfter d j s)).1 % 65536

/-- A card whose status register reads `before` on its first `k` samples and
`after` from then on.  Its state counts the samples taken; the data port
delivers 0 and writes are ignored. -/
def lateCard (k before after : Nat) : Device Nat :=
  { read := fun r s =>
      match r with
      | Reg.STS_CMD => (if s < k then before else after, s + 1)
      | _ => (0, s)
    write := fun _ _ s => s }

/-! ## Basic facts -/

section Basic

variable {σ : Type}

@[simp] theorem busRead_mem (d : Device σ) (r : Reg) (m : Machine σ) :
    (busRead d r m).2.mem = m.mem := rfl

@[simp] theorem busRead_trace (d : Device σ) (r : Reg) (m : Machine σ) :
    (busRead d r m).2.trace = m.trace ++ [Access.rd r (busRead d r m).1] := rfl

@[simp] theorem busRead_dev (d : Device σ) (r : Reg) (m : Machine σ) :
    (busRead d r m).2.dev = (d.read r m.dev).2 := rfl

theorem busRead_val (d : Device σ) (r : Reg) (m : Machine σ) :
    (busRead d r m).1 = (d.read r m.dev).1 % 65536 := rfl

@[simp] theorem busWrite_mem (d : Device σ) (r : Reg) (v : Nat) (m : Machine σ) :
    (busWrite d r v m).mem = m.mem := rfl

@[simp] theorem busWrite_trace (d : Device σ) (r : Reg) (v : Nat) (m : Machine σ) :
    (busWrite d r v m).trace = m.trace ++ [Access.wr r (v % 65536)] := rfl

@[simp] theorem busWrite_dev (d : Device σ) (r : Reg) (v : Nat) (m : Machine σ) :
    (busWrite d r v m).dev = d.write r (v % 65536) m.dev := rfl

/-- Every poll returns: it adds `i + 1` samples of the status register to the
trace, where `i ≤ T` is the returned counter, and touches no memory. -/
theorem pollLoop_spec (d : Device σ) (T : Nat) (cont : Nat → Bool) :
    ∀ (fuel i : Nat) (m : Machine σ), i ≤ T → T + 1 ≤ fuel + i →
      ∃ t, (pollLoop d T cont fuel i m).2.trace = m.trace ++ t ∧
        (∀ a ∈ t, a.isStatusRead = true) ∧
        t.length + i = (pollLoop d T cont fuel i m).1 + 1 ∧
        (pollLoop d T cont fuel i m).1 ≤ T ∧
        (pollLoop d T cont fuel i m).2.mem = m.mem := by
  intro fuel
  induction fuel with
  | zero => intro i m h1 h2; omega
  | succ fuel ih =>
    intro i m h1 h2
    by_cases hc : (cont (busRead d Reg.STS_CMD m).1 && decide (i < T)) = true
    · have hlt : i < T := by
        simp only [Bool.and_eq_true, decide_eq_true_eq] at hc
        exact hc.2
      obtain ⟨t, ht, hs, hl, hle, hm⟩ :=
        ih (i + 1) (busRead d Reg.STS_CMD m).2 hlt (by omega)
      refine ⟨Access.rd Reg.STS_CMD (busRead d Reg.STS_CMD m).1 :: t, ?_, ?_, ?_, ?_, ?_⟩
      · simp only [pollLoop, hc, if_true, ht, busRead_trace, List.append_assoc,
          List.singleton_append]
      · intro a ha
        rcases List.mem_cons.1 ha with h | h
        · subst h; rfl
        · exact hs a h
      · simp only [pollLoop, hc, if_true, List.length_cons]; omega
      · simpa only [pollLoop, hc, if_true] using hle
      · simpa only [pollLoop, hc, if_true, busRead_mem] using hm
    · have hp : pollLoop d T cont (fuel + 1) i m = (i, (busRead d Reg.STS_CMD m).2) := by
        simp only [pollLoop, hc, Bool.false_eq_true, if_false]
      refine ⟨[Access.rd Reg.STS_CMD (busRead d Reg.STS_CMD m).1], ?_, ?_, ?_, ?_, ?_⟩
      · rw [hp]; rfl
      · intro a ha
        rw [List.mem_singleton] at ha; subst ha; rfl
      · rw [hp]; simp only [List.length_singleton]; omega
      · rw [hp]; exact h1
      · rw [hp]; rfl

end Basic

/-! ## Memory facts -/

theorem load8_lt (mem : Nat → Nat) (a : Nat) : load8 mem a < 256 :=
  Nat.mod_lt _ (by decide)

theorem load16_lt (mem : Nat → Nat) (a : Nat) : load16 mem a < 65536 := by
  have h1 := load8_lt mem a
  have h2 := load8_lt mem (a + 1)
  unfold load16; omega

theorem or_shift_eq (x y : Nat) (hx : x < 256) : x ||| (y <<< 8) = x + 256 * y := by
  have h := Nat.mul_add_lt_is_or (i := 8) (b := x) (by simpa using hx) y
  rw [Nat.lor_comm, Nat.shiftLeft_eq, Nat.mul_comm y, ← h]; omega

theorem and_ff (x : Nat) : x &&& 0xFF = x % 256 :=
  Nat.and_pow_two_sub_one_eq_mod x 8

theorem shr8 (x : Nat) : x >>> 8 = x / 256 := by
  rw [Nat.shiftRight_eq_div_pow]

theorem load8_store8 (mem : Nat → Nat) (a v x : Nat) :
    load8 (store8 mem a v) x = if x = a then v % 256 else load8 mem x := by
  unfold load8 store8
  by_cases h : x = a <;> simp [h]

theorem load8_store16 (mem : Nat → Nat) (a v x : Nat) :
    load8 (store16 mem a v) x =
      if x = a then v % 256 else if x = a + 1 then v / 256 % 256 else load8 mem x := by
  unfold store16
  rw [load8_store8, load8_store8]
  by_cases h1 : x = a + 1
  · have : x ≠ a := by omega
    simp [h1]
  · simp [h1]

theorem storeWords_append (mem : Nat → Nat) (a : Nat) (ws vs : List Nat) :
    storeWords mem a (ws ++ vs) = storeWords (storeWords mem a ws) (a + 2 * ws.length) vs := by
  induction ws generalizing mem a with
  | nil => rfl
  | cons w ws ih =>
    show storeWords (store16 mem a w) (a + 2) (ws ++ vs) = _
    rw [ih]
    have e : a + 2 + 2 * ws.length = a + 2 * (ws.length + 1) := by omega
    simp only [storeWords, List.length_cons, e]

theorem load8_storeWords_outside (ws : List Nat) : ∀ (mem : Nat → Nat) (a x : Nat),
    (x < a ∨ a + 2 * ws.length ≤ x) → load8 (storeWords mem a ws) x = load8 mem x := by
  induction ws with
  | nil => intro mem a x _; rfl
  | cons w ws ih =>
    intro mem a x hx
    simp only [storeWords, List.length_cons] at hx ⊢
    rw [ih _ _ _ (by omega), load8_store16]
    have h1 : x ≠ a := by omega
    have h2 : x ≠ a + 1 := by omega
    simp [h1, h2]

theorem load8_storeWords_inside (ws : List Nat) : ∀ (mem : Nat → Nat) (a j w : Nat),
    ws[j]? = some w →
      load8 (storeWords mem a ws) (a + 2 * j) = w % 256 ∧
      load8 (storeWords mem a ws) (a + 2 * j + 1) = w / 256 % 256 := by
  induction ws with
  | nil => intro mem a j w h; simp at h
  | cons v ws ih =>
    intro mem a j w h
    cases j with
    | zero =>
      simp only [List.getElem?_cons_zero, Option.some.injEq] at h
      subst h
      simp only [storeWords]
      rw [load8_storeWords_outside _ _ _ _ (by omega),
        load8_storeWords_outside _ _ _ _ (by omega), load8_store16, load8_store16]
      simp
    | succ j =>
      simp only [List.getElem?_cons_succ] at h
      have := ih (store16 mem a v) (a + 2) j w h
      simp only [storeWords]
      have e1 : a + 2 * (j + 1) = a + 2 + 2 * j := by omega
      rw [e1]
      exact this

/-! ## The transfer of one sector, in closed form -/

section Loops

variable {σ : Type}

theorem drain_length (d : Device σ) : ∀ (n : Nat) (s : σ), (drain d n s).1.length = n := by
  intro n
  induction n with
  | zero => intro s; rfl
  | succ n ih => intro s; simp only [drain, List.length_cons, ih]

theorem loadWords_length (mem : Nat → Nat) : ∀ (n a : Nat), (loadWords mem a n).length = n := by
  intro n
  induction n with
  | zero => intro a; rfl
  | succ n ih => intro a; simp only [loadWords, List.length_cons, ih]

theorem store8_bytes (mem : Nat → Nat) (p v : Nat) :
    store8 (store8 mem p (v &&& 0xFF)) (p + 1) (v >>> 8) = store16 mem p v := by
  funext x
  simp only [store8, store16, and_ff, shr8, Nat.mod_mod]

theorem readHalfwords_eq (d : Device σ) : ∀ (n p : Nat) (m : Machine σ),
    readHalfwords d n p m =
      (p + 2 * n,
        { dev := (drain d n m.dev).2
          mem := storeWords m.mem p (drain d n m.dev).1
          trace := m.trace ++ (drain d n m.dev).1.map (Access.rd Reg.DATA) }) := by
  intro n
  induction n with
  | zero => intro p m; simp [readHalfwords, drain, storeWords]
  | succ n ih =>
    intro p m
    simp only [readHalfwords, ih, drain, storeWords, List.map_cons, busRead, List.append_assoc,
      List.singleton_append]
    congr 1
    omega

theorem readBytes_eq (d : Device σ) : ∀ (n p : Nat) (m : Machine σ),
    readBytes d n p m = readHalfwords d n p m := by
  intro n
  induction n with
  | zero => intro p m; rfl
  | succ n ih =>
    intro p m
    simp only [readBytes, readHalfwords, ih, store8_bytes]

theorem writeHalfwords_eq (d : Device σ) : ∀ (n p : Nat) (m : Machine σ),
    writeHalfwords d n p m =
      (p + 2 * n,
        { dev := feed d (loadWords m.mem p n) m.dev
          mem := m.mem
          trace := m.trace ++ (loadWords m.mem p n).map (Access.wr Reg.DATA) }) := by
  intro n
  induction n with
  | zero => intro p m; simp [writeHalfwords, loadWords, feed]
  | succ n ih =>
    intro p m
    simp only [writeHalfwords, ih, loadWords, feed, List.map_cons, busWrite, List.append_assoc,
      List.singleton_append, Nat.mod_eq_of_lt (load16_lt _ _)]
    congr 1
    omega

theorem writeBytes_eq (d : Device σ) : ∀ (n p : Nat) (m : Machine σ),
    writeBytes d n p m = writeHalfwords d n p m := by
  intro n
  induction n with
  | zero => intro p m; rfl
  | succ n ih =>
    intro p m
    simp only [writeBytes, writeHalfwords, ih, or_shift_eq _ _ (load8_lt _ _), load16]

theorem and_one_add_even (x k : Nat) : (x + 2 * k) &&& 0x01 = x &&& 0x01 := by
  have h1 : ∀ y : Nat, y &&& 0x01 = y % 2 := fun y => Nat.and_pow_two_sub_one_eq_mod y 1
  rw [h1, h1]; omega

/-- One sector read: 256 words are drained from the data port and stored,
little-endian, at the cursor; the cursor advances by 512. -/
theorem readData_eq (b : Build) (d : Device σ) (p : Nat × Nat) (m : Machine σ) :
    (readData b d p m).2 =
        { dev := (drain d 256 m.dev).2
          mem := storeWords m.mem (cursor b p) (drain d 256 m.dev).1
          trace := m.trace ++ (drain d 256 m.dev).1.map (Access.rd Reg.DATA) } ∧
      cursor b (readData b d p m).1 = cursor b p + 512 := by
  cases b with
  | allowUnaligned =>
    by_cases h : (p.2 &&& 0x01 != 0) = true
    · have h2 : ((p.2 + 2 * 256) &&& 0x01 != 0) = true := by rw [and_one_add_even]; exact h
      simp only [readData, cursor, h, if_true, readBytes_eq, readHalfwords_eq, h2, and_self]
    · simp only [readData, cursor, h, readHalfwords_eq, Bool.false_eq_true, if_false, and_self]
  | direct => simp only [readData, cursor, readHalfwords_eq, and_self]

/-- One sector written: the 256 words at the cursor are fed to the data port;
the cursor advances by 512. -/
theorem writeData_eq (b : Build) (d : Device σ) (p : Nat × Nat) (m : Machine σ) :
    (writeData b d p m).2 =
        { dev := feed d (loadWords m.mem (cursor b p) 256) m.dev
          mem := m.mem
          trace := m.trace ++ (loadWords m.mem (cursor b p) 256).map (Access.wr Reg.DATA) } ∧
      cursor b (writeData b d p m).1 = cursor b p + 512 := by
  cases b with
  | allowUnaligned =>
    by_cases h : (p.2 &&& 0x01 != 0) = true
    · have h2 : ((p.2 + 2 * 256) &&& 0x01 != 0) = true := by rw [and_one_add_even]; exact h
      simp only [writeData, cursor, h, if_true, writeBytes_eq, writeHalfwords_eq, h2, and_self]
    · simp only [writeData, cursor, h, writeHalfwords_eq, Bool.false_eq_true, if_false, and_self]
  | direct => simp only [writeData, cursor, writeHalfwords_eq, and_self]

end Loops

/-! ## Facts about the polls -/

section Polls

variable {σ : Type}

theorem poll_spec (d : Device σ) (T : Nat) (cont : Nat → Bool) (m : Machine σ) :
    ∃ t, (poll d T cont m).2.trace = m.trace ++ t ∧
      (∀ a ∈ t, a.isStatusRead = true) ∧
      t.length = (poll d T cont m).1 + 1 ∧
      (poll d T cont m).1 ≤ T ∧
      (poll d T cont m).2.mem = m.mem := by
  obtain ⟨t, h1, h2, h3, h4, h5⟩ := pollLoop_spec d T cont (T + 1) 0 m (Nat.zero_le _) (by omega)
  exact ⟨t, h1, h2, by simpa using h3, h4, h5⟩

/-- A poll whose condition holds on every sample runs the counter up to `T`. -/
theorem pollLoop_always (d : Device σ) (T : Nat) (cont : Nat → Bool)
    (h : ∀ s, cont ((d.read Reg.STS_CMD s).1 % 65536) = true) :
    ∀ (fuel i : Nat) (m : Machine σ), i ≤ T → T + 1 ≤ fuel + i →
      (pollLoop d T cont fuel i m).1 = T := by
  intro fuel
  induction fuel with
  | zero => intro i m h1 h2; omega
  | succ fuel ih =>
    intro i m h1 h2
    have hv : cont (busRead d Reg.STS_CMD m).1 = true := h m.dev
    by_cases hlt : i < T
    · have hc : (cont (busRead d Reg.STS_CMD m).1 && decide (i < T)) = true := by
        simp [hv, hlt]
      simp only [pollLoop, hc, if_true]
      exact ih (i + 1) _ hlt (by omega)
    · have hc : (cont (busRead d Reg.STS_CMD m).1 && decide (i < T)) = false := by
        simp [hlt]
      simp only [pollLoop, hc, Bool.false_eq_true, if_false]
      omega

theorem poll_always (d : Device σ) (T : Nat) (cont : Nat → Bool)
    (h : ∀ s, cont ((d.read Reg.STS_CMD s).1 % 65536) = true) (m : Machine σ) :
    (poll d T cont m).1 = T :=
  pollLoop_always d T cont h (T + 1) 0 m (Nat.zero_le _) (by omega)

/-- A poll whose condition fails on the first sample stops there, with `i = 0`. -/
theorem poll_stop_first (d : Device σ) (T : Nat) (cont : Nat → Bool) (m : Machine σ)
    (h : cont ((d.read Reg.STS_CMD m.dev).1 % 65536) = false) :
    poll d T cont m = (0, (busRead d Reg.STS_CMD m).2) := by
  have hv : cont (busRead d Reg.STS_CMD m).1 = false := h
  simp only [poll, pollLoop, hv, Bool.false_and, Bool.false_eq_true, if_false]

/-- The card and the bus do not see the memory: two machines with the same
card and trace poll alike. -/
theorem pollLoop_bus (d : Device σ) (T : Nat) (cont : Nat → Bool) :
    ∀ (fuel i : Nat) (m1 m2 : Machine σ), m1.dev = m2.dev → m1.trace = m2.trace →
      (pollLoop d T cont fuel i m1).1 = (pollLoop d T cont fuel i m2).1 ∧
      (pollLoop d T cont fuel i m1).2.dev = (pollLoop d T cont fuel i m2).2.dev ∧
      (pollLoop d T cont fuel i m1).2.trace = (pollLoop d T cont fuel i m2).2.trace := by
  intro fuel
  induction fuel with
  | zero => intro i m1 m2 h1 h2; exact ⟨rfl, h1, h2⟩
  | succ fuel ih =>
    intro i m1 m2 h1 h2
    have hv : (busRead d Reg.STS_CMD m1).1 = (busRead d Reg.STS_CMD m2).1 := by
      simp only [busRead_val, h1]
    have hd : (busRead d Reg.STS_CMD m1).2.dev = (busRead d Reg.STS_CMD m2).2.dev := by
      simp only [busRead_dev, h1]
    have ht : (busRead d Reg.STS_CMD m1).2.trace = (busRead d Reg.STS_CMD m2).2.trace := by
      simp only [busRead_trace, h2, hv]
    simp only [pollLoop, hv]
    by_cases hc : (cont (busRead d Reg.STS_CMD m2).1 && decide (i < T)) = true
    · simp only [hc, if_true]
      exact ih (i + 1) _ _ hd ht
    · simp only [hc, Bool.false_eq_true, if_false]
      exact ⟨trivial, hd, ht⟩

/-- On a card whose status reads have no effect on it, a poll leaves the card
as it was. -/
theorem pollLoop_dev (d : Device σ) (T : Nat) (cont : Nat → Bool)
    (hst : ∀ s, (d.read Reg.STS_CMD s).2 = s) :
    ∀ (fuel i : Nat) (m : Machine σ), (pollLoop d T cont fuel i m).2.dev = m.dev := by
  intro fuel
  induction fuel with
  | zero => intro i m; rfl
  | succ fuel ih =>
    intro i m
    by_cases hc : (cont (busRead d Reg.STS_CMD m).1 && decide (i < T)) = true
    · simp only [pollLoop, hc, if_true, ih, busRead_dev, hst]
    · simp only [pollLoop, hc, Bool.false_eq_true, if_false, busRead_dev, hst]

end Polls

/-! ## Facts about traces -/

section Traces

theorem dataReads_append (s t : List Access) : dataReads (s ++ t) = dataReads s ++ dataReads t :=
  List.filterMap_append _ _ _

theorem dataWrites_append (s t : List Access) :
    dataWrites (s ++ t) = dataWrites s ++ dataWrites t :=
  List.filterMap_append _ _ _

theorem writesTo_append (r : Reg) (s t : List Access) :
    writesTo r (s ++ t) = writesTo r s ++ writesTo r t :=
  List.filterMap_append _ _ _

theorem dataReads_status (t : List Access) (h : ∀ a ∈ t, a.isStatusRead = true) :
    dataReads t = [] := by
  induction t with
  | nil => rfl
  | cons a t ih =>
    have ha := h a (List.mem_cons_self _ _)
    have ht := ih (fun x hx => h x (List.mem_cons_of_mem _ hx))
    cases a with
    | rd r v => cases r <;> simp_all [dataReads, Access.isStatusRead]
    | wr r v => simp [Access.isStatusRead] at ha

theorem dataWrites_status (t : List Access) (h : ∀ a ∈ t, a.isStatusRead = true) :
    dataWrites t = [] := by
  induction t with
  | nil => rfl
  | cons a t ih =>
    have ha := h a (List.mem_cons_self _ _)
    have ht := ih (fun x hx => h x (List.mem_cons_of_mem _ hx))
    cases a with
    | rd r v => simp_all [dataWrites]
    | wr r v => simp [Access.isStatusRead] at ha

theorem dataReads_map_rd (ws : List Nat) : dataReads (ws.map (Access.rd Reg.DATA)) = ws := by
  induction ws with
  | nil => rfl
  | cons w ws ih => simp_all [dataReads]

theorem dataWrites_map_wr (ws : List Nat) : dataWrites (ws.map (Access.wr Reg.DATA)) = ws := by
  induction ws with
  | nil => rfl
  | cons w ws ih => simp_all [dataWrites]

theorem dataWrites_map_rd (ws : List Nat) : dataWrites (ws.map (Access.rd Reg.DATA)) = [] := by
  induction ws with
  | nil => rfl
  | cons w ws ih => simp_all [dataWrites]

theorem dataReads_map_wr (ws : List Nat) : dataReads (ws.map (Access.wr Reg.DATA)) = [] := by
  induction ws with
  | nil => rfl
  | cons w ws ih => simp_all [dataReads]

theorem statusSamples_append (s t : List Access) :
    statusSamples (s ++ t) = statusSamples s + statusSamples t :=
  List.countP_append _ _ _

theorem statusSamples_status (t : List Access) (h : ∀ a ∈ t, a.isStatusRead = true) :
    statusSamples t = t.length :=
  List.countP_eq_length.2 h

theorem statusSamples_map_rd (ws : List Nat) :
    statusSamples (ws.map (Access.rd Reg.DATA)) = 0 := by
  induction ws with
  | nil => rfl
  | cons w ws ih => simp_all [statusSamples, Access.isStatusRead]

theorem statusSamples_map_wr (ws : List Nat) :
    statusSamples (ws.map (Access.wr Reg.DATA)) = 0 := by
  induction ws with
  | nil => rfl
  | cons w ws ih => simp_all [statusSamples, Access.isStatusRead]

theorem loadWords_add (mem : Nat → Nat) : ∀ (n1 n2 a : Nat),
    loadWords mem a (n1 + n2) = loadWords mem a n1 ++ loadWords mem (a + 2 * n1) n2 := by
  intro n1
  induction n1 with
  | zero => intro n2 a; simp [loadWords]
  | succ n ih =>
    intro n2 a
    have e : n + 1 + n2 = (n + n2) + 1 := by omega
    have e2 : a + 2 + 2 * n = a + 2 * (n + 1) := by omega
    rw [e]
    simp only [loadWords, ih, List.cons_append, e2]

end Traces

/-! ## The per-sector loops -/

section SectorLoops

variable {σ : Type}

/-- `k` sectors read: `256 * k` words came from the data port and lie,
little-endian, from the cursor on; only status samples and data-port reads were
performed. -/
theorem readIter_spec (c : Consts) (b : Build) (d : Device σ) :
    ∀ (k : Nat) (x : (Nat × Nat) × Machine σ),
      ∃ t, (readIter c b d k x).2.trace = x.2.trace ++ t ∧
        (∀ a ∈ t, a.isStatusRead = true ∨ a.isDataRead = true) ∧
        (dataReads t).length = 256 * k ∧
        dataWrites t = [] ∧
        (readIter c b d k x).2.mem = storeWords x.2.mem (cursor b x.1) (dataReads t) ∧
        cursor b (readIter c b d k x).1 = cursor b x.1 + 512 * k ∧
        statusSamples t ≤ k * (c.CF_CARD_TIMEOUT + 1) := by
  intro k
  induction k with
  | zero => intro x; exact ⟨[], by simp [readIter], by simp, rfl, rfl, rfl, rfl, by simp [statusSamples]⟩
  | succ k ih =>
    intro x
    obtain ⟨t1, h1, h2, h3, h4, h5⟩ := poll_spec d c.CF_CARD_TIMEOUT
      (fun v => v &&& 0xff != c.CF_STS_READY) x.2
    have hR := readData_eq b d x.1 (waitUntilReady c d x.2).2
    obtain ⟨t, g1, g2, g3, g4, g5, g6, g7⟩ :=
      ih (readData b d x.1 (waitUntilReady c d x.2).2)
    have hlen := drain_length d 256 (waitUntilReady c d x.2).2.dev
    refine ⟨t1 ++ (drain d 256 (waitUntilReady c d x.2).2.dev).1.map (Access.rd Reg.DATA) ++ t,
      ?_, ?_, ?_, ?_, ?_, ?_, ?_⟩
    · simp only [readIter, g1, hR.1]
      simp only [waitUntilReady, h1, List.append_assoc]
    · intro a ha
      simp only [List.mem_append, List.mem_map] at ha
      rcases ha with (ha | ⟨w, _, rfl⟩) | ha
      · exact Or.inl (h2 a ha)
      · exact Or.inr rfl
      · exact g2 a ha
    · simp only [dataReads_append, dataReads_status t1 h2, dataReads_map_rd, List.nil_append,
        List.length_append, hlen, g3]
      omega
    · simp only [dataWrites_append, dataWrites_status t1 h2, g4, List.append_nil,
        List.nil_append]
      exact dataWrites_map_rd _
    · simp only [readIter, g5, hR.1, hR.2]
      simp only [dataReads_append, dataReads_status t1 h2, dataReads_map_rd, List.nil_append,
        storeWords_append, hlen]
      simp only [waitUntilReady, h5]
    · simp only [readIter, g6, hR.2]
      omega
    · simp only [statusSamples_append, statusSamples_status t1 h2, statusSamples_map_rd, h3]
      have : (k + 1) * (c.CF_CARD_TIMEOUT + 1) = k * (c.CF_CARD_TIMEOUT + 1) +
          (c.CF_CARD_TIMEOUT + 1) := by ring
      omega

/-- `k` sectors written: the `256 * k` words lying from the cursor on went to
the data port; memory is untouched; only status samples and data-port writes
were performed. -/
theorem writeIter_spec (c : Consts) (b : Build) (d : Device σ) :
    ∀ (k : Nat) (x : (Nat × Nat) × Machine σ),
      ∃ t, (writeIter c b d k x).2.trace = x.2.trace ++ t ∧
        (∀ a ∈ t, a.isStatusRead = true ∨ a.isDataWrite = true) ∧
        dataWrites t = loadWords x.2.mem (cursor b x.1) (256 * k) ∧
        dataReads t = [] ∧
        (writeIter c b d k x).2.mem = x.2.mem ∧
        cursor b (writeIter c b d k x).1 = cursor b x.1 + 512 * k ∧
        statusSamples t ≤ k * (c.CF_CARD_TIMEOUT + 1) := by
  intro k
  induction k with
  | zero => intro x; exact ⟨[], by simp [writeIter], by simp, rfl, rfl, rfl, rfl, by simp [statusSamples]⟩
  | succ k ih =>
    intro x
    obtain ⟨t1, h1, h2, h3, h4, h5⟩ := poll_spec d c.CF_CARD_TIMEOUT
      (fun v => v &&& 0xff != c.CF_STS_READY) x.2
    have hW := writeData_eq b d x.1 (waitUntilReady c d x.2).2
    obtain ⟨t, g1, g2, g3, g4, g5, g6, g7⟩ :=
      ih (writeData b d x.1 (waitUntilReady c d x.2).2)
    have hm : (waitUntilReady c d x.2).2.mem = x.2.mem := h5
    refine ⟨t1 ++ (loadWords x.2.mem (cursor b x.1) 256).map (Access.wr Reg.DATA) ++ t,
      ?_, ?_, ?_, ?_, ?_, ?_, ?_⟩
    · simp only [writeIter, g1, hW.1, hm]
      simp only [waitUntilReady, h1, List.append_assoc]
    · intro a ha
      simp only [List.mem_append, List.mem_map] at ha
      rcases ha with (ha | ⟨w, _, rfl⟩) | ha
      · exact Or.inl (h2 a ha)
      · exact Or.inr rfl
      · exact g2 a ha
    · have e : 256 * (k + 1) = 256 + 256 * k := by omega
      simp only [dataWrites_append, dataWrites_status t1 h2, dataWrites_map_wr, List.nil_append,
        g3, hW.1, hW.2, hm, e, loadWords_add]
    · simp only [dataReads_append, dataReads_status t1 h2, g4, List.append_nil,
        List.nil_append, dataReads_map_wr]
    · simp only [writeIter, g5, hW.1, hm]
    · simp only [writeIter, g6, hW.2]
      omega
    · simp only [statusSamples_append, statusSamples_status t1 h2, statusSamples_map_wr, h3]
      have : (k + 1) * (c.CF_CARD_TIMEOUT + 1) = k * (c.CF_CARD_TIMEOUT + 1) +
          (c.CF_CARD_TIMEOUT + 1) := by ring
      omega

/-- As long as the ready-waits succeed the read loop runs through. -/
theorem readSectorLoop_ok (c : Consts) (b : Build) (d : Device σ) :
    ∀ (n : Nat) (p : Nat × Nat) (m : Machine σ),
      (∀ k < n, readReadyOK c b d (p, m) k = true) →
        readSectorLoop c b d n p m = (true, (readIter c b d n (p, m)).2) := by
  intro n
  induction n with
  | zero => intro p m _; rfl
  | succ n ih =>
    intro p m h
    have h0 : (waitUntilReady c d m).1 < c.CF_CARD_TIMEOUT := by
      simpa [readReadyOK, readIter] using h 0 (Nat.succ_pos _)
    have hn : ¬ (waitUntilReady c d m).1 ≥ c.CF_CARD_TIMEOUT := by omega
    simp only [readSectorLoop, hn, if_false, readIter]
    exact ih _ _ (fun k hk => h (k + 1) (Nat.succ_lt_succ hk))

/-- The first ready-wait that times out ends the read loop, right after that
wait. -/
theorem readSectorLoop_fail (c : Consts) (b : Build) (d : Device σ) :
    ∀ (n k : Nat) (p : Nat × Nat) (m : Machine σ), k < n →
      (∀ j < k, readReadyOK c b d (p, m) j = true) →
      readReadyOK c b d (p, m) k = false →
        readSectorLoop c b d n p m =
          (false, (waitUntilReady c d (readIter c b d k (p, m)).2).2) := by
  intro n
  induction n with
  | zero => intro k p m hk; omega
  | succ n ih =>
    intro k p m hk hj hf
    cases k with
    | zero =>
      have h0 : (waitUntilReady c d m).1 ≥ c.CF_CARD_TIMEOUT := by
        simpa [readReadyOK, readIter] using hf
      simp only [readSectorLoop, h0, if_true, readIter]
    | succ k =>
      have h0 : (waitUntilReady c d m).1 < c.CF_CARD_TIMEOUT := by
        simpa [readReadyOK, readIter] using hj 0 (Nat.succ_pos _)
      have hn : ¬ (waitUntilReady c d m).1 ≥ c.CF_CARD_TIMEOUT := by omega
      simp only [readSectorLoop, hn, if_false, readIter]
      exact ih k _ _ (by omega) (fun j hjk => hj (j + 1) (Nat.succ_lt_succ hjk)) hf

/-- As long as the ready-waits succeed the write loop runs through. -/
theorem writeSectorLoop_ok (c : Consts) (b : Build) (d : Device σ) :
    ∀ (n : Nat) (p : Nat × Nat) (m : Machine σ),
      (∀ k < n, writeReadyOK c b d (p, m) k = true) →
        writeSectorLoop c b d n p m = (true, (writeIter c b d n (p, m)).2) := by
  intro n
  induction n with
  | zero => intro p m _; rfl
  | succ n ih =>
    intro p m h
    have h0 : (waitUntilReady c d m).1 < c.CF_CARD_TIMEOUT := by
      simpa [writeReadyOK, writeIter] using h 0 (Nat.succ_pos _)
    have hn : ¬ (waitUntilReady c d m).1 ≥ c.CF_CARD_TIMEOUT := by omega
    simp only [writeSectorLoop, hn, if_false, writeIter]
    exact ih _ _ (fun k hk => h (k + 1) (Nat.succ_lt_succ hk))

/-- The first ready-wait that times out ends the write loop, right after that
wait. -/
theorem writeSectorLoop_fail (c : Consts) (b : Build) (d : Device σ) :
    ∀ (n k : Nat) (p : Nat × Nat) (m : Machine σ), k < n →
      (∀ j < k, writeReadyOK c b d (p, m) j = true) →
      writeReadyOK c b d (p, m) k = false →
        writeSectorLoop c b d n p m =
          (false, (waitUntilReady c d (writeIter c b d k (p, m)).2).2) := by
  intro n
  induction n with
  | zero => intro k p m hk; omega
  | succ n ih =>
    intro k p m hk hj hf
    cases k with
    | zero =>
      have h0 : (waitUntilReady c d m).1 ≥ c.CF_CARD_TIMEOUT := by
        simpa [writeReadyOK, writeIter] using hf
      simp only [writeSectorLoop, h0, if_true, writeIter]
    | succ k =>
      have h0 : (waitUntilReady c d m).1 < c.CF_CARD_TIMEOUT := by
        simpa [writeReadyOK, writeIter] using hj 0 (Nat.succ_pos _)
      have hn : ¬ (waitUntilReady c d m).1 ≥ c.CF_CARD_TIMEOUT := by omega
      simp only [writeSectorLoop, hn, if_false, writeIter]
      exact ih k _ _ (by omega) (fun j hjk => hj (j + 1) (Nat.succ_lt_succ hjk)) hf

/-- Either every ready-wait below `n` succeeds or there is a first one that
does not. -/
theorem first_failure (f : Nat → Bool) (n : Nat) :
    (∀ k < n, f k = true) ∨ ∃ k < n, (∀ j < k, f j = true) ∧ f k = false := by
  induction n with
  | zero => left; intro k hk; omega
  | succ n ih =>
    rcases ih with h | ⟨k, hk, h1, h2⟩
    · by_cases hn : f n = true
      · left
        intro k hk
        rcases Nat.lt_succ_iff_lt_or_eq.1 hk with h' | h'
        · exact h k h'
        · rw [h']; exact hn
      · right
        exact ⟨n, Nat.lt_succ_self _, h, by simpa using hn⟩
    · right
      exact ⟨k, by omega, h1, h2⟩

end SectorLoops

/-! ## The entry points, unfolded -/

section Entry

variable {σ : Type}

theorem preludeWaits_spec (c : Consts) (d : Device σ) (m : Machine σ) :
    ∃ t, (preludeWaits c d m).2.trace = m.trace ++ t ∧
      (∀ a ∈ t, a.isStatusRead = true) ∧
      t.length ≤ 2 * (c.CF_CARD_TIMEOUT + 1) ∧
      (preludeWaits c d m).1 ≤ c.CF_CARD_TIMEOUT ∧
      (preludeWaits c d m).2.mem = m.mem := by
  obtain ⟨t1, h1, h2, h3, h4, h5⟩ := poll_spec d c.CF_CARD_TIMEOUT
    (fun v => v &&& c.CF_STS_BUSY != 0) m
  obtain ⟨t2, g1, g2, g3, g4, g5⟩ := poll_spec d c.CF_CARD_TIMEOUT
    (fun v => !(v &&& c.CF_STS_INSERTED != 0)) (waitWhileBusy c d m).2
  refine ⟨t1 ++ t2, ?_, ?_, ?_, g4, ?_⟩
  · simp only [preludeWaits, waitUntilInserted, g1]
    simp only [waitWhileBusy, h1, List.append_assoc]
  · intro a ha
    rcases List.mem_append.1 ha with h | h
    · exact h2 a h
    · exact g2 a h
  · simp only [List.length_append, h3, g3]
    have := g4
    simp only [waitWhileBusy] at this
    omega
  · simp only [preludeWaits, waitUntilInserted, g5]
    simp only [waitWhileBusy, h5]

theorem issueCommand_trace (c : Consts) (d : Device σ) (opcode sector numSectors : Nat)
    (m : Machine σ) :
    (issueCommand c d opcode sector numSectors m).trace =
      m.trace ++ commandWrites c opcode sector numSectors := by
  simp [issueCommand, commandWrites]

theorem issueCommand_mem (c : Consts) (d : Device σ) (opcode sector numSectors : Nat)
    (m : Machine σ) :
    (issueCommand c d opcode sector numSectors m).mem = m.mem := rfl

theorem readSectors_timeout (c : Consts) (b : Build) (d : Device σ)
    (sector numSectors buffer : Nat) (m : Machine σ)
    (h : c.CF_CARD_TIMEOUT ≤ (preludeWaits c d m).1) :
    _MMCF_readSectors c b d sector numSectors buffer m = (false, (preludeWaits c d m).2) := by
  simp only [_MMCF_readSectors, ge_iff_le, h, if_true]

theorem readSectors_issued (c : Consts) (b : Build) (d : Device σ)
    (sector numSectors buffer : Nat) (m : Machine σ)
    (h : (preludeWaits c d m).1 < c.CF_CARD_TIMEOUT) :
    _MMCF_readSectors c b d sector numSectors buffer m =
      readSectorLoop c b d (numSectors % 4294967296) (buffer, buffer)
        (commandIssued c d c.CF_CMD_READ sector numSectors m) := by
  have hn : ¬ c.CF_CARD_TIMEOUT ≤ (preludeWaits c d m).1 := by omega
  simp only [_MMCF_readSectors, ge_iff_le, hn, if_false, commandIssued]

theorem writeSectors_timeout (c : Consts) (b : Build) (d : Device σ)
    (sector numSectors buffer : Nat) (m : Machine σ)
    (h : c.CF_CARD_TIMEOUT ≤ (preludeWaits c d m).1) :
    _MMCF_writeSectors c b d sector numSectors buffer m = (false, (preludeWaits c d m).2) := by
  simp only [_MMCF_writeSectors, ge_iff_le, h, if_true]

theorem writeSectors_issued (c : Consts) (b : Build) (d : Device σ)
    (sector numSectors buffer : Nat) (m : Machine σ)
    (h : (preludeWaits c d m).1 < c.CF_CARD_TIMEOUT) :
    _MMCF_writeSectors c b d sector numSectors buffer m =
      writeSectorLoop c b d (numSectors % 4294967296) (buffer, buffer)
        (commandIssued c d c.CF_CMD_WRITE sector numSectors m) := by
  have hn : ¬ c.CF_CARD_TIMEOUT ≤ (preludeWaits c d m).1 := by omega
  simp only [_MMCF_writeSectors, ge_iff_le, hn, if_false, commandIssued]

/-- The trace of the machine on which the per-sector loop starts: status
samples, then the six register writes. -/
theorem commandIssued_spec (c : Consts) (d : Device σ) (opcode sector numSectors : Nat)
    (m : Machine σ) :
    ∃ t, (commandIssued c d opcode sector numSectors m).trace =
        m.trace ++ t ++
          commandWrites c opcode (sector % 4294967296) (numSectors % 4294967296) ∧
      (∀ a ∈ t, a.isStatusRead = true) ∧
      t.length ≤ 2 * (c.CF_CARD_TIMEOUT + 1) ∧
      (commandIssued c d opcode sector numSectors m).mem = m.mem := by
  obtain ⟨t, h1, h2, h3, _, h5⟩ := preludeWaits_spec c d m
  exact ⟨t, by simp only [commandIssued, issueCommand_trace, h1], h2, h3,
    by simp only [commandIssued, issueCommand_mem, h5]⟩

theorem cursor_same (b : Build) (a : Nat) : cursor b (a, a) = a := by
  cases b with
  | allowUnaligned => simp only [cursor, ite_self]
  | direct => rfl

theorem dataReads_commandWrites (c : Consts) (opcode sector numSectors : Nat) :
    dataReads (commandWrites c opcode sector numSectors) = [] := rfl

theorem dataWrites_commandWrites (c : Consts) (opcode sector numSectors : Nat) :
    dataWrites (commandWrites c opcode sector numSectors) = [] := rfl

end Entry

section Words

variable {σ : Type}

theorem drain_mem (d : Device σ) : ∀ (n : Nat) (s : σ) (w : Nat),
    w ∈ (drain d n s).1 → ∃ s1, w = (d.read Reg.DATA s1).1 % 65536 := by
  intro n
  induction n with
  | zero => intro s w h; simp [drain] at h
  | succ n ih =>
    intro s w h
    simp only [drain, List.mem_cons] at h
    rcases h with h | h
    · exact ⟨s, h⟩
    · exact ih _ w h

theorem dataReads_waitUntilReady (c : Consts) (d : Device σ) (m : Machine σ) :
    dataReads (waitUntilReady c d m).2.trace = dataReads m.trace := by
  obtain ⟨t1, h1, h2, _⟩ := poll_spec d c.CF_CARD_TIMEOUT
    (fun v => v &&& 0xff != c.CF_STS_READY) m
  simp only [waitUntilReady, h1, dataReads_append, dataReads_status t1 h2, List.append_nil]

/-- Every word that a read logs as coming from the data port was delivered by
the card. -/
theorem readSectorLoop_words (c : Consts) (b : Build) (d : Device σ) :
    ∀ (n : Nat) (p : Nat × Nat) (m : Machine σ) (w : Nat),
      w ∈ dataReads (readSectorLoop c b d n p m).2.trace →
        w ∈ dataReads m.trace ∨ ∃ s, w = (d.read Reg.DATA s).1 % 65536 := by
  intro n
  induction n with
  | zero => intro p m w h; exact Or.inl h
  | succ n ih =>
    intro p m w h
    by_cases hc : (waitUntilReady c d m).1 ≥ c.CF_CARD_TIMEOUT
    · simp only [readSectorLoop, hc, if_true, dataReads_waitUntilReady] at h
      exact Or.inl h
    · simp only [readSectorLoop, hc, if_false] at h
      rcases ih _ _ w h with h1 | h1
      · rw [(readData_eq b d p (waitUntilReady c d m).2).1] at h1
        simp only [dataReads_append, dataReads_waitUntilReady, dataReads_map_rd,
          List.mem_append] at h1
        rcases h1 with h2 | h2
        · exact Or.inl h2
        · exact Or.inr (drain_mem d _ _ w h2)
      · exact Or.inr h1

theorem readSectors_words (c : Consts) (b : Build) (d : Device σ)
    (sector numSectors buffer : Nat) (dev : σ) (mem : Nat → Nat) (w : Nat)
    (h : w ∈ dataReads
      (_MMCF_readSectors c b d sector numSectors buffer (Machine.start dev mem)).2.trace) :
    ∃ s, w = (d.read Reg.DATA s).1 % 65536 := by
  obtain ⟨t0, g1, g2, _, _⟩ := preludeWaits_spec c d (Machine.start dev mem)
  by_cases hp : c.CF_CARD_TIMEOUT ≤ (preludeWaits c d (Machine.start dev mem)).1
  · rw [readSectors_timeout c b d sector numSectors buffer _ hp] at h
    rw [g1, dataReads_append, dataReads_status t0 g2] at h
    simp [Machine.start, dataReads] at h
  · rw [readSectors_issued c b d sector numSectors buffer _ (by omega)] at h
    rcases readSectorLoop_words c b d _ _ _ w h with h1 | h1
    · obtain ⟨t, k1, k2, _, _⟩ :=
        commandIssued_spec c d c.CF_CMD_READ sector numSectors (Machine.start dev mem)
      rw [k1, dataReads_append, dataReads_append, dataReads_status t k2,
        dataReads_commandWrites] at h1
      simp [Machine.start, dataReads] at h1
    · exact h1

end Words

/-! ## The claims -/

section ClaimRead

variable {σ : Type}

/-- C1: in both non-DMA builds, for `numSectors` in [1,256], any sector address
and any card on which the opening waits and every per-sector ready-wait succeed,
`_MMCF_readSectors` returns true, reads the data port exactly
`256 * numSectors` times, and leaves at bytes `512*k + 2*j` and `512*k + 2*j + 1`
of the buffer the low and the high byte of the `(256*k + j)`-th word read from
the data port; hence a card that delivers only words 0xAAAA fills the buffer
with bytes 0xAA. -/
theorem C1_readSectors_fills_buffer (c : Consts) (b : Build) (d : Device σ)
    (sector numSectors buffer : Nat) (dev : σ) (mem : Nat → Nat)
    (hn : 1 ≤ numSectors ∧ numSectors ≤ 256)
    (hpre : (preludeWaits c d (Machine.start dev mem)).1 < c.CF_CARD_TIMEOUT)
    (hready : ∀ k < numSectors, readReadyOK c b d
      ((buffer, buffer), commandIssued c d c.CF_CMD_READ sector numSectors
        (Machine.start dev mem)) k = true) :
    (_MMCF_readSectors c b d sector numSectors buffer (Machine.start dev mem)).1 = true ∧
    (dataReads
      (_MMCF_readSectors c b d sector numSectors buffer (Machine.start dev mem)).2.trace).length
        = 256 * numSectors ∧
    (∀ k < numSectors, ∀ j < 256, ∃ w,
      (dataReads (_MMCF_readSectors c b d sector numSectors buffer
        (Machine.start dev mem)).2.trace)[256 * k + j]? = some w ∧
      load8 (_MMCF_readSectors c b d sector numSectors buffer (Machine.start dev mem)).2.mem
        (buffer + (512 * k + 2 * j)) = w % 256 ∧
      load8 (_MMCF_readSectors c b d sector numSectors buffer (Machine.start dev mem)).2.mem
        (buffer + (512 * k + 2 * j + 1)) = w / 256 % 256) ∧
    ((∀ w ∈ dataReads (_MMCF_readSectors c b d sector numSectors buffer
        (Machine.start dev mem)).2.trace, w = 0xAAAA) →
      ∀ i < 512 * numSectors,
        load8 (_MMCF_readSectors c b d sector numSectors buffer (Machine.start dev mem)).2.mem
          (buffer + i) = 0xAA) := by
  have hmod : numSectors % 4294967296 = numSectors := Nat.mod_eq_of_lt (by omega)
  have hrun := readSectors_issued c b d sector numSectors buffer (Machine.start dev mem) hpre
  rw [hmod, readSectorLoop_ok c b d numSectors _ _ hready] at hrun
  obtain ⟨t, h1, _, h3, _, h5, _, _⟩ := readIter_spec c b d numSectors
    ((buffer, buffer), commandIssued c d c.CF_CMD_READ sector numSectors (Machine.start dev mem))
  obtain ⟨t0, g1, g2, _, g4⟩ :=
    commandIssued_spec c d c.CF_CMD_READ sector numSectors (Machine.start dev mem)
  have htr : dataReads (readIter c b d numSectors ((buffer, buffer),
      commandIssued c d c.CF_CMD_READ sector numSectors (Machine.start dev mem))).2.trace
        = dataReads t := by
    rw [h1, g1]
    simp only [Machine.start, List.nil_append, dataReads_append, dataReads_status t0 g2,
      dataReads_commandWrites]
  have hmem : (readIter c b d numSectors ((buffer, buffer),
      commandIssued c d c.CF_CMD_READ sector numSectors (Machine.start dev mem))).2.mem
        = storeWords mem buffer (dataReads t) := by
    rw [h5, g4, cursor_same]; rfl
  have hbytes : ∀ q < 256 * numSectors, ∃ w, (dataReads t)[q]? = some w ∧
      load8 (storeWords mem buffer (dataReads t)) (buffer + 2 * q) = w % 256 ∧
      load8 (storeWords mem buffer (dataReads t)) (buffer + 2 * q + 1) = w / 256 % 256 := by
    intro q hq
    have hq2 : q < (dataReads t).length := by omega
    exact ⟨(dataReads t)[q], List.getElem?_eq_getElem hq2,
      load8_storeWords_inside _ mem buffer q _ (List.getElem?_eq_getElem hq2)⟩
  rw [hrun]
  simp only [htr, hmem]
  refine ⟨trivial, h3, ?_, ?_⟩
  · intro k hk j hj
    obtain ⟨w, hw, hlo, hhi⟩ := hbytes (256 * k + j) (by omega)
    refine ⟨w, hw, ?_, ?_⟩
    · rw [← hlo]; congr 1; omega
    · rw [← hhi]; congr 1; omega
  · intro hall i hi
    obtain ⟨w, hw, hlo, hhi⟩ := hbytes (i / 2) (by omega)
    have hwv : w = 0xAAAA := hall w (List.getElem?_mem hw)
    subst hwv
    rcases Nat.mod_two_eq_zero_or_one i with h | h
    · have e : buffer + i = buffer + 2 * (i / 2) := by omega
      rw [e, hlo]
    · have e : buffer + i = buffer + 2 * (i / 2) + 1 := by omega
      rw [e, hhi]

/-- C1, on the card that is always ready and delivers 0xAAAA: reading sector 0
returns true and leaves 512 bytes 0xAA in the buffer. -/
theorem C1_readSectors_fills_buffer_witness :
    (preludeWaits (sampleConsts 10000000) (constCard 0x58 0xAAAA 0)
      (Machine.start () zeroMem)).1 < (sampleConsts 10000000).CF_CARD_TIMEOUT ∧
    (_MMCF_readSectors (sampleConsts 10000000) Build.direct (constCard 0x58 0xAAAA 0) 0 1 4096
      (Machine.start () zeroMem)).1 = true ∧
    ∀ i < 512, load8 (_MMCF_readSectors (sampleConsts 10000000) Build.direct
      (constCard 0x58 0xAAAA 0) 0 1 4096 (Machine.start () zeroMem)).2.mem (4096 + i) = 0xAA := by
  have h := C1_readSectors_fills_buffer (sampleConsts 10000000) Build.direct
    (constCard 0x58 0xAAAA 0) 0 1 4096 () zeroMem (by decide) (by decide) (by decide)
  refine ⟨by decide, h.1, h.2.2.2 ?_⟩
  intro w hw
  obtain ⟨s, hs⟩ := readSectors_words _ _ _ _ _ _ _ _ w hw
  exact hs

end ClaimRead

/-! ## Runs on well-behaved cards -/

section WellBehaved

variable {σ : Type}

theorem issueCommand_dev (c : Consts) (d : Device σ) (opcode sector numSectors : Nat)
    (m : Machine σ) :
    (issueCommand c d opcode sector numSectors m).dev = latch c d opcode sector numSectors m.dev :=
  rfl

theorem waitWhileBusy_ready (c : Consts) (d : Device σ) (h : AlwaysReady c d) (m : Machine σ) :
    waitWhileBusy c d m = (0, (busRead d Reg.STS_CMD m).2) := by
  apply poll_stop_first
  simp [(h m.dev).1]

theorem waitUntilInserted_ready (c : Consts) (d : Device σ) (h : AlwaysReady c d)
    (m : Machine σ) :
    waitUntilInserted c d m = (0, (busRead d Reg.STS_CMD m).2) := by
  apply poll_stop_first
  simp [(h m.dev).2.1]

theorem waitUntilReady_ready (c : Consts) (d : Device σ) (h : AlwaysReady c d) (m : Machine σ) :
    waitUntilReady c d m = (0, (busRead d Reg.STS_CMD m).2) := by
  apply poll_stop_first
  simp [(h m.dev).2.2]

theorem preludeWaits_ready (c : Consts) (d : Device σ) (h : AlwaysReady c d) (m : Machine σ) :
    (preludeWaits c d m).1 = 0 := by
  simp only [preludeWaits, waitUntilInserted_ready c d h]

theorem readReadyOK_ready (c : Consts) (b : Build) (d : Device σ) (h : AlwaysReady c d)
    (hT : 0 < c.CF_CARD_TIMEOUT) (x : (Nat × Nat) × Machine σ) (k : Nat) :
    readReadyOK c b d x k = true := by
  simp only [readReadyOK, waitUntilReady_ready c d h, decide_eq_true_eq]
  exact hT

theorem writeReadyOK_ready (c : Consts) (b : Build) (d : Device σ) (h : AlwaysReady c d)
    (hT : 0 < c.CF_CARD_TIMEOUT) (x : (Nat × Nat) × Machine σ) (k : Nat) :
    writeReadyOK c b d x k = true := by
  simp only [writeReadyOK, waitUntilReady_ready c d h, decide_eq_true_eq]
  exact hT

theorem waitUntilReady_dev (c : Consts) (d : Device σ) (h : PureStatus d) (m : Machine σ) :
    (waitUntilReady c d m).2.dev = m.dev :=
  pollLoop_dev d _ _ h _ _ m

theorem waitUntilReady_mem (c : Consts) (d : Device σ) (m : Machine σ) :
    (waitUntilReady c d m).2.mem = m.mem := by
  obtain ⟨_, _, _, _, _, h5⟩ := poll_spec d c.CF_CARD_TIMEOUT
    (fun v => v &&& 0xff != c.CF_STS_READY) m
  exact h5

theorem preludeWaits_dev (c : Consts) (d : Device σ) (h : PureStatus d) (m : Machine σ) :
    (preludeWaits c d m).2.dev = m.dev := by
  simp only [preludeWaits, waitUntilInserted, waitWhileBusy, poll, pollLoop_dev d _ _ h]

theorem drain_add (d : Device σ) : ∀ (n1 n2 : Nat) (s : σ),
    drain d (n1 + n2) s =
      ((drain d n1 s).1 ++ (drain d n2 (drain d n1 s).2).1, (drain d n2 (drain d n1 s).2).2) := by
  intro n1
  induction n1 with
  | zero => intro n2 s; simp [drain]
  | succ n ih =>
    intro n2 s
    have e : n + 1 + n2 = (n + n2) + 1 := by omega
    rw [e]
    simp only [drain, ih, List.cons_append]

theorem feed_append (d : Device σ) : ∀ (ws vs : List Nat) (s : σ),
    feed d (ws ++ vs) s = feed d vs (feed d ws s) := by
  intro ws
  induction ws with
  | nil => intro vs s; rfl
  | cons w ws ih => intro vs s; exact ih vs _

/-- On a card whose status reads are pure, `k` sectors read leave the card
drained of `256 * k` words, which lie in memory from the cursor on. -/
theorem readIter_pure (c : Consts) (b : Build) (d : Device σ) (h : PureStatus d) :
    ∀ (k : Nat) (x : (Nat × Nat) × Machine σ),
      (readIter c b d k x).2.dev = (drain d (256 * k) x.2.dev).2 ∧
      (readIter c b d k x).2.mem =
        storeWords x.2.mem (cursor b x.1) (drain d (256 * k) x.2.dev).1 := by
  intro k
  induction k with
  | zero => intro x; exact ⟨rfl, rfl⟩
  | succ k ih =>
    intro x
    have hR := readData_eq b d x.1 (waitUntilReady c d x.2).2
    have e : 256 * (k + 1) = 256 + 256 * k := by omega
    obtain ⟨g1, g2⟩ := ih (readData b d x.1 (waitUntilReady c d x.2).2)
    rw [hR.2] at g2
    rw [hR.1] at g1 g2
    dsimp only at g1 g2
    rw [waitUntilReady_dev c d h x.2] at g1 g2
    rw [waitUntilReady_mem c d x.2] at g2
    rw [e, drain_add, storeWords_append, drain_length]
    exact ⟨g1, g2⟩

/-- On a card whose status reads are pure, `k` sectors written leave the card
fed with the `256 * k` words lying in memory from the cursor on. -/
theorem writeIter_pure (c : Consts) (b : Build) (d : Device σ) (h : PureStatus d) :
    ∀ (k : Nat) (x : (Nat × Nat) × Machine σ),
      (writeIter c b d k x).2.dev =
        feed d (loadWords x.2.mem (cursor b x.1) (256 * k)) x.2.dev ∧
      (writeIter c b d k x).2.mem = x.2.mem := by
  intro k
  induction k with
  | zero => intro x; exact ⟨rfl, rfl⟩
  | succ k ih =>
    intro x
    have hW := writeData_eq b d x.1 (waitUntilReady c d x.2).2
    have e : 256 * (k + 1) = 256 + 256 * k := by omega
    obtain ⟨g1, g2⟩ := ih (writeData b d x.1 (waitUntilReady c d x.2).2)
    rw [hW.2] at g1
    rw [hW.1] at g1 g2
    dsimp only at g1 g2
    rw [waitUntilReady_dev c d h x.2] at g1
    rw [waitUntilReady_mem c d x.2] at g1 g2
    rw [e, loadWords_add, feed_append]
    exact ⟨g1, g2⟩

/-- A read on a card that is always ready and has pure status reads. -/
theorem readSectors_ready (c : Consts) (b : Build) (d : Device σ)
    (hr : AlwaysReady c d) (hp : PureStatus d) (hT : 0 < c.CF_CARD_TIMEOUT)
    (sector numSectors buffer : Nat) (hn : numSectors < 4294967296) (m : Machine σ) :
    (_MMCF_readSectors c b d sector numSectors buffer m).1 = true ∧
    (_MMCF_readSectors c b d sector numSectors buffer m).2.dev =
      (drain d (256 * numSectors)
        (latch c d c.CF_CMD_READ (sector % 4294967296) numSectors m.dev)).2 ∧
    (_MMCF_readSectors c b d sector numSectors buffer m).2.mem =
      storeWords m.mem buffer (drain d (256 * numSectors)
        (latch c d c.CF_CMD_READ (sector % 4294967296) numSectors m.dev)).1 := by
  have hmod : numSectors % 4294967296 = numSectors := Nat.mod_eq_of_lt hn
  have hpre : (preludeWaits c d m).1 < c.CF_CARD_TIMEOUT := by
    rw [preludeWaits_ready c d hr]; exact hT
  rw [readSectors_issued c b d sector numSectors buffer m hpre, hmod,
    readSectorLoop_ok c b d numSectors _ _ (fun k _ => readReadyOK_ready c b d hr hT _ k)]
  obtain ⟨g1, g2⟩ := readIter_pure c b d hp numSectors
    ((buffer, buffer), commandIssued c d c.CF_CMD_READ sector numSectors m)
  obtain ⟨_, _, _, _, _, k5⟩ := preludeWaits_spec c d m
  have hd : (commandIssued c d c.CF_CMD_READ sector numSectors m).dev =
      latch c d c.CF_CMD_READ (sector % 4294967296) numSectors m.dev := by
    simp only [commandIssued, issueCommand_dev, preludeWaits_dev c d hp, hmod]
  have hm : (commandIssued c d c.CF_CMD_READ sector numSectors m).mem = m.mem := by
    simp only [commandIssued, issueCommand_mem]; exact k5
  simp only [hd, hm, cursor_same] at g1 g2
  exact ⟨rfl, g1, g2⟩

/-- A write on a card that is always ready and has pure status reads. -/
theorem writeSectors_ready (c : Consts) (b : Build) (d : Device σ)
    (hr : AlwaysReady c d) (hp : PureStatus d) (hT : 0 < c.CF_CARD_TIMEOUT)
    (sector numSectors buffer : Nat) (hn : numSectors < 4294967296) (m : Machine σ) :
    (_MMCF_writeSectors c b d sector numSectors buffer m).1 = true ∧
    (_MMCF_writeSectors c b d sector numSectors buffer m).2.dev =
      feed d (loadWords m.mem buffer (256 * numSectors))
        (latch c d c.CF_CMD_WRITE (sector % 4294967296) numSectors m.dev) ∧
    (_MMCF_writeSectors c b d sector numSectors buffer m).2.mem = m.mem := by
  have hmod : numSectors % 4294967296 = numSectors := Nat.mod_eq_of_lt hn
  have hpre : (preludeWaits c d m).1 < c.CF_CARD_TIMEOUT := by
    rw [preludeWaits_ready c d hr]; exact hT
  rw [writeSectors_issued c b d sector numSectors buffer m hpre, hmod,
    writeSectorLoop_ok c b d numSectors _ _ (fun k _ => writeReadyOK_ready c b d hr hT _ k)]
  obtain ⟨g1, g2⟩ := writeIter_pure c b d hp numSectors
    ((buffer, buffer), commandIssued c d c.CF_CMD_WRITE sector numSectors m)
  obtain ⟨_, _, _, _, _, k5⟩ := preludeWaits_spec c d m
  have hd : (commandIssued c d c.CF_CMD_WRITE sector numSectors m).dev =
      latch c d c.CF_CMD_WRITE (sector % 4294967296) numSectors m.dev := by
    simp only [commandIssued, issueCommand_dev, preludeWaits_dev c d hp, hmod]
  have hm : (commandIssued c d c.CF_CMD_WRITE sector numSectors m).mem = m.mem := by
    simp only [commandIssued, issueCommand_mem]; exact k5
  simp only [hd, hm, cursor_same] at g1 g2
  exact ⟨rfl, g1, g2⟩

end WellBehaved

/-! ## The simulated medium -/

section Sim

theorem simCard_pure (c : Consts) (sts : Nat) : PureStatus (simCard c sts) :=
  fun _ => rfl

theorem simCard_ready (c : Consts) (sts : Nat)
    (h1 : (sts % 65536) &&& c.CF_STS_BUSY = 0)
    (h2 : (sts % 65536) &&& c.CF_STS_INSERTED ≠ 0)
    (h3 : (sts % 65536) &&& 0xff = c.CF_STS_READY) : AlwaysReady c (simCard c sts) :=
  fun _ => ⟨h1, h2, h3⟩

theorem latch_sim_read (c : Consts) (sts sector numSectors : Nat) (s : SimCard) :
    (latch c (simCard c sts) c.CF_CMD_READ sector numSectors s).pos = simStart c sector ∧
    (latch c (simCard c sts) c.CF_CMD_READ sector numSectors s).store = s.store := by
  simp [latch, simCard, SimCard.lba, simStart]

theorem latch_sim_write (c : Consts) (sts sector numSectors : Nat) (s : SimCard) :
    (latch c (simCard c sts) c.CF_CMD_WRITE sector numSectors s).pos = simStart c sector ∧
    (latch c (simCard c sts) c.CF_CMD_WRITE sector numSectors s).store = s.store := by
  simp [latch, simCard, SimCard.lba, simStart]

theorem feed_sim_pos (c : Consts) (sts : Nat) : ∀ (ws : List Nat) (s : SimCard),
    (feed (simCard c sts) ws s).pos = s.pos + ws.length := by
  intro ws
  induction ws with
  | nil => intro s; rfl
  | cons w ws ih =>
    intro s
    simp only [feed, ih, List.length_cons]
    simp only [simCard]
    omega

theorem feed_sim_outside (c : Consts) (sts : Nat) : ∀ (ws : List Nat) (s : SimCard) (a : Nat),
    a < s.pos → (feed (simCard c sts) ws s).store a = s.store a := by
  intro ws
  induction ws with
  | nil => intro s a _; rfl
  | cons w ws ih =>
    intro s a ha
    simp only [feed]
    rw [ih _ a (by simp only [simCard]; omega)]
    simp only [simCard]
    have : a ≠ s.pos := by omega
    simp [this]

theorem feed_sim_inside (c : Consts) (sts : Nat) : ∀ (ws : List Nat) (s : SimCard) (i w : Nat),
    ws[i]? = some w → (feed (simCard c sts) ws s).store (s.pos + i) = w % 65536 := by
  intro ws
  induction ws with
  | nil => intro s i w h; simp at h
  | cons v ws ih =>
    intro s i w h
    cases i with
    | zero =>
      simp only [List.getElem?_cons_zero, Option.some.injEq] at h
      subst h
      simp only [feed]
      rw [feed_sim_outside c sts _ _ _ (by simp only [simCard]; omega)]
      simp [simCard]
    | succ i =>
      simp only [List.getElem?_cons_succ] at h
      have := ih ((simCard c sts).write Reg.DATA (v % 65536) s) i w h
      simp only [feed]
      have e : s.pos + (i + 1) = ((simCard c sts).write Reg.DATA (v % 65536) s).pos + i := by
        simp only [simCard]; omega
      rw [e]
      exact this

theorem drain_sim_store (c : Consts) (sts : Nat) : ∀ (n : Nat) (s : SimCard) (i : Nat),
    i < n → (drain (simCard c sts) n s).1[i]? = some (s.store (s.pos + i) % 65536) := by
  intro n
  induction n with
  | zero => intro s i h; omega
  | succ n ih =>
    intro s i h
    cases i with
    | zero => simp [drain, simCard]
    | succ i =>
      simp only [drain, List.getElem?_cons_succ]
      rw [ih _ i (by omega)]
      simp only [simCard]
      have e : s.pos + 1 + i = s.pos + (i + 1) := by omega
      rw [e]

theorem loadWords_getElem (mem : Nat → Nat) : ∀ (n a i : Nat),
    i < n → (loadWords mem a n)[i]? = some (load16 mem (a + 2 * i)) := by
  intro n
  induction n with
  | zero => intro a i h; omega
  | succ n ih =>
    intro a i h
    cases i with
    | zero => simp [loadWords]
    | succ i =>
      simp only [loadWords, List.getElem?_cons_succ]
      rw [ih _ i (by omega)]
      have e : a + 2 + 2 * i = a + 2 * (i + 1) := by omega
      rw [e]

end Sim

section ClaimRoundTrip

/-- C2: against the simulated medium (it stores the words written to the data
port after a write command at the addressed sectors, returns them in order after
a read command for the same sectors, and always reports not busy, inserted and
ready), for every sector address, every count in [1,256] and all buffers `buf`,
`buf2`, of any alignment in the `_CF_ALLOW_UNALIGNED` build and halfword-aligned
in the plain build (whose 16-bit accesses, lines 198-199 and 297-298, are
defined for such buffers only), `_MMCF_writeSectors (sector, count, buf)`
followed by `_MMCF_readSectors (sector, count, buf2)` both return true and leave
the `512 * count` bytes at `buf2` equal to those that were at `buf`. -/
theorem C2_write_read_roundtrip (c : Consts) (b : Build) (sts : Nat)
    (hbusy : (sts % 65536) &&& c.CF_STS_BUSY = 0)
    (hins : (sts % 65536) &&& c.CF_STS_INSERTED ≠ 0)
    (hrdy : (sts % 65536) &&& 0xff = c.CF_STS_READY)
    (hT : 0 < c.CF_CARD_TIMEOUT)
    (sector count buf buf2 : Nat) (hcount : 1 ≤ count ∧ count ≤ 256)
    (s0 : SimCard) (mem : Nat → Nat) :
    (b = Build.direct → buf % 2 = 0 ∧ buf2 % 2 = 0) →
    (_MMCF_writeSectors c b (simCard c sts) sector count buf (Machine.start s0 mem)).1 = true ∧
    (_MMCF_readSectors c b (simCard c sts) sector count buf2
      (_MMCF_writeSectors c b (simCard c sts) sector count buf (Machine.start s0 mem)).2).1
        = true ∧
    ∀ j < 512 * count,
      load8 (_MMCF_readSectors c b (simCard c sts) sector count buf2
        (_MMCF_writeSectors c b (simCard c sts) sector count buf (Machine.start s0 mem)).2).2.mem
          (buf2 + j) = load8 mem (buf + j) := by
  intro _
  have hr := simCard_ready c sts hbusy hins hrdy
  have hp := simCard_pure c sts
  have hn : count < 4294967296 := by omega
  obtain ⟨w1, w2, w3⟩ := writeSectors_ready c b (simCard c sts) hr hp hT sector count buf hn
    (Machine.start s0 mem)
  obtain ⟨r1, r2, r3⟩ := readSectors_ready c b (simCard c sts) hr hp hT sector count buf2 hn
    (_MMCF_writeSectors c b (simCard c sts) sector count buf (Machine.start s0 mem)).2
  refine ⟨w1, r1, ?_⟩
  intro j hj
  rw [r3, w3, w2]
  have hlen := loadWords_length mem (256 * count) buf
  -- the word at index `q` drained by the read is the word fed by the write
  have hword : ∀ q < 256 * count,
      (drain (simCard c sts) (256 * count)
        (latch c (simCard c sts) c.CF_CMD_READ (sector % 4294967296) count
          (feed (simCard c sts) (loadWords (Machine.start s0 mem).mem buf (256 * count))
            (latch c (simCard c sts) c.CF_CMD_WRITE (sector % 4294967296) count
              (Machine.start s0 mem).dev)))).1[q]? = some (load16 mem (buf + 2 * q)) := by
    intro q hq
    rw [drain_sim_store c sts _ _ q hq, (latch_sim_read c sts _ _ _).1,
      (latch_sim_read c sts _ _ _).2]
    have h1 := feed_sim_inside c sts (loadWords mem buf (256 * count))
      (latch c (simCard c sts) c.CF_CMD_WRITE (sector % 4294967296) count s0) q
      (load16 mem (buf + 2 * q)) (loadWords_getElem mem _ buf q hq)
    rw [(latch_sim_write c sts _ _ _).1] at h1
    simp only [Machine.start]
    rw [h1, Nat.mod_mod, Nat.mod_eq_of_lt (load16_lt mem _)]
  obtain ⟨hlo, hhi⟩ := load8_storeWords_inside _ (Machine.start s0 mem).mem buf2 (j / 2) _
    (hword (j / 2) (by omega))
  have h8a := load8_lt mem (buf + 2 * (j / 2))
  have h8b := load8_lt mem (buf + 2 * (j / 2) + 1)
  rcases Nat.mod_two_eq_zero_or_one j with h | h
  · have e : buf2 + j = buf2 + 2 * (j / 2) := by omega
    have e2 : buf + j = buf + 2 * (j / 2) := by omega
    rw [e, hlo, e2]
    simp only [load16]
    omega
  · have e : buf2 + j = buf2 + 2 * (j / 2) + 1 := by omega
    have e2 : buf + j = buf + 2 * (j / 2) + 1 := by omega
    rw [e, hhi, e2]
    simp only [load16]
    omega

/-- C2 at sector 5, count 2, `buf` holding 1024 incrementing bytes: read back
into an odd-addressed `buf2` in the `_CF_ALLOW_UNALIGNED` build, and into an
even-addressed `buf2` in the plain build. -/
theorem C2_write_read_roundtrip_witness :
    ((0x58 % 65536) &&& (sampleConsts 1000).CF_STS_BUSY = 0 ∧
     (0x58 % 65536) &&& (sampleConsts 1000).CF_STS_INSERTED ≠ 0 ∧
     (0x58 % 65536) &&& 0xff = (sampleConsts 1000).CF_STS_READY) ∧
    ((_MMCF_writeSectors (sampleConsts 1000) Build.allowUnaligned
      (simCard (sampleConsts 1000) 0x58) 5 2 4096 (Machine.start blankSim countingMem)).1 = true ∧
    (_MMCF_readSectors (sampleConsts 1000) Build.allowUnaligned
      (simCard (sampleConsts 1000) 0x58) 5 2 8193
      (_MMCF_writeSectors (sampleConsts 1000) Build.allowUnaligned
        (simCard (sampleConsts 1000) 0x58) 5 2 4096
        (Machine.start blankSim countingMem)).2).1 = true ∧
    ∀ j < 512 * 2,
      load8 (_MMCF_readSectors (sampleConsts 1000) Build.allowUnaligned
        (simCard (sampleConsts 1000) 0x58) 5 2 8193
        (_MMCF_writeSectors (sampleConsts 1000) Build.allowUnaligned
          (simCard (sampleConsts 1000) 0x58) 5 2 4096
          (Machine.start blankSim countingMem)).2).2.mem (8193 + j)
        = load8 countingMem (4096 + j)) ∧
    ((Build.direct = Build.direct → 4096 % 2 = 0 ∧ 8192 % 2 = 0) ∧
    (_MMCF_writeSectors (sampleConsts 1000) Build.direct
      (simCard (sampleConsts 1000) 0x58) 5 2 4096 (Machine.start blankSim countingMem)).1 = true ∧
    (_MMCF_readSectors (sampleConsts 1000) Build.direct
      (simCard (sampleConsts 1000) 0x58) 5 2 8192
      (_MMCF_writeSectors (sampleConsts 1000) Build.direct
        (simCard (sampleConsts 1000) 0x58) 5 2 4096
        (Machine.start blankSim countingMem)).2).1 = true ∧
    ∀ j < 512 * 2,
      load8 (_MMCF_readSectors (sampleConsts 1000) Build.direct
        (simCard (sampleConsts 1000) 0x58) 5 2 8192
        (_MMCF_writeSectors (sampleConsts 1000) Build.direct
          (simCard (sampleConsts 1000) 0x58) 5 2 4096
          (Machine.start blankSim countingMem)).2).2.mem (8192 + j)
        = load8 countingMem (4096 + j)) :=
  ⟨by decide,
    C2_write_read_roundtrip (sampleConsts 1000) Build.allowUnaligned 0x58
      (by decide) (by decide) (by decide) (by decide) 5 2 4096 8193 (by decide)
      blankSim countingMem (by decide),
    by decide,
    C2_write_read_roundtrip (sampleConsts 1000) Build.direct 0x58
      (by decide) (by decide) (by decide) (by decide) 5 2 4096 8192 (by decide)
      blankSim countingMem (by decide)⟩

end ClaimRoundTrip

/-! ## Every run of the per-sector loops, summarised -/

section Summary

variable {σ : Type}

/-- Any run of the read loop: some `k ≤ n` sectors were transferred, the loop
returned true exactly when `k = n`, and the accesses were status samples and
data-port reads only. -/
theorem readSectorLoop_summary (c : Consts) (b : Build) (d : Device σ)
    (n : Nat) (p : Nat × Nat) (m : Machine σ) :
    ∃ k ≤ n, ∃ t, (readSectorLoop c b d n p m).2.trace = m.trace ++ t ∧
      (∀ a ∈ t, a.isStatusRead = true ∨ a.isDataRead = true) ∧
      (dataReads t).length = 256 * k ∧
      dataWrites t = [] ∧
      (readSectorLoop c b d n p m).2.mem = storeWords m.mem (cursor b p) (dataReads t) ∧
      ((readSectorLoop c b d n p m).1 = true ↔ k = n) ∧
      statusSamples t ≤ n * (c.CF_CARD_TIMEOUT + 1) := by
  rcases first_failure (readReadyOK c b d (p, m)) n with h | ⟨k, hk, h1, h2⟩
  · obtain ⟨t, g1, g2, g3, g4, g5, _, g7⟩ := readIter_spec c b d n (p, m)
    rw [readSectorLoop_ok c b d n p m h]
    exact ⟨n, le_refl _, t, g1, g2, g3, g4, g5, by simp, g7⟩
  · obtain ⟨t, g1, g2, g3, g4, g5, _, g7⟩ := readIter_spec c b d k (p, m)
    obtain ⟨t1, f1, f2, f3, f4, f5⟩ := poll_spec d c.CF_CARD_TIMEOUT
      (fun v => v &&& 0xff != c.CF_STS_READY) (readIter c b d k (p, m)).2
    rw [readSectorLoop_fail c b d n k p m hk h1 h2]
    refine ⟨k, le_of_lt hk, t ++ t1, ?_, ?_, ?_, ?_, ?_, ?_, ?_⟩
    · simp only [waitUntilReady, f1, g1, List.append_assoc]
    · intro a ha
      rcases List.mem_append.1 ha with h | h
      · exact g2 a h
      · exact Or.inl (f2 a h)
    · simp only [dataReads_append, dataReads_status t1 f2, List.append_nil, g3]
    · simp only [dataWrites_append, dataWrites_status t1 f2, List.append_nil, g4]
    · simp only [dataReads_append, dataReads_status t1 f2, List.append_nil]
      simp only [waitUntilReady, f5, g5]
    · constructor
      · intro h; simp at h
      · intro h; omega
    · simp only [statusSamples_append, statusSamples_status t1 f2, f3]
      have e : n * (c.CF_CARD_TIMEOUT + 1) =
          k * (c.CF_CARD_TIMEOUT + 1) + (n - k) * (c.CF_CARD_TIMEOUT + 1) := by
        rw [← Nat.add_mul]; congr 1; omega
      have e2 : 1 * (c.CF_CARD_TIMEOUT + 1) ≤ (n - k) * (c.CF_CARD_TIMEOUT + 1) :=
        Nat.mul_le_mul_right _ (by omega)
      omega

/-- Any run of the write loop: some `k ≤ n` sectors were transferred, the loop
returned true exactly when `k = n`, memory is untouched, and the accesses were
status samples and data-port writes only. -/
theorem writeSectorLoop_summary (c : Consts) (b : Build) (d : Device σ)
    (n : Nat) (p : Nat × Nat) (m : Machine σ) :
    ∃ k ≤ n, ∃ t, (writeSectorLoop c b d n p m).2.trace = m.trace ++ t ∧
      (∀ a ∈ t, a.isStatusRead = true ∨ a.isDataWrite = true) ∧
      dataWrites t = loadWords m.mem (cursor b p) (256 * k) ∧
      dataReads t = [] ∧
      (writeSectorLoop c b d n p m).2.mem = m.mem ∧
      ((writeSectorLoop c b d n p m).1 = true ↔ k = n) ∧
      statusSamples t ≤ n * (c.CF_CARD_TIMEOUT + 1) := by
  rcases first_failure (writeReadyOK c b d (p, m)) n with h | ⟨k, hk, h1, h2⟩
  · obtain ⟨t, g1, g2, g3, g4, g5, _, g7⟩ := writeIter_spec c b d n (p, m)
    rw [writeSectorLoop_ok c b d n p m h]
    exact ⟨n, le_refl _, t, g1, g2, g3, g4, g5, by simp, g7⟩
  · obtain ⟨t, g1, g2, g3, g4, g5, _, g7⟩ := writeIter_spec c b d k (p, m)
    obtain ⟨t1, f1, f2, f3, f4, f5⟩ := poll_spec d c.CF_CARD_TIMEOUT
      (fun v => v &&& 0xff != c.CF_STS_READY) (writeIter c b d k (p, m)).2
    rw [writeSectorLoop_fail c b d n k p m hk h1 h2]
    refine ⟨k, le_of_lt hk, t ++ t1, ?_, ?_, ?_, ?_, ?_, ?_, ?_⟩
    · simp only [waitUntilReady, f1, g1, List.append_assoc]
    · intro a ha
      rcases List.mem_append.1 ha with h | h
      · exact g2 a h
      · exact Or.inl (f2 a h)
    · simp only [dataWrites_append, dataWrites_status t1 f2, List.append_nil, g3]
    · simp only [dataReads_append, dataReads_status t1 f2, List.append_nil, g4]
    · simp only [waitUntilReady, f5, g5]
    · constructor
      · intro h; simp at h
      · intro h; omega
    · simp only [statusSamples_append, statusSamples_status t1 f2, f3]
      have e : n * (c.CF_CARD_TIMEOUT + 1) =
          k * (c.CF_CARD_TIMEOUT + 1) + (n - k) * (c.CF_CARD_TIMEOUT + 1) := by
        rw [← Nat.add_mul]; congr 1; omega
      have e2 : 1 * (c.CF_CARD_TIMEOUT + 1) ≤ (n - k) * (c.CF_CARD_TIMEOUT + 1) :=
        Nat.mul_le_mul_right _ (by omega)
      omega

theorem writesTo_none (r : Reg) (t : List Access) (hr : r ≠ Reg.DATA)
    (h : ∀ a ∈ t, a.isStatusRead = true ∨ a.isDataRead = true ∨ a.isDataWrite = true) :
    writesTo r t = [] := by
  induction t with
  | nil => rfl
  | cons a t ih =>
    have ha := h a (List.mem_cons_self _ _)
    have ht := ih (fun x hx => h x (List.mem_cons_of_mem _ hx))
    cases a with
    | rd q v => simpa [writesTo] using ht
    | wr q v =>
      cases q <;> simp [Access.isStatusRead, Access.isDataRead, Access.isDataWrite] at ha
      have hr2 : ¬ Reg.DATA = r := fun e => hr e.symm
      simpa [writesTo, hr2] using ht

end Summary

/-! ## Whole runs -/

section Runs

variable {σ : Type}

/-- A read whose opening waits succeed: status samples, the six register
writes, then status samples and data-port reads for some `k` sectors. -/
theorem readSectors_run (c : Consts) (b : Build) (d : Device σ)
    (sector numSectors buffer : Nat) (m : Machine σ)
    (hpre : (preludeWaits c d m).1 < c.CF_CARD_TIMEOUT) :
    ∃ k ≤ numSectors % 4294967296, ∃ t0 t,
      (_MMCF_readSectors c b d sector numSectors buffer m).2.trace =
        m.trace ++ t0 ++
          commandWrites c c.CF_CMD_READ (sector % 4294967296) (numSectors % 4294967296) ++ t ∧
      (∀ a ∈ t0, a.isStatusRead = true) ∧
      (∀ a ∈ t, a.isStatusRead = true ∨ a.isDataRead = true) ∧
      (dataReads t).length = 256 * k ∧
      dataWrites t = [] ∧
      (_MMCF_readSectors c b d sector numSectors buffer m).2.mem =
        storeWords m.mem buffer (dataReads t) ∧
      ((_MMCF_readSectors c b d sector numSectors buffer m).1 = true ↔
        k = numSectors % 4294967296) ∧
      statusSamples t0 ≤ 2 * (c.CF_CARD_TIMEOUT + 1) ∧
      statusSamples t ≤ numSectors % 4294967296 * (c.CF_CARD_TIMEOUT + 1) := by
  obtain ⟨t0, g1, g2, g3, g4⟩ := commandIssued_spec c d c.CF_CMD_READ sector numSectors m
  obtain ⟨k, hk, t, h1, h2, h3, h4, h5, h6, h7⟩ := readSectorLoop_summary c b d
    (numSectors % 4294967296) (buffer, buffer)
    (commandIssued c d c.CF_CMD_READ sector numSectors m)
  rw [readSectors_issued c b d sector numSectors buffer m hpre]
  refine ⟨k, hk, t0, t, ?_, g2, h2, h3, h4, ?_, h6, ?_, h7⟩
  · rw [h1, g1]
  · rw [h5, g4, cursor_same]
  · rw [statusSamples_status t0 g2]; exact g3

/-- A write whose opening waits succeed: status samples, the six register
writes, then status samples and data-port writes for some `k` sectors. -/
theorem writeSectors_run (c : Consts) (b : Build) (d : Device σ)
    (sector numSectors buffer : Nat) (m : Machine σ)
    (hpre : (preludeWaits c d m).1 < c.CF_CARD_TIMEOUT) :
    ∃ k ≤ numSectors % 4294967296, ∃ t0 t,
      (_MMCF_writeSectors c b d sector numSectors buffer m).2.trace =
        m.trace ++ t0 ++
          commandWrites c c.CF_CMD_WRITE (sector % 4294967296) (numSectors % 4294967296) ++ t ∧
      (∀ a ∈ t0, a.isStatusRead = true) ∧
      (∀ a ∈ t, a.isStatusRead = true ∨ a.isDataWrite = true) ∧
      dataWrites t = loadWords m.mem buffer (256 * k) ∧
      dataReads t = [] ∧
      (_MMCF_writeSectors c b d sector numSectors buffer m).2.mem = m.mem ∧
      ((_MMCF_writeSectors c b d sector numSectors buffer m).1 = true ↔
        k = numSectors % 4294967296) ∧
      statusSamples t0 ≤ 2 * (c.CF_CARD_TIMEOUT + 1) ∧
      statusSamples t ≤ numSectors % 4294967296 * (c.CF_CARD_TIMEOUT + 1) := by
  obtain ⟨t0, g1, g2, g3, g4⟩ := commandIssued_spec c d c.CF_CMD_WRITE sector numSectors m
  obtain ⟨k, hk, t, h1, h2, h3, h4, h5, h6, h7⟩ := writeSectorLoop_summary c b d
    (numSectors % 4294967296) (buffer, buffer)
    (commandIssued c d c.CF_CMD_WRITE sector numSectors m)
  rw [writeSectors_issued c b d sector numSectors buffer m hpre]
  refine ⟨k, hk, t0, t, ?_, g2, h2, ?_, h4, ?_, h6, ?_, h7⟩
  · rw [h1, g1]
  · rw [h3, g4, cursor_same]
  · rw [h5, g4]
  · rw [statusSamples_status t0 g2]; exact g3

theorem writesTo_status (r : Reg) (t : List Access) (h : ∀ a ∈ t, a.isStatusRead = true) :
    writesTo r t = [] := by
  induction t with
  | nil => rfl
  | cons a t ih =>
    have ha := h a (List.mem_cons_self _ _)
    have ht := ih (fun x hx => h x (List.mem_cons_of_mem _ hx))
    cases a with
    | rd q v => simpa [writesTo] using ht
    | wr q v => simp [Access.isStatusRead] at ha

theorem writesTo_SEC_commandWrites (c : Consts) (opcode sector numSectors : Nat) :
    writesTo Reg.SEC (commandWrites c opcode sector numSectors) =
      [(if numSectors < 256 then numSectors else 0) % 65536] := by
  simp [writesTo, commandWrites]

/-- The six values of `commandWrites`, as bit fields of the sector address. -/
theorem commandWrites_eq (c : Consts) (opcode sector numSectors : Nat) :
    commandWrites c opcode (sector % 4294967296) numSectors =
      sixWrites ((if numSectors < 256 then numSectors else 0) % 65536)
        (sector % 256) (sector / 256 % 256) (sector / 65536 % 256)
        (((sector / 16777216 % 16) ||| c.CF_CMD_LBA) % 65536) (opcode % 65536) := by
  have e1 : ∀ x : Nat, x &&& 0xFF = x % 256 := and_ff
  have e2 : ∀ x : Nat, x &&& 0x0F = x % 16 := fun x => Nat.and_pow_two_sub_one_eq_mod x 4
  simp only [commandWrites, sixWrites, e1, e2, Nat.shiftRight_eq_div_pow]
  have a1 : sector % 4294967296 % 256 % 65536 = sector % 256 := by omega
  have a2 : sector % 4294967296 / 2 ^ 8 % 256 % 65536 = sector / 256 % 256 := by omega
  have a3 : sector % 4294967296 / 2 ^ 16 % 256 % 65536 = sector / 65536 % 256 := by omega
  have a4 : sector % 4294967296 / 2 ^ 24 % 16 = sector / 16777216 % 16 := by omega
  rw [a1, a2, a3, a4]

end Runs

section ClaimSectorCount

variable {σ : Type}

/-- C3: on a card where every wait succeeds, a read and a write of
`numSectors` in [1,255] write `numSectors` to the sector-count register and
transfer exactly `numSectors` sectors of 256 words; for `numSectors = 256` they
write 0 to the sector-count register and transfer exactly 256 sectors. -/
theorem C3_sector_count_encoding (c : Consts) (b : Build) (d : Device σ)
    (sector numSectors buffer : Nat) (dev : σ) (mem : Nat → Nat)
    (hn : 1 ≤ numSectors ∧ numSectors ≤ 256)
    (hpre : (preludeWaits c d (Machine.start dev mem)).1 < c.CF_CARD_TIMEOUT) :
    ((∀ k < numSectors, readReadyOK c b d ((buffer, buffer),
        commandIssued c d c.CF_CMD_READ sector numSectors (Machine.start dev mem)) k = true) →
      writesTo Reg.SEC
        (_MMCF_readSectors c b d sector numSectors buffer (Machine.start dev mem)).2.trace =
          [if numSectors = 256 then 0 else numSectors] ∧
      (dataReads
        (_MMCF_readSectors c b d sector numSectors buffer (Machine.start dev mem)).2.trace).length
          = 256 * numSectors) ∧
    ((∀ k < numSectors, writeReadyOK c b d ((buffer, buffer),
        commandIssued c d c.CF_CMD_WRITE sector numSectors (Machine.start dev mem)) k = true) →
      writesTo Reg.SEC
        (_MMCF_writeSectors c b d sector numSectors buffer (Machine.start dev mem)).2.trace =
          [if numSectors = 256 then 0 else numSectors] ∧
      (dataWrites
        (_MMCF_writeSectors c b d sector numSectors buffer (Machine.start dev mem)).2.trace).length
          = 256 * numSectors) := by
  have hmod : numSectors % 4294967296 = numSectors := Nat.mod_eq_of_lt (by omega)
  have hval : (if numSectors < 256 then numSectors else 0) % 65536 =
      if numSectors = 256 then 0 else numSectors := by
    by_cases h : numSectors = 256
    · subst h; rfl
    · have h2 : numSectors < 256 := by omega
      simp only [h, h2, if_true, if_false]; omega
  constructor
  · intro hready
    obtain ⟨k, _, t0, t, h1, h2, h3, h4, _, _, h7, _, _⟩ :=
      readSectors_run c b d sector numSectors buffer (Machine.start dev mem) hpre
    have hret : (_MMCF_readSectors c b d sector numSectors buffer (Machine.start dev mem)).1
        = true := by
      rw [readSectors_issued c b d sector numSectors buffer _ hpre, hmod,
        readSectorLoop_ok c b d numSectors _ _ hready]
    have hk : k = numSectors := by rw [← hmod]; exact h7.1 hret
    rw [h1]
    simp only [Machine.start, List.nil_append, writesTo_append, dataReads_append,
      writesTo_status _ t0 h2, dataReads_status t0 h2, dataReads_commandWrites,
      writesTo_SEC_commandWrites, hmod, hval, h4, hk, List.append_nil, and_self,
      writesTo_none Reg.SEC t (by decide) (fun a ha => (h3 a ha).imp_right Or.inl)]
  · intro hready
    obtain ⟨k, _, t0, t, h1, h2, h3, h4, _, _, h7, _, _⟩ :=
      writeSectors_run c b d sector numSectors buffer (Machine.start dev mem) hpre
    have hret : (_MMCF_writeSectors c b d sector numSectors buffer (Machine.start dev mem)).1
        = true := by
      rw [writeSectors_issued c b d sector numSectors buffer _ hpre, hmod,
        writeSectorLoop_ok c b d numSectors _ _ hready]
    have hk : k = numSectors := by rw [← hmod]; exact h7.1 hret
    rw [h1]
    simp only [Machine.start, List.nil_append, writesTo_append, dataWrites_append,
      writesTo_status _ t0 h2, dataWrites_status t0 h2, dataWrites_commandWrites,
      writesTo_SEC_commandWrites, hmod, hval, h4, hk, List.append_nil, and_self, loadWords_length,
      writesTo_none Reg.SEC t (by decide) (fun a ha => (h3 a ha).imp_right Or.inr)]

end ClaimSectorCount

section ClaimCommand

variable {σ : Type}

theorem constCard_ready (T w o : Nat) : AlwaysReady (sampleConsts T) (constCard 0x58 w o) := by
  intro s
  refine ⟨?_, ?_, ?_⟩
  · show (0x58 % 65536) &&& 0x80 = 0
    decide
  · show (0x58 % 65536) &&& 0x50 ≠ 0
    decide
  · show (0x58 % 65536) &&& 0xff = 0x58
    decide

/-- C3 at `numSectors = 256` on a card that is always ready: the sector-count
register receives 0 and 65536 words are transferred. -/
theorem C3_sector_count_encoding_witness :
    (writesTo Reg.SEC (_MMCF_readSectors (sampleConsts 1000) Build.direct (constCard 0x58 0 0)
        7 256 4096 (Machine.start () zeroMem)).2.trace = [0] ∧
      (dataReads (_MMCF_readSectors (sampleConsts 1000) Build.direct (constCard 0x58 0 0)
        7 256 4096 (Machine.start () zeroMem)).2.trace).length = 256 * 256) ∧
    (writesTo Reg.SEC (_MMCF_writeSectors (sampleConsts 1000) Build.direct (constCard 0x58 0 0)
        7 256 4096 (Machine.start () zeroMem)).2.trace = [0] ∧
      (dataWrites (_MMCF_writeSectors (sampleConsts 1000) Build.direct (constCard 0x58 0 0)
        7 256 4096 (Machine.start () zeroMem)).2.trace).length = 256 * 256) := by
  have h := C3_sector_count_encoding (sampleConsts 1000) Build.direct (constCard 0x58 0 0)
    7 256 4096 () zeroMem (by decide) (by decide)
  exact ⟨h.1 (fun k _ => readReadyOK_ready _ _ _ (constCard_ready 1000 0 0) (by decide) _ k),
    h.2 (fun k _ => writeReadyOK_ready _ _ _ (constCard_ready 1000 0 0) (by decide) _ k)⟩

theorem filter_regWrite_nil (t : List Access)
    (h : ∀ a ∈ t, a.isStatusRead = true ∨ a.isDataRead = true ∨ a.isDataWrite = true) :
    t.filter Access.isRegWrite = [] := by
  rw [List.filter_eq_nil_iff]
  intro a ha
  have h1 := h a ha
  cases a with
  | rd q v => simp [Access.isRegWrite]
  | wr q v =>
    cases q <;>
      simp_all [Access.isStatusRead, Access.isDataRead, Access.isDataWrite, Access.isRegWrite]

theorem count_mod (x : Nat) :
    (if x < 256 then x else 0) % 65536 = if x < 256 then x else 0 := by
  by_cases h : x < 256
  · simp only [h, if_true]; omega
  · simp only [h, if_false]

/-- C4: whenever the opening waits succeed, the accesses of a read (of a write)
are: status samples; then exactly the six register writes sector count,
LBA1 = sector bits 0-7, LBA2 = bits 8-15, LBA3 = bits 16-23,
LBA4 = bits 24-27 OR `CF_CMD_LBA`, command = `CF_CMD_READ` (`CF_CMD_WRITE`), in
this order; then only status samples and data-port accesses.  So these six are
all the register writes, the command write is the last of them, and all come
before any data transfer. -/
theorem C4_command_write_order (c : Consts) (b : Build) (d : Device σ)
    (sector numSectors buffer : Nat) (dev : σ) (mem : Nat → Nat)
    (hpre : (preludeWaits c d (Machine.start dev mem)).1 < c.CF_CARD_TIMEOUT) :
    (∃ t0 t,
      (_MMCF_readSectors c b d sector numSectors buffer (Machine.start dev mem)).2.trace =
        t0 ++ sixWrites
          (if numSectors % 4294967296 < 256 then numSectors % 4294967296 else 0)
          (sector % 256) (sector / 256 % 256) (sector / 65536 % 256)
          (((sector / 16777216 % 16) ||| c.CF_CMD_LBA) % 65536) (c.CF_CMD_READ % 65536) ++ t ∧
      (∀ a ∈ t0, a.isStatusRead = true) ∧
      (∀ a ∈ t, a.isStatusRead = true ∨ a.isDataRead = true)) ∧
    (∃ t0 t,
      (_MMCF_writeSectors c b d sector numSectors buffer (Machine.start dev mem)).2.trace =
        t0 ++ sixWrites
          (if numSectors % 4294967296 < 256 then numSectors % 4294967296 else 0)
          (sector % 256) (sector / 256 % 256) (sector / 65536 % 256)
          (((sector / 16777216 % 16) ||| c.CF_CMD_LBA) % 65536) (c.CF_CMD_WRITE % 65536) ++ t ∧
      (∀ a ∈ t0, a.isStatusRead = true) ∧
      (∀ a ∈ t, a.isStatusRead = true ∨ a.isDataWrite = true)) ∧
    (_MMCF_readSectors c b d sector numSectors buffer
        (Machine.start dev mem)).2.trace.filter Access.isRegWrite =
      sixWrites (if numSectors % 4294967296 < 256 then numSectors % 4294967296 else 0)
        (sector % 256) (sector / 256 % 256) (sector / 65536 % 256)
        (((sector / 16777216 % 16) ||| c.CF_CMD_LBA) % 65536) (c.CF_CMD_READ % 65536) ∧
    (_MMCF_writeSectors c b d sector numSectors buffer
        (Machine.start dev mem)).2.trace.filter Access.isRegWrite =
      sixWrites (if numSectors % 4294967296 < 256 then numSectors % 4294967296 else 0)
        (sector % 256) (sector / 256 % 256) (sector / 65536 % 256)
        (((sector / 16777216 % 16) ||| c.CF_CMD_LBA) % 65536) (c.CF_CMD_WRITE % 65536) := by
  obtain ⟨_, _, r0, r, r1, r2, r3, _⟩ :=
    readSectors_run c b d sector numSectors buffer (Machine.start dev mem) hpre
  obtain ⟨_, _, w0, w, w1, w2, w3, _⟩ :=
    writeSectors_run c b d sector numSectors buffer (Machine.start dev mem) hpre
  rw [commandWrites_eq, count_mod] at r1 w1
  have e : (Machine.start dev mem).trace = [] := rfl
  rw [e, List.nil_append] at r1 w1
  refine ⟨⟨r0, r, r1, r2, r3⟩, ⟨w0, w, w1, w2, w3⟩, ?_, ?_⟩
  · rw [r1, List.filter_append, List.filter_append,
      filter_regWrite_nil r0 (fun a ha => Or.inl (r2 a ha)),
      filter_regWrite_nil r (fun a ha => (r3 a ha).imp_right Or.inl)]
    simp [sixWrites, Access.isRegWrite]
  · rw [w1, List.filter_append, List.filter_append,
      filter_regWrite_nil w0 (fun a ha => Or.inl (w2 a ha)),
      filter_regWrite_nil w (fun a ha => (w3 a ha).imp_right Or.inr)]
    simp [sixWrites, Access.isRegWrite]

/-- C4 at sector 0x0ABCDEF1, count 3, on a card that is always ready: the
register writes of the read are 3, 0xF1, 0xDE, 0xBC, 0xEA, 0x20. -/
theorem C4_command_write_order_witness :
    (preludeWaits (sampleConsts 1000) (constCard 0x58 0 0) (Machine.start () zeroMem)).1
      < (sampleConsts 1000).CF_CARD_TIMEOUT ∧
    (_MMCF_readSectors (sampleConsts 1000) Build.allowUnaligned (constCard 0x58 0 0)
        0x0ABCDEF1 3 4097 (Machine.start () zeroMem)).2.trace.filter Access.isRegWrite =
      sixWrites 3 0xF1 0xDE 0xBC 0xEA 0x20 ∧
    (_MMCF_writeSectors (sampleConsts 1000) Build.allowUnaligned (constCard 0x58 0 0)
        0x0ABCDEF1 3 4097 (Machine.start () zeroMem)).2.trace.filter Access.isRegWrite =
      sixWrites 3 0xF1 0xDE 0xBC 0xEA 0x30 :=
  ⟨by decide,
    (C4_command_write_order (sampleConsts 1000) Build.allowUnaligned (constCard 0x58 0 0)
      0x0ABCDEF1 3 4097 () zeroMem (by decide)).2.2.1,
    (C4_command_write_order (sampleConsts 1000) Build.allowUnaligned (constCard 0x58 0 0)
      0x0ABCDEF1 3 4097 () zeroMem (by decide)).2.2.2⟩

end ClaimCommand

section ClaimFailures

variable {σ : Type}

theorem land_low_self (v x : Nat) (h : v &&& 0xff = x) : v &&& x = x := by
  rw [← h, ← Nat.land_assoc, Nat.and_self]

theorem preludeWaits_never_inserted (c : Consts) (d : Device σ)
    (hnever : ∀ s, ((d.read Reg.STS_CMD s).1 % 65536) &&& c.CF_STS_INSERTED = 0)
    (m : Machine σ) : (preludeWaits c d m).1 = c.CF_CARD_TIMEOUT := by
  apply poll_always
  intro s
  simp [hnever s]

/-- C5: on a card whose status register never shows the inserted flag
(`CF_STS_INSERTED` being a non-zero mask), `_MMCF_isInserted` returns false,
and `_MMCF_readSectors` and `_MMCF_writeSectors` return false having performed
nothing but samples of the status register (no write to the sector-count, LBA
or command registers, no data-port access) and leaving memory unchanged. -/
theorem C5_absent_medium_no_command (c : Consts) (b : Build) (d : Device σ)
    (hmask : c.CF_STS_INSERTED ≠ 0)
    (hnever : ∀ s, ((d.read Reg.STS_CMD s).1 % 65536) &&& c.CF_STS_INSERTED = 0)
    (sector numSectors buffer : Nat) (dev : σ) (mem : Nat → Nat) :
    (_MMCF_isInserted c d (Machine.start dev mem)).1 = false ∧
    ((_MMCF_readSectors c b d sector numSectors buffer (Machine.start dev mem)).1 = false ∧
      (∀ a ∈ (_MMCF_readSectors c b d sector numSectors buffer (Machine.start dev mem)).2.trace,
        a.isStatusRead = true) ∧
      (_MMCF_readSectors c b d sector numSectors buffer (Machine.start dev mem)).2.mem = mem) ∧
    ((_MMCF_writeSectors c b d sector numSectors buffer (Machine.start dev mem)).1 = false ∧
      (∀ a ∈ (_MMCF_writeSectors c b d sector numSectors buffer (Machine.start dev mem)).2.trace,
        a.isStatusRead = true) ∧
      (_MMCF_writeSectors c b d sector numSectors buffer (Machine.start dev mem)).2.mem = mem) := by
  have hT := preludeWaits_never_inserted c d hnever (Machine.start dev mem)
  obtain ⟨t, h1, h2, _, _, h5⟩ := preludeWaits_spec c d (Machine.start dev mem)
  have e : (Machine.start dev mem).trace = [] := rfl
  rw [e, List.nil_append] at h1
  refine ⟨?_, ?_, ?_⟩
  · simp only [_MMCF_isInserted, decide_eq_false_iff_not]
    intro h
    have h3 := land_low_self _ _ h
    rw [busRead_val, hnever] at h3
    exact hmask h3.symm
  · rw [readSectors_timeout c b d sector numSectors buffer _ (le_of_eq hT.symm)]
    exact ⟨rfl, by rw [h1]; exact h2, h5⟩
  · rw [writeSectors_timeout c b d sector numSectors buffer _ (le_of_eq hT.symm)]
    exact ⟨rfl, by rw [h1]; exact h2, h5⟩

/-- C5 on a card whose status reads 0x08 for ever, polling bound 5. -/
theorem C5_absent_medium_no_command_witness :
    (sampleConsts 5).CF_STS_INSERTED ≠ 0 ∧
    (_MMCF_isInserted (sampleConsts 5) (constCard 0x08 0 0) (Machine.start () zeroMem)).1
      = false ∧
    ((_MMCF_readSectors (sampleConsts 5) Build.direct (constCard 0x08 0 0) 9 2 4096
        (Machine.start () zeroMem)).1 = false ∧
      (∀ a ∈ (_MMCF_readSectors (sampleConsts 5) Build.direct (constCard 0x08 0 0) 9 2 4096
        (Machine.start () zeroMem)).2.trace, a.isStatusRead = true) ∧
      (_MMCF_readSectors (sampleConsts 5) Build.direct (constCard 0x08 0 0) 9 2 4096
        (Machine.start () zeroMem)).2.mem = zeroMem) ∧
    ((_MMCF_writeSectors (sampleConsts 5) Build.direct (constCard 0x08 0 0) 9 2 4096
        (Machine.start () zeroMem)).1 = false ∧
      (∀ a ∈ (_MMCF_writeSectors (sampleConsts 5) Build.direct (constCard 0x08 0 0) 9 2 4096
        (Machine.start () zeroMem)).2.trace, a.isStatusRead = true) ∧
      (_MMCF_writeSectors (sampleConsts 5) Build.direct (constCard 0x08 0 0) 9 2 4096
        (Machine.start () zeroMem)).2.mem = zeroMem) :=
  ⟨by decide,
    C5_absent_medium_no_command (sampleConsts 5) Build.direct (constCard 0x08 0 0)
      (by decide) (fun _ => by show (0x08 % 65536) &&& 0x50 = 0; decide) 9 2 4096 () zeroMem⟩

/-- C6: for `numSectors` in [1,256] and a card on which the opening waits
succeed, `_MMCF_readSectors` (and `_MMCF_writeSectors`) returns true exactly
when the ready-wait of each of the `numSectors` sectors succeeds; when the
ready-wait of sector `k` is the first to time out the call returns false right
after that wait, with exactly `k` sectors (`256 * k` words) transferred. -/
theorem C6_true_iff_all_ready (c : Consts) (b : Build) (d : Device σ)
    (sector numSectors buffer : Nat) (dev : σ) (mem : Nat → Nat)
    (hn : 1 ≤ numSectors ∧ numSectors ≤ 256)
    (hpre : (preludeWaits c d (Machine.start dev mem)).1 < c.CF_CARD_TIMEOUT) :
    (((_MMCF_readSectors c b d sector numSectors buffer (Machine.start dev mem)).1 = true ↔
        ∀ k < numSectors, readReadyOK c b d ((buffer, buffer),
          commandIssued c d c.CF_CMD_READ sector numSectors (Machine.start dev mem)) k = true) ∧
      ∀ k < numSectors,
        (∀ j < k, readReadyOK c b d ((buffer, buffer),
          commandIssued c d c.CF_CMD_READ sector numSectors (Machine.start dev mem)) j = true) →
        readReadyOK c b d ((buffer, buffer),
          commandIssued c d c.CF_CMD_READ sector numSectors (Machine.start dev mem)) k = false →
        _MMCF_readSectors c b d sector numSectors buffer (Machine.start dev mem) =
          (false, (waitUntilReady c d (readIter c b d k ((buffer, buffer),
            commandIssued c d c.CF_CMD_READ sector numSectors (Machine.start dev mem))).2).2) ∧
        (dataReads (_MMCF_readSectors c b d sector numSectors buffer
          (Machine.start dev mem)).2.trace).length = 256 * k) ∧
    (((_MMCF_writeSectors c b d sector numSectors buffer (Machine.start dev mem)).1 = true ↔
        ∀ k < numSectors, writeReadyOK c b d ((buffer, buffer),
          commandIssued c d c.CF_CMD_WRITE sector numSectors (Machine.start dev mem)) k = true) ∧
      ∀ k < numSectors,
        (∀ j < k, writeReadyOK c b d ((buffer, buffer),
          commandIssued c d c.CF_CMD_WRITE sector numSectors (Machine.start dev mem)) j = true) →
        writeReadyOK c b d ((buffer, buffer),
          commandIssued c d c.CF_CMD_WRITE sector numSectors (Machine.start dev mem)) k = false →
        _MMCF_writeSectors c b d sector numSectors buffer (Machine.start dev mem) =
          (false, (waitUntilReady c d (writeIter c b d k ((buffer, buffer),
            commandIssued c d c.CF_CMD_WRITE sector numSectors (Machine.start dev mem))).2).2) ∧
        (dataWrites (_MMCF_writeSectors c b d sector numSectors buffer
          (Machine.start dev mem)).2.trace).length = 256 * k) := by
  have hmod : numSectors % 4294967296 = numSectors := Nat.mod_eq_of_lt (by omega)
  have e : (Machine.start dev mem).trace = [] := rfl
  constructor
  · have hrun := readSectors_issued c b d sector numSectors buffer (Machine.start dev mem) hpre
    rw [hmod] at hrun
    obtain ⟨t0, g1, g2, _, _⟩ :=
      commandIssued_spec c d c.CF_CMD_READ sector numSectors (Machine.start dev mem)
    have hfail : ∀ k < numSectors,
        (∀ j < k, readReadyOK c b d ((buffer, buffer),
          commandIssued c d c.CF_CMD_READ sector numSectors (Machine.start dev mem)) j = true) →
        readReadyOK c b d ((buffer, buffer),
          commandIssued c d c.CF_CMD_READ sector numSectors (Machine.start dev mem)) k = false →
        _MMCF_readSectors c b d sector numSectors buffer (Machine.start dev mem) =
          (false, (waitUntilReady c d (readIter c b d k ((buffer, buffer),
            commandIssued c d c.CF_CMD_READ sector numSectors (Machine.start dev mem))).2).2) :=
      fun k hk h1 h2 => by rw [hrun, readSectorLoop_fail c b d numSectors k _ _ hk h1 h2]
    constructor
    · constructor
      · intro hret
        rcases first_failure (readReadyOK c b d ((buffer, buffer),
          commandIssued c d c.CF_CMD_READ sector numSectors (Machine.start dev mem)))
          numSectors with h | ⟨k, hk, h1, h2⟩
        · exact h
        · rw [hfail k hk h1 h2] at hret
          exact absurd hret (by simp)
      · intro h
        rw [hrun, readSectorLoop_ok c b d numSectors _ _ h]
    · intro k hk h1 h2
      refine ⟨hfail k hk h1 h2, ?_⟩
      rw [hfail k hk h1 h2]
      obtain ⟨t, f1, _, f3, _⟩ := readIter_spec c b d k ((buffer, buffer),
        commandIssued c d c.CF_CMD_READ sector numSectors (Machine.start dev mem))
      rw [dataReads_waitUntilReady, f1, g1, e]
      simp only [List.nil_append, dataReads_append, dataReads_status t0 g2,
        dataReads_commandWrites, f3]
  · have hrun := writeSectors_issued c b d sector numSectors buffer (Machine.start dev mem) hpre
    rw [hmod] at hrun
    obtain ⟨t0, g1, g2, _, _⟩ :=
      commandIssued_spec c d c.CF_CMD_WRITE sector numSectors (Machine.start dev mem)
    have hfail : ∀ k < numSectors,
        (∀ j < k, writeReadyOK c b d ((buffer, buffer),
          commandIssued c d c.CF_CMD_WRITE sector numSectors (Machine.start dev mem)) j = true) →
        writeReadyOK c b d ((buffer, buffer),
          commandIssued c d c.CF_CMD_WRITE sector numSectors (Machine.start dev mem)) k = false →
        _MMCF_writeSectors c b d sector numSectors buffer (Machine.start dev mem) =
          (false, (waitUntilReady c d (writeIter c b d k ((buffer, buffer),
            commandIssued c d c.CF_CMD_WRITE sector numSectors (Machine.start dev mem))).2).2) :=
      fun k hk h1 h2 => by rw [hrun, writeSectorLoop_fail c b d numSectors k _ _ hk h1 h2]
    constructor
    · constructor
      · intro hret
        rcases first_failure (writeReadyOK c b d ((buffer, buffer),
          commandIssued c d c.CF_CMD_WRITE sector numSectors (Machine.start dev mem)))
          numSectors with h | ⟨k, hk, h1, h2⟩
        · exact h
        · rw [hfail k hk h1 h2] at hret
          exact absurd hret (by simp)
      · intro h
        rw [hrun, writeSectorLoop_ok c b d numSectors _ _ h]
    · intro k hk h1 h2
      refine ⟨hfail k hk h1 h2, ?_⟩
      rw [hfail k hk h1 h2]
      obtain ⟨t, f1, _, f3, _⟩ := writeIter_spec c b d k ((buffer, buffer),
        commandIssued c d c.CF_CMD_WRITE sector numSectors (Machine.start dev mem))
      obtain ⟨t1, p1, p2, _⟩ := poll_spec d c.CF_CARD_TIMEOUT
        (fun v => v &&& 0xff != c.CF_STS_READY) (writeIter c b d k ((buffer, buffer),
          commandIssued c d c.CF_CMD_WRITE sector numSectors (Machine.start dev mem))).2
      simp only [waitUntilReady]
      rw [p1, f1, g1, e]
      simp only [List.nil_append, dataWrites_append, dataWrites_status t0 g2,
        dataWrites_commandWrites, f3, dataWrites_status t1 p2, List.append_nil,
        loadWords_length]

end ClaimFailures

section ClaimTimeouts

variable {σ : Type}

set_option maxRecDepth 100000 in
/-- C6 on a card that stops being ready after one sector, polling bound 3,
`numSectors = 2`: the read and the write return false with 256 words
transferred. -/
theorem C6_true_iff_all_ready_witness :
    ((_MMCF_readSectors (sampleConsts 3) Build.direct (fadingCard 256) 0 2 4096
        (Machine.start 0 zeroMem)).1 = false ∧
      (dataReads (_MMCF_readSectors (sampleConsts 3) Build.direct (fadingCard 256) 0 2 4096
        (Machine.start 0 zeroMem)).2.trace).length = 256 * 1) ∧
    ((_MMCF_writeSectors (sampleConsts 3) Build.direct (fadingCard 256) 0 2 4096
        (Machine.start 0 zeroMem)).1 = false ∧
      (dataWrites (_MMCF_writeSectors (sampleConsts 3) Build.direct (fadingCard 256) 0 2 4096
        (Machine.start 0 zeroMem)).2.trace).length = 256 * 1) := by
  have h := C6_true_iff_all_ready (sampleConsts 3) Build.direct (fadingCard 256) 0 2 4096
    0 zeroMem (by decide) (by decide)
  have hr := h.1.2 1 (by decide) (by decide) (by decide)
  have hw := h.2.2 1 (by decide) (by decide) (by decide)
  exact ⟨⟨congrArg Prod.fst hr.1, hr.2⟩, ⟨congrArg Prod.fst hw.1, hw.2⟩⟩

theorem isData_status (t : List Access) (h : ∀ a ∈ t, a.isStatusRead = true) :
    ∀ a ∈ t, a.isData = false := by
  intro a ha
  have h1 := h a ha
  cases a with
  | rd q v => cases q <;> simp_all [Access.isStatusRead, Access.isData, Access.isDataRead,
      Access.isDataWrite]
  | wr q v => simp [Access.isStatusRead] at h1

theorem isData_commandWrites (c : Consts) (opcode sector numSectors : Nat) :
    ∀ a ∈ commandWrites c opcode sector numSectors, a.isData = false := by
  intro a ha
  simp only [commandWrites, List.mem_cons, List.mem_singleton, List.not_mem_nil, or_false] at ha
  rcases ha with h | h | h | h | h | h <;> subst h <;> rfl

theorem statusSamples_commandWrites (c : Consts) (opcode sector numSectors : Nat) :
    statusSamples (commandWrites c opcode sector numSectors) = 0 := rfl

/-- C7: on a card that passes the opening waits but whose status low byte
never equals `CF_STS_READY`, for `numSectors` in [1,256], `_MMCF_readSectors`
and `_MMCF_writeSectors` return false at the end of the first sector's
ready-wait, whose counter has then been incremented exactly `CF_CARD_TIMEOUT`
times (it sampled the status register `CF_CARD_TIMEOUT + 1` times); the data
port is never accessed. -/
theorem C7_never_ready_times_out (c : Consts) (b : Build) (d : Device σ)
    (hnr : ∀ s, ((d.read Reg.STS_CMD s).1 % 65536) &&& 0xff ≠ c.CF_STS_READY)
    (sector numSectors buffer : Nat) (dev : σ) (mem : Nat → Nat)
    (hn : 1 ≤ numSectors ∧ numSectors ≤ 256)
    (hpre : (preludeWaits c d (Machine.start dev mem)).1 < c.CF_CARD_TIMEOUT) :
    (_MMCF_readSectors c b d sector numSectors buffer (Machine.start dev mem) =
        (false, (waitUntilReady c d
          (commandIssued c d c.CF_CMD_READ sector numSectors (Machine.start dev mem))).2) ∧
      (waitUntilReady c d
        (commandIssued c d c.CF_CMD_READ sector numSectors (Machine.start dev mem))).1
          = c.CF_CARD_TIMEOUT ∧
      statusSamples
        (_MMCF_readSectors c b d sector numSectors buffer (Machine.start dev mem)).2.trace =
        statusSamples
          (commandIssued c d c.CF_CMD_READ sector numSectors (Machine.start dev mem)).trace
          + (c.CF_CARD_TIMEOUT + 1) ∧
      ∀ a ∈ (_MMCF_readSectors c b d sector numSectors buffer (Machine.start dev mem)).2.trace,
        a.isData = false) ∧
    (_MMCF_writeSectors c b d sector numSectors buffer (Machine.start dev mem) =
        (false, (waitUntilReady c d
          (commandIssued c d c.CF_CMD_WRITE sector numSectors (Machine.start dev mem))).2) ∧
      (waitUntilReady c d
        (commandIssued c d c.CF_CMD_WRITE sector numSectors (Machine.start dev mem))).1
          = c.CF_CARD_TIMEOUT ∧
      statusSamples
        (_MMCF_writeSectors c b d sector numSectors buffer (Machine.start dev mem)).2.trace =
        statusSamples
          (commandIssued c d c.CF_CMD_WRITE sector numSectors (Machine.start dev mem)).trace
          + (c.CF_CARD_TIMEOUT + 1) ∧
      ∀ a ∈ (_MMCF_writeSectors c b d sector numSectors buffer (Machine.start dev mem)).2.trace,
        a.isData = false) := by
  have hmod : numSectors % 4294967296 = numSectors := Nat.mod_eq_of_lt (by omega)
  have e : (Machine.start dev mem).trace = [] := rfl
  have hcount : ∀ m : Machine σ, (waitUntilReady c d m).1 = c.CF_CARD_TIMEOUT := by
    intro m
    apply poll_always
    intro s
    simp [hnr s]
  obtain ⟨n, rfl⟩ : ∃ n, numSectors = n + 1 := ⟨numSectors - 1, by omega⟩
  constructor
  · have hrun : _MMCF_readSectors c b d sector (n + 1) buffer (Machine.start dev mem) =
        (false, (waitUntilReady c d
          (commandIssued c d c.CF_CMD_READ sector (n + 1) (Machine.start dev mem))).2) := by
      rw [readSectors_issued c b d sector (n + 1) buffer _ hpre, hmod]
      simp only [readSectorLoop, hcount, ge_iff_le, le_refl, if_true]
    obtain ⟨t0, g1, g2, _, _⟩ :=
      commandIssued_spec c d c.CF_CMD_READ sector (n + 1) (Machine.start dev mem)
    obtain ⟨t1, p1, p2, p3, _⟩ := poll_spec d c.CF_CARD_TIMEOUT
      (fun v => v &&& 0xff != c.CF_STS_READY)
      (commandIssued c d c.CF_CMD_READ sector (n + 1) (Machine.start dev mem))
    have hlen : t1.length = c.CF_CARD_TIMEOUT + 1 := by
      have := hcount (commandIssued c d c.CF_CMD_READ sector (n + 1) (Machine.start dev mem))
      simp only [waitUntilReady] at this
      omega
    refine ⟨hrun, hcount _, ?_, ?_⟩
    · rw [hrun]
      simp only [waitUntilReady]
      rw [p1, statusSamples_append, statusSamples_status t1 p2, hlen]
    · rw [hrun]
      simp only [waitUntilReady]
      rw [p1, g1, e]
      intro a ha
      simp only [List.nil_append, List.mem_append] at ha
      rcases ha with (h | h) | h
      · exact isData_status t0 g2 a h
      · exact isData_commandWrites _ _ _ _ a h
      · exact isData_status t1 p2 a h
  · have hrun : _MMCF_writeSectors c b d sector (n + 1) buffer (Machine.start dev mem) =
        (false, (waitUntilReady c d
          (commandIssued c d c.CF_CMD_WRITE sector (n + 1) (Machine.start dev mem))).2) := by
      rw [writeSectors_issued c b d sector (n + 1) buffer _ hpre, hmod]
      simp only [writeSectorLoop, hcount, ge_iff_le, le_refl, if_true]
    obtain ⟨t0, g1, g2, _, _⟩ :=
      commandIssued_spec c d c.CF_CMD_WRITE sector (n + 1) (Machine.start dev mem)
    obtain ⟨t1, p1, p2, p3, _⟩ := poll_spec d c.CF_CARD_TIMEOUT
      (fun v => v &&& 0xff != c.CF_STS_READY)
      (commandIssued c d c.CF_CMD_WRITE sector (n + 1) (Machine.start dev mem))
    have hlen : t1.length = c.CF_CARD_TIMEOUT + 1 := by
      have := hcount (commandIssued c d c.CF_CMD_WRITE sector (n + 1) (Machine.start dev mem))
      simp only [waitUntilReady] at this
      omega
    refine ⟨hrun, hcount _, ?_, ?_⟩
    · rw [hrun]
      simp only [waitUntilReady]
      rw [p1, statusSamples_append, statusSamples_status t1 p2, hlen]
    · rw [hrun]
      simp only [waitUntilReady]
      rw [p1, g1, e]
      intro a ha
      simp only [List.nil_append, List.mem_append] at ha
      rcases ha with (h | h) | h
      · exact isData_status t0 g2 a h
      · exact isData_commandWrites _ _ _ _ a h
      · exact isData_status t1 p2 a h

/-- C7 on a card whose status always reads 0x50 (inserted, never ready), with
polling bound 7: the read returns false after 7 increments of the ready-wait
counter. -/
theorem C7_never_ready_times_out_witness :
    (preludeWaits (sampleConsts 7) (constCard 0x50 0 0) (Machine.start () zeroMem)).1
      < (sampleConsts 7).CF_CARD_TIMEOUT ∧
    (_MMCF_readSectors (sampleConsts 7) Build.allowUnaligned (constCard 0x50 0 0) 1 4 4096
      (Machine.start () zeroMem)).1 = false ∧
    (waitUntilReady (sampleConsts 7) (constCard 0x50 0 0)
      (commandIssued (sampleConsts 7) (constCard 0x50 0 0) (sampleConsts 7).CF_CMD_READ 1 4
        (Machine.start () zeroMem))).1 = 7 ∧
    (_MMCF_writeSectors (sampleConsts 7) Build.allowUnaligned (constCard 0x50 0 0) 1 4 4096
      (Machine.start () zeroMem)).1 = false := by
  have h := C7_never_ready_times_out (sampleConsts 7) Build.allowUnaligned (constCard 0x50 0 0)
    (fun _ => by show (0x50 % 65536) &&& 0xff ≠ 0x58; decide) 1 4 4096 () zeroMem
    (by decide) (by decide)
  exact ⟨by decide, congrArg Prod.fst h.1.1, h.1.2.1, congrArg Prod.fst h.2.1⟩

/-- C8 (the code departs from the claim): on a card whose status always shows
both the busy flag and the inserted flag, the wait-while-busy poll exhausts its
budget, and yet `_MMCF_clearStatus` returns true and `_MMCF_readSectors` and
`_MMCF_writeSectors` go on to write the command register. -/
theorem C8_busy_timeout_is_ignored (c : Consts) (b : Build) (d : Device σ)
    (hT : 0 < c.CF_CARD_TIMEOUT)
    (hbusy : ∀ s, ((d.read Reg.STS_CMD s).1 % 65536) &&& c.CF_STS_BUSY ≠ 0)
    (hins : ∀ s, ((d.read Reg.STS_CMD s).1 % 65536) &&& c.CF_STS_INSERTED ≠ 0)
    (sector numSectors buffer : Nat) (dev : σ) (mem : Nat → Nat) :
    (waitWhileBusy c d (Machine.start dev mem)).1 = c.CF_CARD_TIMEOUT ∧
    (_MMCF_clearStatus c d (Machine.start dev mem)).1 = true ∧
    writesTo Reg.STS_CMD
      (_MMCF_readSectors c b d sector numSectors buffer (Machine.start dev mem)).2.trace
        = [c.CF_CMD_READ % 65536] ∧
    writesTo Reg.STS_CMD
      (_MMCF_writeSectors c b d sector numSectors buffer (Machine.start dev mem)).2.trace
        = [c.CF_CMD_WRITE % 65536] := by
  have hb : (waitWhileBusy c d (Machine.start dev mem)).1 = c.CF_CARD_TIMEOUT := by
    apply poll_always
    intro s
    simp [hbusy s]
  have hp : (preludeWaits c d (Machine.start dev mem)).1 = 0 := by
    have : waitUntilInserted c d (waitWhileBusy c d (Machine.start dev mem)).2 =
        (0, (busRead d Reg.STS_CMD (waitWhileBusy c d (Machine.start dev mem)).2).2) := by
      apply poll_stop_first
      simp [hins _]
    simp only [preludeWaits, this]
  have hpre : (preludeWaits c d (Machine.start dev mem)).1 < c.CF_CARD_TIMEOUT := by omega
  have e : (Machine.start dev mem).trace = [] := rfl
  have hcw : ∀ op s n, writesTo Reg.STS_CMD (commandWrites c op s n) = [op % 65536] := by
    intro op s n
    simp [writesTo, commandWrites]
  refine ⟨hb, ?_, ?_, ?_⟩
  · have hn : ¬ c.CF_CARD_TIMEOUT ≤ (preludeWaits c d (Machine.start dev mem)).1 := by omega
    simp only [_MMCF_clearStatus, ge_iff_le, hn, if_false]
  · obtain ⟨_, _, t0, t, h1, h2, h3, _⟩ :=
      readSectors_run c b d sector numSectors buffer (Machine.start dev mem) hpre
    rw [h1, e]
    simp only [List.nil_append, writesTo_append, writesTo_status _ t0 h2, hcw,
      writesTo_none Reg.STS_CMD t (by decide) (fun a ha => (h3 a ha).imp_right Or.inl),
      List.append_nil]
  · obtain ⟨_, _, t0, t, h1, h2, h3, _⟩ :=
      writeSectors_run c b d sector numSectors buffer (Machine.start dev mem) hpre
    rw [h1, e]
    simp only [List.nil_append, writesTo_append, writesTo_status _ t0 h2, hcw,
      writesTo_none Reg.STS_CMD t (by decide) (fun a ha => (h3 a ha).imp_right Or.inr),
      List.append_nil]

/-- C8 on a card whose status always reads 0xD0 (busy and inserted), polling
bound 4. -/
theorem C8_busy_timeout_is_ignored_witness :
    (waitWhileBusy (sampleConsts 4) (constCard 0xD0 0 0) (Machine.start () zeroMem)).1 = 4 ∧
    (_MMCF_clearStatus (sampleConsts 4) (constCard 0xD0 0 0) (Machine.start () zeroMem)).1
      = true ∧
    writesTo Reg.STS_CMD
      (_MMCF_readSectors (sampleConsts 4) Build.direct (constCard 0xD0 0 0) 0 1 4096
        (Machine.start () zeroMem)).2.trace = [0x20] ∧
    writesTo Reg.STS_CMD
      (_MMCF_writeSectors (sampleConsts 4) Build.direct (constCard 0xD0 0 0) 0 1 4096
        (Machine.start () zeroMem)).2.trace = [0x30] :=
  C8_busy_timeout_is_ignored (sampleConsts 4) Build.direct (constCard 0xD0 0 0) (by decide)
    (fun _ => by show (0xD0 % 65536) &&& 0x80 ≠ 0; decide)
    (fun _ => by show (0xD0 % 65536) &&& 0x50 ≠ 0; decide) 0 1 4096 () zeroMem

end ClaimTimeouts

/-! ## Runs that differ only in the buffer -/

section Bus

variable {σ : Type}

theorem poll_bus (d : Device σ) (T : Nat) (cont : Nat → Bool) (m1 m2 : Machine σ)
    (hd : m1.dev = m2.dev) (ht : m1.trace = m2.trace) :
    (poll d T cont m1).1 = (poll d T cont m2).1 ∧
    (poll d T cont m1).2.dev = (poll d T cont m2).2.dev ∧
    (poll d T cont m1).2.trace = (poll d T cont m2).2.trace :=
  pollLoop_bus d T cont (T + 1) 0 m1 m2 hd ht

theorem preludeWaits_bus (c : Consts) (d : Device σ) (m1 m2 : Machine σ)
    (hd : m1.dev = m2.dev) (ht : m1.trace = m2.trace) :
    (preludeWaits c d m1).1 = (preludeWaits c d m2).1 ∧
    (preludeWaits c d m1).2.dev = (preludeWaits c d m2).2.dev ∧
    (preludeWaits c d m1).2.trace = (preludeWaits c d m2).2.trace := by
  obtain ⟨_, h2, h3⟩ := poll_bus d c.CF_CARD_TIMEOUT (fun v => v &&& c.CF_STS_BUSY != 0)
    m1 m2 hd ht
  exact poll_bus d c.CF_CARD_TIMEOUT (fun v => !(v &&& c.CF_STS_INSERTED != 0)) _ _ h2 h3

theorem commandIssued_bus (c : Consts) (d : Device σ) (opcode sector numSectors : Nat)
    (m1 m2 : Machine σ) (hd : m1.dev = m2.dev) (ht : m1.trace = m2.trace) :
    (commandIssued c d opcode sector numSectors m1).dev =
      (commandIssued c d opcode sector numSectors m2).dev ∧
    (commandIssued c d opcode sector numSectors m1).trace =
      (commandIssued c d opcode sector numSectors m2).trace := by
  obtain ⟨_, h2, h3⟩ := preludeWaits_bus c d m1 m2 hd ht
  simp only [commandIssued, issueCommand_dev, issueCommand_trace, h2, h3, and_self]

/-- The read loop on two machines with the same card and trace: same result,
same card, same trace, whatever the buffers. -/
theorem readSectorLoop_bus (c : Consts) (b : Build) (d : Device σ) :
    ∀ (n : Nat) (p1 p2 : Nat × Nat) (m1 m2 : Machine σ),
      m1.dev = m2.dev → m1.trace = m2.trace →
      (readSectorLoop c b d n p1 m1).1 = (readSectorLoop c b d n p2 m2).1 ∧
      (readSectorLoop c b d n p1 m1).2.dev = (readSectorLoop c b d n p2 m2).2.dev ∧
      (readSectorLoop c b d n p1 m1).2.trace = (readSectorLoop c b d n p2 m2).2.trace := by
  intro n
  induction n with
  | zero => intro p1 p2 m1 m2 hd ht; exact ⟨rfl, hd, ht⟩
  | succ n ih =>
    intro p1 p2 m1 m2 hd ht
    obtain ⟨h1, h2, h3⟩ := poll_bus d c.CF_CARD_TIMEOUT (fun v => v &&& 0xff != c.CF_STS_READY)
      m1 m2 hd ht
    have e1 : (waitUntilReady c d m1).1 = (waitUntilReady c d m2).1 := h1
    have e2 : (waitUntilReady c d m1).2.dev = (waitUntilReady c d m2).2.dev := h2
    have e3 : (waitUntilReady c d m1).2.trace = (waitUntilReady c d m2).2.trace := h3
    simp only [readSectorLoop, e1]
    by_cases hc : (waitUntilReady c d m2).1 ≥ c.CF_CARD_TIMEOUT
    · simp only [hc, if_true]
      exact ⟨trivial, e2, e3⟩
    · simp only [hc, if_false]
      apply ih
      · rw [(readData_eq b d p1 _).1, (readData_eq b d p2 _).1, e2]
      · rw [(readData_eq b d p1 _).1, (readData_eq b d p2 _).1, e2, e3]

theorem loadWords_congr (mem1 mem2 : Nat → Nat) : ∀ (n a1 a2 : Nat),
    (∀ j < 2 * n, load8 mem1 (a1 + j) = load8 mem2 (a2 + j)) →
      loadWords mem1 a1 n = loadWords mem2 a2 n := by
  intro n
  induction n with
  | zero => intro a1 a2 _; rfl
  | succ n ih =>
    intro a1 a2 h
    have h0 := h 0 (by omega)
    have h1 := h 1 (by omega)
    simp only [Nat.add_zero] at h0
    simp only [loadWords, load16, h0, h1]
    rw [ih (a1 + 2) (a2 + 2) (fun j hj => by
      have := h (j + 2) (by omega)
      rw [show a1 + 2 + j = a1 + (j + 2) by omega, show a2 + 2 + j = a2 + (j + 2) by omega]
      exact this)]

/-- The write loop on two machines with the same card and trace whose buffers
hold the same bytes: same result, same card, same trace. -/
theorem writeSectorLoop_bus (c : Consts) (b : Build) (d : Device σ) :
    ∀ (n : Nat) (p1 p2 : Nat × Nat) (m1 m2 : Machine σ),
      m1.dev = m2.dev → m1.trace = m2.trace →
      (∀ j < 512 * n, load8 m1.mem (cursor b p1 + j) = load8 m2.mem (cursor b p2 + j)) →
      (writeSectorLoop c b d n p1 m1).1 = (writeSectorLoop c b d n p2 m2).1 ∧
      (writeSectorLoop c b d n p1 m1).2.dev = (writeSectorLoop c b d n p2 m2).2.dev ∧
      (writeSectorLoop c b d n p1 m1).2.trace = (writeSectorLoop c b d n p2 m2).2.trace := by
  intro n
  induction n with
  | zero => intro p1 p2 m1 m2 hd ht _; exact ⟨rfl, hd, ht⟩
  | succ n ih =>
    intro p1 p2 m1 m2 hd ht hmem
    obtain ⟨h1, h2, h3⟩ := poll_bus d c.CF_CARD_TIMEOUT (fun v => v &&& 0xff != c.CF_STS_READY)
      m1 m2 hd ht
    have e1 : (waitUntilReady c d m1).1 = (waitUntilReady c d m2).1 := h1
    have e2 : (waitUntilReady c d m1).2.dev = (waitUntilReady c d m2).2.dev := h2
    have e3 : (waitUntilReady c d m1).2.trace = (waitUntilReady c d m2).2.trace := h3
    have hw : loadWords (waitUntilReady c d m1).2.mem (cursor b p1) 256 =
        loadWords (waitUntilReady c d m2).2.mem (cursor b p2) 256 := by
      rw [waitUntilReady_mem, waitUntilReady_mem]
      exact loadWords_congr _ _ 256 _ _ (fun j hj => hmem j (by omega))
    simp only [writeSectorLoop, e1]
    by_cases hc : (waitUntilReady c d m2).1 ≥ c.CF_CARD_TIMEOUT
    · simp only [hc, if_true]
      exact ⟨trivial, e2, e3⟩
    · simp only [hc, if_false]
      apply ih
      · rw [(writeData_eq b d p1 _).1, (writeData_eq b d p2 _).1, e2, hw]
      · rw [(writeData_eq b d p1 _).1, (writeData_eq b d p2 _).1, e3, hw]
      · intro j hj
        rw [(writeData_eq b d p1 _).1, (writeData_eq b d p1 _).2,
          (writeData_eq b d p2 _).1, (writeData_eq b d p2 _).2]
        dsimp only
        rw [waitUntilReady_mem, waitUntilReady_mem]
        have := hmem (512 + j) (by omega)
        rw [show cursor b p1 + 512 + j = cursor b p1 + (512 + j) by omega,
          show cursor b p2 + 512 + j = cursor b p2 + (512 + j) by omega]
        exact this

/-- After any read from a fresh machine, memory is the initial memory with the
words read from the data port stored, little-endian, from `buffer` on. -/
theorem readSectors_mem (c : Consts) (b : Build) (d : Device σ)
    (sector numSectors buffer : Nat) (dev : σ) (mem : Nat → Nat) :
    (_MMCF_readSectors c b d sector numSectors buffer (Machine.start dev mem)).2.mem =
      storeWords mem buffer (dataReads
        (_MMCF_readSectors c b d sector numSectors buffer (Machine.start dev mem)).2.trace) := by
  have e : (Machine.start dev mem).trace = [] := rfl
  by_cases hp : c.CF_CARD_TIMEOUT ≤ (preludeWaits c d (Machine.start dev mem)).1
  · obtain ⟨t0, g1, g2, _, _, g5⟩ := preludeWaits_spec c d (Machine.start dev mem)
    rw [readSectors_timeout c b d sector numSectors buffer _ hp, g1, e, List.nil_append,
      dataReads_status t0 g2, g5]
    rfl
  · obtain ⟨_, _, t0, t, h1, h2, _, _, _, h6, _⟩ :=
      readSectors_run c b d sector numSectors buffer (Machine.start dev mem) (by omega)
    rw [h6, h1, e]
    simp only [List.nil_append, dataReads_append, dataReads_status t0 h2,
      dataReads_commandWrites]
    rfl

end Bus

section ClaimAlignment

variable {σ : Type}

/-- C9: in the `_CF_ALLOW_UNALIGNED` build, with little-endian memory, for
`numSectors` in [1,256] and any card, `_MMCF_readSectors` into an odd-addressed
buffer and into an even-addressed buffer return the same result, perform the
same bus accesses, and store the same bytes at the same offsets (two per word
read), leaving the rest of either buffer as it was; and `_MMCF_writeSectors`
from an odd-addressed and from an even-addressed buffer holding the same bytes
send the same words to the data port and return the same result. -/
theorem C9_alignment_invariance (c : Consts) (d : Device σ)
    (sector numSectors odd even : Nat) (dev : σ) (mem1 mem2 : Nat → Nat)
    (hn : 1 ≤ numSectors ∧ numSectors ≤ 256)
    (hodd : odd % 2 = 1) (heven : even % 2 = 0) :
    ((∀ m : Machine σ, readData Build.allowUnaligned d (odd, odd) m =
        ((odd, (readBytes d 256 odd m).1), (readBytes d 256 odd m).2)) ∧
     (∀ m : Machine σ, readData Build.allowUnaligned d (even, even) m =
        (((readHalfwords d 256 even m).1, even), (readHalfwords d 256 even m).2)) ∧
     (∀ m : Machine σ, writeData Build.allowUnaligned d (odd, odd) m =
        ((odd, (writeBytes d 256 odd m).1), (writeBytes d 256 odd m).2)) ∧
     (∀ m : Machine σ, writeData Build.allowUnaligned d (even, even) m =
        (((writeHalfwords d 256 even m).1, even), (writeHalfwords d 256 even m).2))) ∧
    ((_MMCF_readSectors c Build.allowUnaligned d sector numSectors odd
        (Machine.start dev mem1)).1 =
      (_MMCF_readSectors c Build.allowUnaligned d sector numSectors even
        (Machine.start dev mem2)).1 ∧
     (_MMCF_readSectors c Build.allowUnaligned d sector numSectors odd
        (Machine.start dev mem1)).2.trace =
      (_MMCF_readSectors c Build.allowUnaligned d sector numSectors even
        (Machine.start dev mem2)).2.trace ∧
     (∀ j < 2 * (dataReads (_MMCF_readSectors c Build.allowUnaligned d sector numSectors odd
          (Machine.start dev mem1)).2.trace).length,
        load8 (_MMCF_readSectors c Build.allowUnaligned d sector numSectors odd
          (Machine.start dev mem1)).2.mem (odd + j) =
        load8 (_MMCF_readSectors c Build.allowUnaligned d sector numSectors even
          (Machine.start dev mem2)).2.mem (even + j)) ∧
     (∀ j, 2 * (dataReads (_MMCF_readSectors c Build.allowUnaligned d sector numSectors odd
          (Machine.start dev mem1)).2.trace).length ≤ j →
        load8 (_MMCF_readSectors c Build.allowUnaligned d sector numSectors odd
          (Machine.start dev mem1)).2.mem (odd + j) = load8 mem1 (odd + j) ∧
        load8 (_MMCF_readSectors c Build.allowUnaligned d sector numSectors even
          (Machine.start dev mem2)).2.mem (even + j) = load8 mem2 (even + j))) ∧
    ((∀ j < 512 * numSectors, load8 mem1 (odd + j) = load8 mem2 (even + j)) →
      (_MMCF_writeSectors c Build.allowUnaligned d sector numSectors odd
        (Machine.start dev mem1)).1 =
      (_MMCF_writeSectors c Build.allowUnaligned d sector numSectors even
        (Machine.start dev mem2)).1 ∧
      dataWrites (_MMCF_writeSectors c Build.allowUnaligned d sector numSectors odd
        (Machine.start dev mem1)).2.trace =
      dataWrites (_MMCF_writeSectors c Build.allowUnaligned d sector numSectors even
        (Machine.start dev mem2)).2.trace) := by
  have hmod : numSectors % 4294967296 = numSectors := Nat.mod_eq_of_lt (by omega)
  have hpb := preludeWaits_bus c d (Machine.start dev mem1) (Machine.start dev mem2) rfl rfl
  have h1 : ∀ y : Nat, y &&& 0x01 = y % 2 := fun y => Nat.and_pow_two_sub_one_eq_mod y 1
  refine ⟨⟨?_, ?_, ?_, ?_⟩, ?_, ?_⟩
  · intro m; simp [readData, h1, hodd]
  · intro m; simp [readData, h1, heven]
  · intro m; simp [writeData, h1, hodd]
  · intro m; simp [writeData, h1, heven]
  · have hbus : (_MMCF_readSectors c Build.allowUnaligned d sector numSectors odd
          (Machine.start dev mem1)).1 =
        (_MMCF_readSectors c Build.allowUnaligned d sector numSectors even
          (Machine.start dev mem2)).1 ∧
        (_MMCF_readSectors c Build.allowUnaligned d sector numSectors odd
          (Machine.start dev mem1)).2.trace =
        (_MMCF_readSectors c Build.allowUnaligned d sector numSectors even
          (Machine.start dev mem2)).2.trace := by
      by_cases hp : c.CF_CARD_TIMEOUT ≤ (preludeWaits c d (Machine.start dev mem1)).1
      · rw [readSectors_timeout c _ d sector numSectors odd _ hp,
          readSectors_timeout c _ d sector numSectors even _ (hpb.1 ▸ hp)]
        exact ⟨rfl, hpb.2.2⟩
      · rw [readSectors_issued c _ d sector numSectors odd _ (by omega),
          readSectors_issued c _ d sector numSectors even _ (by rw [← hpb.1]; omega)]
        obtain ⟨k1, k2⟩ := commandIssued_bus c d c.CF_CMD_READ sector numSectors
          (Machine.start dev mem1) (Machine.start dev mem2) rfl rfl
        obtain ⟨r1, _, r3⟩ := readSectorLoop_bus c Build.allowUnaligned d
          (numSectors % 4294967296) (odd, odd) (even, even) _ _ k1 k2
        exact ⟨r1, r3⟩
    refine ⟨hbus.1, hbus.2, ?_, ?_⟩
    · intro j hj
      rw [readSectors_mem, readSectors_mem, ← hbus.2]
      have hq : j / 2 < (dataReads (_MMCF_readSectors c Build.allowUnaligned d sector
          numSectors odd (Machine.start dev mem1)).2.trace).length := by omega
      obtain ⟨a1, a2⟩ := load8_storeWords_inside _ mem1 odd (j / 2) _
        (List.getElem?_eq_getElem hq)
      obtain ⟨b1, b2⟩ := load8_storeWords_inside _ mem2 even (j / 2) _
        (List.getElem?_eq_getElem hq)
      rcases Nat.mod_two_eq_zero_or_one j with h | h
      · rw [show odd + j = odd + 2 * (j / 2) by omega,
          show even + j = even + 2 * (j / 2) by omega, a1, b1]
      · rw [show odd + j = odd + 2 * (j / 2) + 1 by omega,
          show even + j = even + 2 * (j / 2) + 1 by omega, a2, b2]
    · intro j hj
      constructor
      · rw [readSectors_mem]
        exact load8_storeWords_outside _ mem1 odd (odd + j) (Or.inr (by omega))
      · rw [readSectors_mem]
        rw [← hbus.2]
        exact load8_storeWords_outside _ mem2 even (even + j) (Or.inr (by omega))
  · intro hsame
    by_cases hp : c.CF_CARD_TIMEOUT ≤ (preludeWaits c d (Machine.start dev mem1)).1
    · rw [writeSectors_timeout c _ d sector numSectors odd _ hp,
        writeSectors_timeout c _ d sector numSectors even _ (hpb.1 ▸ hp)]
      exact ⟨rfl, by rw [hpb.2.2]⟩
    · rw [writeSectors_issued c _ d sector numSectors odd _ (by omega),
        writeSectors_issued c _ d sector numSectors even _ (by rw [← hpb.1]; omega)]
      obtain ⟨k1, k2⟩ := commandIssued_bus c d c.CF_CMD_WRITE sector numSectors
        (Machine.start dev mem1) (Machine.start dev mem2) rfl rfl
      obtain ⟨_, _, _, _, g1⟩ :=
        commandIssued_spec c d c.CF_CMD_WRITE sector numSectors (Machine.start dev mem1)
      obtain ⟨_, _, _, _, g2⟩ :=
        commandIssued_spec c d c.CF_CMD_WRITE sector numSectors (Machine.start dev mem2)
      obtain ⟨r1, _, r3⟩ := writeSectorLoop_bus c Build.allowUnaligned d
        (numSectors % 4294967296) (odd, odd) (even, even) _ _ k1 k2
        (by
          intro j hj
          rw [g1, g2, cursor_same, cursor_same]
          exact hsame j (by omega))
      exact ⟨r1, by rw [r3]⟩

/-- C9 on a card that is always ready and delivers 0xBEEF, one sector, into
the odd address 4097 and the even address 8192. -/
theorem C9_alignment_invariance_witness :
    (_MMCF_readSectors (sampleConsts 1000) Build.allowUnaligned (constCard 0x58 0xBEEF 0) 3 1
        4097 (Machine.start () zeroMem)).1 =
      (_MMCF_readSectors (sampleConsts 1000) Build.allowUnaligned (constCard 0x58 0xBEEF 0) 3 1
        8192 (Machine.start () countingMem)).1 ∧
    (_MMCF_readSectors (sampleConsts 1000) Build.allowUnaligned (constCard 0x58 0xBEEF 0) 3 1
        4097 (Machine.start () zeroMem)).2.trace =
      (_MMCF_readSectors (sampleConsts 1000) Build.allowUnaligned (constCard 0x58 0xBEEF 0) 3 1
        8192 (Machine.start () countingMem)).2.trace ∧
    ∀ j < 2 * (dataReads (_MMCF_readSectors (sampleConsts 1000) Build.allowUnaligned
        (constCard 0x58 0xBEEF 0) 3 1 4097 (Machine.start () zeroMem)).2.trace).length,
      load8 (_MMCF_readSectors (sampleConsts 1000) Build.allowUnaligned
        (constCard 0x58 0xBEEF 0) 3 1 4097 (Machine.start () zeroMem)).2.mem (4097 + j) =
      load8 (_MMCF_readSectors (sampleConsts 1000) Build.allowUnaligned
        (constCard 0x58 0xBEEF 0) 3 1 8192 (Machine.start () countingMem)).2.mem (8192 + j) :=
  ⟨(C9_alignment_invariance (sampleConsts 1000) (constCard 0x58 0xBEEF 0) 3 1 4097 8192 ()
      zeroMem countingMem (by decide) (by decide) (by decide)).2.1.1,
    (C9_alignment_invariance (sampleConsts 1000) (constCard 0x58 0xBEEF 0) 3 1 4097 8192 ()
      zeroMem countingMem (by decide) (by decide) (by decide)).2.1.2.1,
    (C9_alignment_invariance (sampleConsts 1000) (constCard 0x58 0xBEEF 0) 3 1 4097 8192 ()
      zeroMem countingMem (by decide) (by decide) (by decide)).2.1.2.2.1⟩

end ClaimAlignment

section ClaimStartUp

variable {σ : Type}

theorem not_low_byte (t : Nat) (h : t < 65536) :
    ((4294967295 - t) &&& 0xFF) % 65536 = 255 - t % 256 := by
  rw [and_ff]; omega

/-- C10: `_MMCF_startUp` returns true exactly when the value read back from
LBA1 after writing `(NOT initial) AND 0xFF` equals that pattern and the value
read back after writing 0xAA55 differs from 0xAA55; so on a card whose LBA1
always reads the same 16-bit value it returns false. -/
theorem C10_startUp_probe (d : Device σ) (dev : σ) (mem : Nat → Nat) :
    ((_MMCF_startUp d (Machine.start dev mem)).1 = true ↔
      ((probeReadback d dev).1 = probePattern d dev ∧ wideReadback d dev ≠ 0xAA55)) ∧
    (∀ v, (∀ s, (d.read Reg.LBA1 s).1 % 65536 = v) →
      (_MMCF_startUp d (Machine.start dev mem)).1 = false) := by
  have hlt : (d.read Reg.LBA1 dev).1 % 65536 < 65536 := Nat.mod_lt _ (by decide)
  have hpat := not_low_byte _ hlt
  have hpat2 : (4294967295 - (d.read Reg.LBA1 dev).1 % 65536) &&& 0xFF =
      255 - (d.read Reg.LBA1 dev).1 % 65536 % 256 := by
    rw [and_ff]; omega
  have hp256 : probePattern d dev % 65536 = probePattern d dev := by
    simp only [probePattern]; omega
  have key : (_MMCF_startUp d (Machine.start dev mem)).1 = true ↔
      ((probeReadback d dev).1 = probePattern d dev ∧ wideReadback d dev ≠ 0xAA55) := by
    simp only [_MMCF_startUp, busRead, busWrite, Machine.start, hpat, hpat2,
      probeReadback, wideReadback, probePattern] at hp256 ⊢
    rw [hp256]
    by_cases h1 : (d.read Reg.LBA1 (d.write Reg.LBA1
        (255 - (d.read Reg.LBA1 dev).1 % 65536 % 256) (d.read Reg.LBA1 dev).2)).1 % 65536 =
        255 - (d.read Reg.LBA1 dev).1 % 65536 % 256
    · by_cases h2 : (d.read Reg.LBA1 (d.write Reg.LBA1 (43605 % 65536)
          (d.read Reg.LBA1 (d.write Reg.LBA1 (255 - (d.read Reg.LBA1 dev).1 % 65536 % 256)
            (d.read Reg.LBA1 dev).2)).2)).1 % 65536 = 43605
      · simp [h1, h2]
      · simp [h1, h2]
    · simp [h1]
  refine ⟨key, ?_⟩
  intro v hv
  cases hret : (_MMCF_startUp d (Machine.start dev mem)).1 with
  | false => rfl
  | true =>
    exfalso
    have h := (key.1 hret).1
    simp only [probeReadback, probePattern, hv] at h
    have hv2 : v < 65536 := by rw [← hv dev]; exact Nat.mod_lt _ (by decide)
    omega

/-- C10 on a card whose LBA1 always reads 0x55 (the probe fails) and on a card
with an 8-bit LBA1 register holding 0x12 (the probe succeeds). -/
theorem C10_startUp_probe_witness :
    (_MMCF_startUp (constCard 0x58 0 0x55) (Machine.start () zeroMem)).1 = false ∧
    (_MMCF_startUp byteCard (Machine.start 0x12 zeroMem)).1 = true :=
  ⟨(C10_startUp_probe (constCard 0x58 0 0x55) () zeroMem).2 0x55 (fun _ => rfl),
    (C10_startUp_probe byteCard 0x12 zeroMem).1.2 ⟨by decide, by decide⟩⟩

end ClaimStartUp

section ClaimProbes

variable {σ : Type}

/-- C11: `_MMCF_isInserted` performs exactly two bus accesses, a write of
`CF_STS_INSERTED` (as a 16-bit value) to the status/command register followed
by one read of the status register, and returns true exactly when the low byte
of the value read equals `CF_STS_INSERTED`, whatever its high byte. -/
theorem C11_isInserted_one_write_one_read (c : Consts) (d : Device σ) (dev : σ)
    (mem : Nat → Nat) :
    ∃ v, (_MMCF_isInserted c d (Machine.start dev mem)).2.trace =
        [Access.wr Reg.STS_CMD (c.CF_STS_INSERTED % 65536), Access.rd Reg.STS_CMD v] ∧
      v = (d.read Reg.STS_CMD (d.write Reg.STS_CMD (c.CF_STS_INSERTED % 65536) dev)).1 % 65536 ∧
      ((_MMCF_isInserted c d (Machine.start dev mem)).1 = true ↔
        v % 256 = c.CF_STS_INSERTED) := by
  refine ⟨(d.read Reg.STS_CMD (d.write Reg.STS_CMD (c.CF_STS_INSERTED % 65536) dev)).1 % 65536,
    rfl, rfl, ?_⟩
  simp only [_MMCF_isInserted, decide_eq_true_eq, and_ff]
  rfl

/-- C12: `_MMCF_clearStatus` performs nothing but reads of the status register
(it writes no register and leaves memory alone), and `_MMCF_shutdown` returns
what `_MMCF_clearStatus` returns and leaves the card, the memory and the bus
trace exactly as `_MMCF_clearStatus` does. -/
theorem C12_clearStatus_writes_nothing (c : Consts) (d : Device σ) (dev : σ)
    (mem : Nat → Nat) :
    (∀ a ∈ (_MMCF_clearStatus c d (Machine.start dev mem)).2.trace, a.isStatusRead = true) ∧
    (_MMCF_clearStatus c d (Machine.start dev mem)).2.mem = mem ∧
    (∀ m : Machine σ, _MMCF_shutdown c d m = _MMCF_clearStatus c d m) := by
  obtain ⟨t, h1, h2, _, _, h5⟩ := preludeWaits_spec c d (Machine.start dev mem)
  have e : (Machine.start dev mem).trace = [] := rfl
  rw [e, List.nil_append] at h1
  have hm : (_MMCF_clearStatus c d (Machine.start dev mem)).2 =
      (preludeWaits c d (Machine.start dev mem)).2 := by
    simp only [_MMCF_clearStatus]
    split <;> rfl
  refine ⟨?_, ?_, fun _ => rfl⟩
  · rw [hm, h1]; exact h2
  · rw [hm]; exact h5

end ClaimProbes

section ClaimPartial

variable {σ : Type}

/-- C13: in both non-DMA builds, for `numSectors` in [1,256] and `k < numSectors`,
when the opening waits and the ready-waits of sectors `0 .. k-1` succeed and the
ready-wait of sector `k` times out, `_MMCF_readSectors` returns false, exactly
`256 * k` words were read, the first `512 * k` bytes of the buffer hold them
(low byte first), and every byte outside these `512 * k` bytes, in particular
every buffer byte at offset `512 * k` or more, is as before the call. -/
theorem C13_partial_read_not_rolled_back (c : Consts) (b : Build) (d : Device σ)
    (sector numSectors buffer k : Nat) (dev : σ) (mem : Nat → Nat)
    (hn : 1 ≤ numSectors ∧ numSectors ≤ 256) (hk : k < numSectors)
    (hpre : (preludeWaits c d (Machine.start dev mem)).1 < c.CF_CARD_TIMEOUT)
    (hok : ∀ j < k, readReadyOK c b d ((buffer, buffer),
      commandIssued c d c.CF_CMD_READ sector numSectors (Machine.start dev mem)) j = true)
    (hfail : readReadyOK c b d ((buffer, buffer),
      commandIssued c d c.CF_CMD_READ sector numSectors (Machine.start dev mem)) k = false) :
    (_MMCF_readSectors c b d sector numSectors buffer (Machine.start dev mem)).1 = false ∧
    (dataReads
      (_MMCF_readSectors c b d sector numSectors buffer (Machine.start dev mem)).2.trace).length
        = 256 * k ∧
    (∀ q < 256 * k, ∃ w,
      (dataReads (_MMCF_readSectors c b d sector numSectors buffer
        (Machine.start dev mem)).2.trace)[q]? = some w ∧
      load8 (_MMCF_readSectors c b d sector numSectors buffer (Machine.start dev mem)).2.mem
        (buffer + 2 * q) = w % 256 ∧
      load8 (_MMCF_readSectors c b d sector numSectors buffer (Machine.start dev mem)).2.mem
        (buffer + 2 * q + 1) = w / 256 % 256) ∧
    (∀ j, 512 * k ≤ j →
      load8 (_MMCF_readSectors c b d sector numSectors buffer (Machine.start dev mem)).2.mem
        (buffer + j) = load8 mem (buffer + j)) ∧
    (∀ x, x < buffer →
      load8 (_MMCF_readSectors c b d sector numSectors buffer (Machine.start dev mem)).2.mem x
        = load8 mem x) := by
  have hmod : numSectors % 4294967296 = numSectors := Nat.mod_eq_of_lt (by omega)
  have e : (Machine.start dev mem).trace = [] := rfl
  have hrun : _MMCF_readSectors c b d sector numSectors buffer (Machine.start dev mem) =
      (false, (waitUntilReady c d (readIter c b d k ((buffer, buffer),
        commandIssued c d c.CF_CMD_READ sector numSectors (Machine.start dev mem))).2).2) := by
    rw [readSectors_issued c b d sector numSectors buffer _ hpre, hmod,
      readSectorLoop_fail c b d numSectors k _ _ hk hok hfail]
  have hlen : (dataReads (_MMCF_readSectors c b d sector numSectors buffer
      (Machine.start dev mem)).2.trace).length = 256 * k := by
    obtain ⟨t0, g1, g2, _, _⟩ :=
      commandIssued_spec c d c.CF_CMD_READ sector numSectors (Machine.start dev mem)
    obtain ⟨t, f1, _, f3, _⟩ := readIter_spec c b d k ((buffer, buffer),
      commandIssued c d c.CF_CMD_READ sector numSectors (Machine.start dev mem))
    rw [hrun, dataReads_waitUntilReady, f1, g1, e]
    simp only [List.nil_append, dataReads_append, dataReads_status t0 g2,
      dataReads_commandWrites, f3]
  refine ⟨by rw [hrun], hlen, ?_, ?_, ?_⟩
  · intro q hq
    have hq2 : q < (dataReads (_MMCF_readSectors c b d sector numSectors buffer
        (Machine.start dev mem)).2.trace).length := by omega
    rw [readSectors_mem]
    exact ⟨_, List.getElem?_eq_getElem hq2,
      load8_storeWords_inside _ mem buffer q _ (List.getElem?_eq_getElem hq2)⟩
  · intro j hj
    rw [readSectors_mem]
    exact load8_storeWords_outside _ mem buffer (buffer + j) (Or.inr (by omega))
  · intro x hx
    rw [readSectors_mem]
    exact load8_storeWords_outside _ mem buffer x (Or.inl hx)

set_option maxRecDepth 100000 in
/-- C13 on a card that stops being ready after one sector of 0x1234 words,
polling bound 3, `numSectors = 2`, memory of incrementing bytes: the read
returns false, byte 0 of the buffer is 0x34 and byte 512 still holds its old
value. -/
theorem C13_partial_read_not_rolled_back_witness :
    (_MMCF_readSectors (sampleConsts 3) Build.direct (fadingCard 256) 0 2 4096
      (Machine.start 0 countingMem)).1 = false ∧
    (dataReads (_MMCF_readSectors (sampleConsts 3) Build.direct (fadingCard 256) 0 2 4096
      (Machine.start 0 countingMem)).2.trace).length = 256 * 1 ∧
    (∀ j, 512 * 1 ≤ j →
      load8 (_MMCF_readSectors (sampleConsts 3) Build.direct (fadingCard 256) 0 2 4096
        (Machine.start 0 countingMem)).2.mem (4096 + j) = load8 countingMem (4096 + j)) := by
  have h := C13_partial_read_not_rolled_back (sampleConsts 3) Build.direct (fadingCard 256)
    0 2 4096 1 0 countingMem (by decide) (by decide) (by decide) (by decide) (by decide)
  exact ⟨h.1, h.2.1, h.2.2.2.1⟩

end ClaimPartial

/-! ## Polls, sample by sample -/

section PollSamples

variable {σ : Type}

/-- More fuel than `T + 1 - i` changes nothing: the recursion of a poll never
runs out of fuel. -/
theorem pollLoop_fuel (d : Device σ) (T : Nat) (cont : Nat → Bool) :
    ∀ (fuel extra i : Nat) (m : Machine σ), i ≤ T → T + 1 ≤ fuel + i →
      pollLoop d T cont (fuel + extra) i m = pollLoop d T cont fuel i m := by
  intro fuel
  induction fuel with
  | zero => intro extra i m h1 h2; omega
  | succ fuel ih =>
    intro extra i m h1 h2
    have e : fuel + 1 + extra = (fuel + extra) + 1 := by omega
    rw [e]
    by_cases hc : (cont (busRead d Reg.STS_CMD m).1 && decide (i < T)) = true
    · have hlt : i < T := by
        simp only [Bool.and_eq_true, decide_eq_true_eq] at hc
        exact hc.2
      simp only [pollLoop, hc, if_true]
      exact ih extra (i + 1) _ hlt (by omega)
    · simp only [pollLoop, hc, Bool.false_eq_true, if_false]

/-- A poll, sample by sample: the counter stops at the first sample on which
the loop condition fails, or at `T`, whichever comes first; the card has then
been sampled once more than the counter was incremented. -/
theorem pollLoop_samples (d : Device σ) (T : Nat) (cont : Nat → Bool) :
    ∀ (fuel i : Nat) (m : Machine σ), i ≤ T → T + 1 ≤ fuel + i →
      i ≤ (pollLoop d T cont fuel i m).1 ∧
      (pollLoop d T cont fuel i m).1 ≤ T ∧
      (∀ j, i + j < (pollLoop d T cont fuel i m).1 → cont (nthStatus d m.dev j) = true) ∧
      ((pollLoop d T cont fuel i m).1 < T →
        cont (nthStatus d m.dev ((pollLoop d T cont fuel i m).1 - i)) = false) ∧
      (pollLoop d T cont fuel i m).2.dev =
        statusAfter d ((pollLoop d T cont fuel i m).1 - i + 1) m.dev := by
  intro fuel
  induction fuel with
  | zero => intro i m h1 h2; omega
  | succ fuel ih =>
    intro i m h1 h2
    have hv : (busRead d Reg.STS_CMD m).1 = nthStatus d m.dev 0 := rfl
    by_cases hc : (cont (busRead d Reg.STS_CMD m).1 && decide (i < T)) = true
    · have hc2 := hc
      simp only [Bool.and_eq_true, decide_eq_true_eq] at hc2
      obtain ⟨g1, g2, g3, g4, g5⟩ := ih (i + 1) (busRead d Reg.STS_CMD m).2 hc2.2 (by omega)
      have hp : pollLoop d T cont (fuel + 1) i m =
          pollLoop d T cont fuel (i + 1) (busRead d Reg.STS_CMD m).2 := by
        simp only [pollLoop, hc, if_true]
      have hshift : ∀ j, nthStatus d (busRead d Reg.STS_CMD m).2.dev j =
          nthStatus d m.dev (j + 1) := fun j => rfl
      rw [hp]
      refine ⟨by omega, g2, ?_, ?_, ?_⟩
      · intro j hj
        cases j with
        | zero => rw [← hv]; exact hc2.1
        | succ j => rw [← hshift]; exact g3 j (by omega)
      · intro hlt
        have := g4 hlt
        rw [hshift] at this
        have e : (pollLoop d T cont fuel (i + 1) (busRead d Reg.STS_CMD m).2).1 - i =
            (pollLoop d T cont fuel (i + 1) (busRead d Reg.STS_CMD m).2).1 - (i + 1) + 1 := by
          omega
        rw [e]; exact this
      · rw [g5]
        have e : (pollLoop d T cont fuel (i + 1) (busRead d Reg.STS_CMD m).2).1 - i + 1 =
            ((pollLoop d T cont fuel (i + 1) (busRead d Reg.STS_CMD m).2).1 - (i + 1) + 1) + 1 := by
          omega
        rw [e]
        rfl
    · have hp : pollLoop d T cont (fuel + 1) i m = (i, (busRead d Reg.STS_CMD m).2) := by
        simp only [pollLoop, hc, Bool.false_eq_true, if_false]
      rw [hp]
      refine ⟨le_refl _, h1, ?_, ?_, ?_⟩
      · intro j hj
        exact absurd hj (by simp)
      · intro hlt
        simp only [Nat.sub_self]
        rw [← hv]
        cases hcv : cont (busRead d Reg.STS_CMD m).1 with
        | false => rfl
        | true =>
          exfalso
          apply hc
          simp [hcv]
          exact hlt
      · simp only [Nat.sub_self]
        rfl

/-- A poll passes its counter test (`i < T` on exit) exactly when the loop
condition fails on one of the first `T` samples. -/
theorem poll_passes_iff (d : Device σ) (T : Nat) (cont : Nat → Bool) (m : Machine σ) :
    (poll d T cont m).1 < T ↔ ∃ j < T, cont (nthStatus d m.dev j) = false := by
  obtain ⟨_, h2, h3, h4, _⟩ := pollLoop_samples d T cont (T + 1) 0 m (Nat.zero_le _) (by omega)
  constructor
  · intro h
    exact ⟨(poll d T cont m).1, h, by simpa using h4 h⟩
  · rintro ⟨j, hj, hcj⟩
    by_contra hn
    have hT : (pollLoop d T cont (T + 1) 0 m).1 = T := by
      have : ¬ (pollLoop d T cont (T + 1) 0 m).1 < T := hn
      omega
    have := h3 j (by omega)
    rw [hcj] at this
    exact absurd this (by simp)

end PollSamples

section ClaimTermination

variable {σ : Type}

theorem statusSamples_poll (d : Device σ) (T : Nat) (cont : Nat → Bool) (m : Machine σ) :
    statusSamples (poll d T cont m).2.trace = statusSamples m.trace + ((poll d T cont m).1 + 1) := by
  obtain ⟨t, h1, h2, h3, _, _⟩ := poll_spec d T cont m
  rw [h1, statusSamples_append, statusSamples_status t h2, h3]

theorem statusSamples_readSectors (c : Consts) (b : Build) (d : Device σ)
    (sector numSectors buffer : Nat) (dev : σ) (mem : Nat → Nat) :
    statusSamples (_MMCF_readSectors c b d sector numSectors buffer
      (Machine.start dev mem)).2.trace ≤ (2 + numSectors) * (c.CF_CARD_TIMEOUT + 1) := by
  have e : (Machine.start dev mem).trace = [] := rfl
  have hmul : numSectors % 4294967296 * (c.CF_CARD_TIMEOUT + 1) ≤
      numSectors * (c.CF_CARD_TIMEOUT + 1) :=
    Nat.mul_le_mul_right _ (Nat.mod_le _ _)
  have hsplit : (2 + numSectors) * (c.CF_CARD_TIMEOUT + 1) =
      2 * (c.CF_CARD_TIMEOUT + 1) + numSectors * (c.CF_CARD_TIMEOUT + 1) := Nat.add_mul _ _ _
  by_cases hp : c.CF_CARD_TIMEOUT ≤ (preludeWaits c d (Machine.start dev mem)).1
  · obtain ⟨t0, g1, g2, g3, _, _⟩ := preludeWaits_spec c d (Machine.start dev mem)
    rw [readSectors_timeout c b d sector numSectors buffer _ hp, g1, e, List.nil_append,
      statusSamples_status t0 g2]
    omega
  · obtain ⟨_, _, t0, t, h1, _, _, _, _, _, _, h8, h9⟩ :=
      readSectors_run c b d sector numSectors buffer (Machine.start dev mem) (by omega)
    rw [h1, e, List.nil_append, statusSamples_append, statusSamples_append,
      statusSamples_commandWrites]
    omega

theorem statusSamples_writeSectors (c : Consts) (b : Build) (d : Device σ)
    (sector numSectors buffer : Nat) (dev : σ) (mem : Nat → Nat) :
    statusSamples (_MMCF_writeSectors c b d sector numSectors buffer
      (Machine.start dev mem)).2.trace ≤ (2 + numSectors) * (c.CF_CARD_TIMEOUT + 1) := by
  have e : (Machine.start dev mem).trace = [] := rfl
  have hmul : numSectors % 4294967296 * (c.CF_CARD_TIMEOUT + 1) ≤
      numSectors * (c.CF_CARD_TIMEOUT + 1) :=
    Nat.mul_le_mul_right _ (Nat.mod_le _ _)
  have hsplit : (2 + numSectors) * (c.CF_CARD_TIMEOUT + 1) =
      2 * (c.CF_CARD_TIMEOUT + 1) + numSectors * (c.CF_CARD_TIMEOUT + 1) := Nat.add_mul _ _ _
  by_cases hp : c.CF_CARD_TIMEOUT ≤ (preludeWaits c d (Machine.start dev mem)).1
  · obtain ⟨t0, g1, g2, g3, _, _⟩ := preludeWaits_spec c d (Machine.start dev mem)
    rw [writeSectors_timeout c b d sector numSectors buffer _ hp, g1, e, List.nil_append,
      statusSamples_status t0 g2]
    omega
  · obtain ⟨_, _, t0, t, h1, _, _, _, _, _, _, h8, h9⟩ :=
      writeSectors_run c b d sector numSectors buffer (Machine.start dev mem) (by omega)
    rw [h1, e, List.nil_append, statusSamples_append, statusSamples_append,
      statusSamples_commandWrites]
    omega

theorem statusSamples_clearStatus (c : Consts) (d : Device σ) (dev : σ) (mem : Nat → Nat) :
    statusSamples (_MMCF_clearStatus c d (Machine.start dev mem)).2.trace
      ≤ 2 * (c.CF_CARD_TIMEOUT + 1) := by
  obtain ⟨t0, g1, g2, g3, _, _⟩ := preludeWaits_spec c d (Machine.start dev mem)
  have hm : (_MMCF_clearStatus c d (Machine.start dev mem)).2 =
      (preludeWaits c d (Machine.start dev mem)).2 := by
    simp only [_MMCF_clearStatus]
    split <;> rfl
  have e : (Machine.start dev mem).trace = [] := rfl
  rw [hm, g1, e, List.nil_append, statusSamples_status t0 g2]
  exact g3

theorem statusSamples_startUp (d : Device σ) (dev : σ) (mem : Nat → Nat) :
    statusSamples (_MMCF_startUp d (Machine.start dev mem)).2.trace = 0 := by
  simp only [_MMCF_startUp]
  split
  · rfl
  · split <;> rfl

/-- C14: in both non-DMA builds every operation is a total function of the
card, the memory and its arguments, for every card and every `numSectors`:
the recursion of a wait never runs out of its fuel `CF_CARD_TIMEOUT + 1`; a
wait, entered with counter 0, stops at the first sample on which its loop
condition fails or when the counter reaches `CF_CARD_TIMEOUT`, whichever comes
first, having sampled the status register once more than it incremented the
counter; `_MMCF_isInserted` samples the status register once, `_MMCF_startUp`
never, `_MMCF_clearStatus` and `_MMCF_shutdown` at most
`2 * (CF_CARD_TIMEOUT + 1)` times, and a read or a write at most
`(2 + numSectors) * (CF_CARD_TIMEOUT + 1)` times. -/
theorem C14_bounded_waits_terminate (c : Consts) (b : Build) (d : Device σ)
    (sector numSectors buffer : Nat) (dev : σ) (mem : Nat → Nat) :
    (∀ (cont : Nat → Bool) (m : Machine σ),
      (∀ extra, pollLoop d c.CF_CARD_TIMEOUT cont (c.CF_CARD_TIMEOUT + 1 + extra) 0 m =
        poll d c.CF_CARD_TIMEOUT cont m) ∧
      (poll d c.CF_CARD_TIMEOUT cont m).1 ≤ c.CF_CARD_TIMEOUT ∧
      (∀ j < (poll d c.CF_CARD_TIMEOUT cont m).1, cont (nthStatus d m.dev j) = true) ∧
      ((poll d c.CF_CARD_TIMEOUT cont m).1 < c.CF_CARD_TIMEOUT →
        cont (nthStatus d m.dev (poll d c.CF_CARD_TIMEOUT cont m).1) = false) ∧
      statusSamples (poll d c.CF_CARD_TIMEOUT cont m).2.trace =
        statusSamples m.trace + ((poll d c.CF_CARD_TIMEOUT cont m).1 + 1)) ∧
    (∀ m : Machine σ,
      waitWhileBusy c d m =
        poll d c.CF_CARD_TIMEOUT (fun v => v &&& c.CF_STS_BUSY != 0) m ∧
      waitUntilInserted c d m =
        poll d c.CF_CARD_TIMEOUT (fun v => !(v &&& c.CF_STS_INSERTED != 0)) m ∧
      waitUntilReady c d m =
        poll d c.CF_CARD_TIMEOUT (fun v => v &&& 0xff != c.CF_STS_READY) m) ∧
    statusSamples (_MMCF_isInserted c d (Machine.start dev mem)).2.trace = 1 ∧
    statusSamples (_MMCF_startUp d (Machine.start dev mem)).2.trace = 0 ∧
    statusSamples (_MMCF_clearStatus c d (Machine.start dev mem)).2.trace
      ≤ 2 * (c.CF_CARD_TIMEOUT + 1) ∧
    statusSamples (_MMCF_shutdown c d (Machine.start dev mem)).2.trace
      ≤ 2 * (c.CF_CARD_TIMEOUT + 1) ∧
    statusSamples (_MMCF_readSectors c b d sector numSectors buffer
      (Machine.start dev mem)).2.trace ≤ (2 + numSectors) * (c.CF_CARD_TIMEOUT + 1) ∧
    statusSamples (_MMCF_writeSectors c b d sector numSectors buffer
      (Machine.start dev mem)).2.trace ≤ (2 + numSectors) * (c.CF_CARD_TIMEOUT + 1) := by
  refine ⟨?_, fun m => ⟨rfl, rfl, rfl⟩, rfl, statusSamples_startUp d dev mem,
    statusSamples_clearStatus c d dev mem, statusSamples_clearStatus c d dev mem,
    statusSamples_readSectors c b d sector numSectors buffer dev mem,
    statusSamples_writeSectors c b d sector numSectors buffer dev mem⟩
  intro cont m
  obtain ⟨_, h2, h3, h4, _⟩ := pollLoop_samples d c.CF_CARD_TIMEOUT cont
    (c.CF_CARD_TIMEOUT + 1) 0 m (Nat.zero_le _) (by omega)
  refine ⟨fun extra => pollLoop_fuel d _ cont _ extra 0 m (Nat.zero_le _) (by omega), h2,
    fun j hj => h3 j (by simpa using hj), fun h => by simpa using h4 h,
    statusSamples_poll d _ cont m⟩

/-- C14 on a card that is inserted but never ready, polling bound 7,
`numSectors = 4`: the read stays within `(2 + 4) * (7 + 1)` status samples. -/
theorem C14_bounded_waits_terminate_witness :
    statusSamples (_MMCF_readSectors (sampleConsts 7) Build.direct (constCard 0x50 0 0) 0 4 4096
      (Machine.start () zeroMem)).2.trace ≤ (2 + 4) * (7 + 1) ∧
    statusSamples (_MMCF_readSectors (sampleConsts 7) Build.direct (constCard 0x50 0 0) 0 4 4096
      (Machine.start () zeroMem)).2.trace = 10 :=
  ⟨(C14_bounded_waits_terminate (sampleConsts 7) Build.direct (constCard 0x50 0 0) 0 4 4096
      () zeroMem).2.2.2.2.2.2.1, by decide⟩

end ClaimTermination

section ClaimZeroSectors

variable {σ : Type}

/-- C15, as the code has it: for `numSectors = 0` on a card that passes the
opening waits, `while (numSectors--)` tests the old value 0 and its body is not
run once: the read (the write) returns true right after the command write,
having written 0 to the sector-count register and touched neither the data
port nor the memory. -/
theorem C15_zero_sectors_zero_iterations (c : Consts) (b : Build) (d : Device σ)
    (sector buffer : Nat) (dev : σ) (mem : Nat → Nat)
    (hpre : (preludeWaits c d (Machine.start dev mem)).1 < c.CF_CARD_TIMEOUT) :
    (_MMCF_readSectors c b d sector 0 buffer (Machine.start dev mem) =
        (true, commandIssued c d c.CF_CMD_READ sector 0 (Machine.start dev mem)) ∧
      (∀ a ∈ (_MMCF_readSectors c b d sector 0 buffer (Machine.start dev mem)).2.trace,
        a.isData = false) ∧
      writesTo Reg.SEC (_MMCF_readSectors c b d sector 0 buffer
        (Machine.start dev mem)).2.trace = [0] ∧
      (_MMCF_readSectors c b d sector 0 buffer (Machine.start dev mem)).2.mem = mem) ∧
    (_MMCF_writeSectors c b d sector 0 buffer (Machine.start dev mem) =
        (true, commandIssued c d c.CF_CMD_WRITE sector 0 (Machine.start dev mem)) ∧
      (∀ a ∈ (_MMCF_writeSectors c b d sector 0 buffer (Machine.start dev mem)).2.trace,
        a.isData = false) ∧
      writesTo Reg.SEC (_MMCF_writeSectors c b d sector 0 buffer
        (Machine.start dev mem)).2.trace = [0] ∧
      (_MMCF_writeSectors c b d sector 0 buffer (Machine.start dev mem)).2.mem = mem) := by
  have e : (Machine.start dev mem).trace = [] := rfl
  have hr : _MMCF_readSectors c b d sector 0 buffer (Machine.start dev mem) =
      (true, commandIssued c d c.CF_CMD_READ sector 0 (Machine.start dev mem)) := by
    rw [readSectors_issued c b d sector 0 buffer _ hpre]; rfl
  have hw : _MMCF_writeSectors c b d sector 0 buffer (Machine.start dev mem) =
      (true, commandIssued c d c.CF_CMD_WRITE sector 0 (Machine.start dev mem)) := by
    rw [writeSectors_issued c b d sector 0 buffer _ hpre]; rfl
  obtain ⟨r0, r1, r2, _, r4⟩ :=
    commandIssued_spec c d c.CF_CMD_READ sector 0 (Machine.start dev mem)
  obtain ⟨w0, w1, w2, _, w4⟩ :=
    commandIssued_spec c d c.CF_CMD_WRITE sector 0 (Machine.start dev mem)
  rw [e, List.nil_append] at r1 w1
  refine ⟨⟨hr, ?_, ?_, ?_⟩, ⟨hw, ?_, ?_, ?_⟩⟩
  · rw [hr, r1]
    intro a ha
    rcases List.mem_append.1 ha with h | h
    · exact isData_status r0 r2 a h
    · exact isData_commandWrites _ _ _ _ a h
  · rw [hr, r1, writesTo_append, writesTo_status _ r0 r2, writesTo_SEC_commandWrites]
    rfl
  · rw [hr]; exact r4
  · rw [hw, w1]
    intro a ha
    rcases List.mem_append.1 ha with h | h
    · exact isData_status w0 w2 a h
    · exact isData_commandWrites _ _ _ _ a h
  · rw [hw, w1, writesTo_append, writesTo_status _ w0 w2, writesTo_SEC_commandWrites]
    rfl
  · rw [hw]; exact w4

/-- C15 on a card that is always ready: a read and a write of 0 sectors return
true. -/
theorem C15_zero_sectors_zero_iterations_witness :
    (preludeWaits (sampleConsts 1000) (constCard 0x58 0 0) (Machine.start () zeroMem)).1
      < (sampleConsts 1000).CF_CARD_TIMEOUT ∧
    (_MMCF_readSectors (sampleConsts 1000) Build.direct (constCard 0x58 0 0) 0 0 4096
      (Machine.start () zeroMem)).1 = true ∧
    (_MMCF_writeSectors (sampleConsts 1000) Build.direct (constCard 0x58 0 0) 0 0 4096
      (Machine.start () zeroMem)).1 = true :=
  ⟨by decide,
    congrArg Prod.fst (C15_zero_sectors_zero_iterations (sampleConsts 1000) Build.direct
      (constCard 0x58 0 0) 0 4096 () zeroMem (by decide)).1.1,
    congrArg Prod.fst (C15_zero_sectors_zero_iterations (sampleConsts 1000) Build.direct
      (constCard 0x58 0 0) 0 4096 () zeroMem (by decide)).2.1⟩

/-- C15 as stated fails: on a card that is always ready, a read of 0 sectors
does not keep iterating; it performs no data-port access at all, its last bus
access is the command write, and it returns true. -/
theorem C15_no_underflow_counterexample :
    ¬ (0 < ((_MMCF_readSectors (sampleConsts 1000) Build.direct (constCard 0x58 0xAAAA 0)
        0 0 4096 (Machine.start () zeroMem)).2.trace.filter Access.isData).length) ∧
    (_MMCF_readSectors (sampleConsts 1000) Build.direct (constCard 0x58 0xAAAA 0)
        0 0 4096 (Machine.start () zeroMem)).2.trace.getLast? =
      some (Access.wr Reg.STS_CMD 0x20) ∧
    (_MMCF_readSectors (sampleConsts 1000) Build.direct (constCard 0x58 0xAAAA 0)
        0 0 4096 (Machine.start () zeroMem)).1 = true ∧
    ¬ (0 < ((_MMCF_writeSectors (sampleConsts 1000) Build.direct (constCard 0x58 0xAAAA 0)
        0 0 4096 (Machine.start () zeroMem)).2.trace.filter Access.isData).length) ∧
    (_MMCF_writeSectors (sampleConsts 1000) Build.direct (constCard 0x58 0xAAAA 0)
        0 0 4096 (Machine.start () zeroMem)).1 = true := by
  decide

end ClaimZeroSectors

section ClaimAddressBits

variable {σ : Type}

/-- The six register writes depend on the sector address modulo `2 ^ 28` only. -/
theorem commandIssued_low28 (c : Consts) (d : Device σ) (opcode s1 s2 numSectors : Nat)
    (m : Machine σ) (h : s1 % 268435456 = s2 % 268435456) :
    commandIssued c d opcode s1 numSectors m = commandIssued c d opcode s2 numSectors m := by
  have e1 : ∀ x : Nat, x &&& 0xFF = x % 256 := and_ff
  have e2 : ∀ x : Nat, x &&& 0x0F = x % 16 := fun x => Nat.and_pow_two_sub_one_eq_mod x 4
  have a1 : s1 % 4294967296 % 256 = s2 % 4294967296 % 256 := by omega
  have a2 : s1 % 4294967296 / 2 ^ 8 % 256 = s2 % 4294967296 / 2 ^ 8 % 256 := by omega
  have a3 : s1 % 4294967296 / 2 ^ 16 % 256 = s2 % 4294967296 / 2 ^ 16 % 256 := by omega
  have a4 : s1 % 4294967296 / 2 ^ 24 % 16 = s2 % 4294967296 / 2 ^ 24 % 16 := by omega
  simp only [commandIssued, issueCommand, e1, e2, Nat.shiftRight_eq_div_pow, a1, a2, a3, a4]

theorem readSectors_low28 (c : Consts) (b : Build) (d : Device σ)
    (s1 s2 numSectors buffer : Nat) (m : Machine σ) (h : s1 % 268435456 = s2 % 268435456) :
    _MMCF_readSectors c b d s1 numSectors buffer m =
      _MMCF_readSectors c b d s2 numSectors buffer m := by
  by_cases hp : c.CF_CARD_TIMEOUT ≤ (preludeWaits c d m).1
  · rw [readSectors_timeout c b d s1 numSectors buffer m hp,
      readSectors_timeout c b d s2 numSectors buffer m hp]
  · rw [readSectors_issued c b d s1 numSectors buffer m (by omega),
      readSectors_issued c b d s2 numSectors buffer m (by omega),
      commandIssued_low28 c d _ s1 s2 numSectors m h]

theorem writeSectors_low28 (c : Consts) (b : Build) (d : Device σ)
    (s1 s2 numSectors buffer : Nat) (m : Machine σ) (h : s1 % 268435456 = s2 % 268435456) :
    _MMCF_writeSectors c b d s1 numSectors buffer m =
      _MMCF_writeSectors c b d s2 numSectors buffer m := by
  by_cases hp : c.CF_CARD_TIMEOUT ≤ (preludeWaits c d m).1
  · rw [writeSectors_timeout c b d s1 numSectors buffer m hp,
      writeSectors_timeout c b d s2 numSectors buffer m hp]
  · rw [writeSectors_issued c b d s1 numSectors buffer m (by omega),
      writeSectors_issued c b d s2 numSectors buffer m (by omega),
      commandIssued_low28 c d _ s1 s2 numSectors m h]

theorem writesTo_LBA4_sixWrites (sec l1 l2 l3 l4 cmd : Nat) :
    writesTo Reg.LBA4 (sixWrites sec l1 l2 l3 l4 cmd) = [l4] := by
  simp [writesTo, sixWrites]

theorem readSectors_LBA4 (c : Consts) (b : Build) (d : Device σ)
    (sector numSectors buffer : Nat) (dev : σ) (mem : Nat → Nat) :
    ∀ v ∈ writesTo Reg.LBA4
        (_MMCF_readSectors c b d sector numSectors buffer (Machine.start dev mem)).2.trace,
      v = ((sector / 16777216 % 16) ||| c.CF_CMD_LBA) % 65536 := by
  have e : (Machine.start dev mem).trace = [] := rfl
  by_cases hp : c.CF_CARD_TIMEOUT ≤ (preludeWaits c d (Machine.start dev mem)).1
  · obtain ⟨t0, g1, g2, _⟩ := preludeWaits_spec c d (Machine.start dev mem)
    rw [readSectors_timeout c b d sector numSectors buffer _ hp, g1, e, List.nil_append,
      writesTo_status _ t0 g2]
    intro v hv
    exact absurd hv (List.not_mem_nil v)
  · obtain ⟨_, _, t0, t, h1, h2, h3, _⟩ :=
      readSectors_run c b d sector numSectors buffer (Machine.start dev mem) (by omega)
    rw [h1, e, List.nil_append, commandWrites_eq, writesTo_append, writesTo_append,
      writesTo_status _ t0 h2, writesTo_LBA4_sixWrites,
      writesTo_none Reg.LBA4 t (by decide) (fun a ha => (h3 a ha).imp_right Or.inl)]
    intro v hv
    simpa using hv

theorem writeSectors_LBA4 (c : Consts) (b : Build) (d : Device σ)
    (sector numSectors buffer : Nat) (dev : σ) (mem : Nat → Nat) :
    ∀ v ∈ writesTo Reg.LBA4
        (_MMCF_writeSectors c b d sector numSectors buffer (Machine.start dev mem)).2.trace,
      v = ((sector / 16777216 % 16) ||| c.CF_CMD_LBA) % 65536 := by
  have e : (Machine.start dev mem).trace = [] := rfl
  by_cases hp : c.CF_CARD_TIMEOUT ≤ (preludeWaits c d (Machine.start dev mem)).1
  · obtain ⟨t0, g1, g2, _⟩ := preludeWaits_spec c d (Machine.start dev mem)
    rw [writeSectors_timeout c b d sector numSectors buffer _ hp, g1, e, List.nil_append,
      writesTo_status _ t0 g2]
    intro v hv
    exact absurd hv (List.not_mem_nil v)
  · obtain ⟨_, _, t0, t, h1, h2, h3, _⟩ :=
      writeSectors_run c b d sector numSectors buffer (Machine.start dev mem) (by omega)
    rw [h1, e, List.nil_append, commandWrites_eq, writesTo_append, writesTo_append,
      writesTo_status _ t0 h2, writesTo_LBA4_sixWrites,
      writesTo_none Reg.LBA4 t (by decide) (fun a ha => (h3 a ha).imp_right Or.inr)]
    intro v hv
    simpa using hv

/-- C17: two sector addresses that agree modulo `2 ^ 28` give, for every
`numSectors`, buffer, memory and card, the very same run of `_MMCF_readSectors`
and of `_MMCF_writeSectors` (same result, same bus accesses, same card, same
memory); and any value written to LBA4 is
`((sector >> 24) AND 0x0F) OR CF_CMD_LBA`, as a 16-bit value. -/
theorem C17_high_address_bits_discarded (c : Consts) (b : Build) (d : Device σ)
    (s1 s2 numSectors buffer : Nat) (dev : σ) (mem : Nat → Nat)
    (h : s1 % 268435456 = s2 % 268435456) :
    _MMCF_readSectors c b d s1 numSectors buffer (Machine.start dev mem) =
      _MMCF_readSectors c b d s2 numSectors buffer (Machine.start dev mem) ∧
    _MMCF_writeSectors c b d s1 numSectors buffer (Machine.start dev mem) =
      _MMCF_writeSectors c b d s2 numSectors buffer (Machine.start dev mem) ∧
    (∀ v ∈ writesTo Reg.LBA4
        (_MMCF_readSectors c b d s1 numSectors buffer (Machine.start dev mem)).2.trace,
      v = ((s1 / 16777216 % 16) ||| c.CF_CMD_LBA) % 65536) ∧
    (∀ v ∈ writesTo Reg.LBA4
        (_MMCF_writeSectors c b d s1 numSectors buffer (Machine.start dev mem)).2.trace,
      v = ((s1 / 16777216 % 16) ||| c.CF_CMD_LBA) % 65536) :=
  ⟨readSectors_low28 c b d s1 s2 numSectors buffer _ h,
    writeSectors_low28 c b d s1 s2 numSectors buffer _ h,
    readSectors_LBA4 c b d s1 numSectors buffer dev mem,
    writeSectors_LBA4 c b d s1 numSectors buffer dev mem⟩

set_option maxRecDepth 100000 in
/-- C17 at the addresses 0x12345678 and 0xF2345678 on a card that is always
ready: the runs coincide and LBA4 receives 0xE2. -/
theorem C17_high_address_bits_discarded_witness :
    0x12345678 % 268435456 = 0xF2345678 % 268435456 ∧
    _MMCF_readSectors (sampleConsts 1000) Build.direct (constCard 0x58 0 0) 0x12345678 1 4096
        (Machine.start () zeroMem) =
      _MMCF_readSectors (sampleConsts 1000) Build.direct (constCard 0x58 0 0) 0xF2345678 1 4096
        (Machine.start () zeroMem) ∧
    writesTo Reg.LBA4 (_MMCF_readSectors (sampleConsts 1000) Build.direct (constCard 0x58 0 0)
        0xF2345678 1 4096 (Machine.start () zeroMem)).2.trace = [0xE2] :=
  ⟨by decide,
    (C17_high_address_bits_discarded (sampleConsts 1000) Build.direct (constCard 0x58 0 0)
      0x12345678 0xF2345678 1 4096 () zeroMem (by decide)).1,
    by decide⟩

end ClaimAddressBits


section ClaimBoundary

variable {σ : Type}

theorem waitWhileBusy_passes_iff (c : Consts) (d : Device σ) (m : Machine σ) :
    (waitWhileBusy c d m).1 < c.CF_CARD_TIMEOUT ↔
      ∃ j < c.CF_CARD_TIMEOUT, nthStatus d m.dev j &&& c.CF_STS_BUSY = 0 := by
  simp only [waitWhileBusy, poll_passes_iff]
  simp

theorem waitUntilInserted_passes_iff (c : Consts) (d : Device σ) (m : Machine σ) :
    (waitUntilInserted c d m).1 < c.CF_CARD_TIMEOUT ↔
      ∃ j < c.CF_CARD_TIMEOUT, nthStatus d m.dev j &&& c.CF_STS_INSERTED ≠ 0 := by
  simp only [waitUntilInserted, poll_passes_iff]
  simp

theorem waitUntilReady_passes_iff (c : Consts) (d : Device σ) (m : Machine σ) :
    (waitUntilReady c d m).1 < c.CF_CARD_TIMEOUT ↔
      ∃ j < c.CF_CARD_TIMEOUT, nthStatus d m.dev j &&& 0xff = c.CF_STS_READY := by
  simp only [waitUntilReady, poll_passes_iff]
  simp

theorem clearStatus_true_iff (c : Consts) (d : Device σ) (m : Machine σ) :
    (_MMCF_clearStatus c d m).1 = true ↔ (preludeWaits c d m).1 < c.CF_CARD_TIMEOUT := by
  simp only [_MMCF_clearStatus]
  split
  · constructor
    · intro h; exact absurd h (by simp)
    · intro h; omega
  · constructor
    · intro _; omega
    · intro _; rfl

/-- C16 (the code departs from the claim on the busy wait).  Each of the
three waits samples the status register at most `CF_CARD_TIMEOUT + 1` times,
and leaves its loop with the counter below `CF_CARD_TIMEOUT` exactly when the
awaited condition holds on one of the first `CF_CARD_TIMEOUT` samples.  The
wait for the inserted flag and the per-sector wait for ready are treated
accordingly: `_MMCF_clearStatus` returns true exactly when the inserted flag
shows within the first `CF_CARD_TIMEOUT` samples of its second wait, a read or
write returns false when it does not, and a read or write of at least one
sector returns false when the ready sentinel does not show within the first
`CF_CARD_TIMEOUT` samples of the first sector's wait.  The counter of the wait
while busy is never tested: when the busy flag is set on each of the first
`CF_CARD_TIMEOUT` samples and the inserted flag shows afterwards, that wait
ends with its counter at `CF_CARD_TIMEOUT`, and yet `_MMCF_clearStatus` returns
true and a read or write goes on to write the command register. -/
theorem C16_wait_boundary (c : Consts) (b : Build) (d : Device σ)
    (sector numSectors buffer : Nat) (dev : σ) (mem : Nat → Nat) :
    (∀ (cont : Nat → Bool) (m : Machine σ),
      statusSamples (poll d c.CF_CARD_TIMEOUT cont m).2.trace ≤
        statusSamples m.trace + (c.CF_CARD_TIMEOUT + 1)) ∧
    (∀ m : Machine σ,
      ((waitWhileBusy c d m).1 < c.CF_CARD_TIMEOUT ↔
        ∃ j < c.CF_CARD_TIMEOUT, nthStatus d m.dev j &&& c.CF_STS_BUSY = 0) ∧
      ((waitUntilInserted c d m).1 < c.CF_CARD_TIMEOUT ↔
        ∃ j < c.CF_CARD_TIMEOUT, nthStatus d m.dev j &&& c.CF_STS_INSERTED ≠ 0) ∧
      ((waitUntilReady c d m).1 < c.CF_CARD_TIMEOUT ↔
        ∃ j < c.CF_CARD_TIMEOUT, nthStatus d m.dev j &&& 0xff = c.CF_STS_READY)) ∧
    ((_MMCF_clearStatus c d (Machine.start dev mem)).1 = true ↔
      ∃ j < c.CF_CARD_TIMEOUT,
        nthStatus d (waitWhileBusy c d (Machine.start dev mem)).2.dev j
          &&& c.CF_STS_INSERTED ≠ 0) ∧
    ((¬ ∃ j < c.CF_CARD_TIMEOUT,
        nthStatus d (waitWhileBusy c d (Machine.start dev mem)).2.dev j
          &&& c.CF_STS_INSERTED ≠ 0) →
      (_MMCF_readSectors c b d sector numSectors buffer (Machine.start dev mem)).1 = false ∧
      (_MMCF_writeSectors c b d sector numSectors buffer (Machine.start dev mem)).1 = false) ∧
    ((∃ j < c.CF_CARD_TIMEOUT,
        nthStatus d (waitWhileBusy c d (Machine.start dev mem)).2.dev j
          &&& c.CF_STS_INSERTED ≠ 0) →
      1 ≤ numSectors % 4294967296 →
      ((¬ ∃ j < c.CF_CARD_TIMEOUT,
          nthStatus d (commandIssued c d c.CF_CMD_READ sector numSectors
            (Machine.start dev mem)).dev j &&& 0xff = c.CF_STS_READY) →
        (_MMCF_readSectors c b d sector numSectors buffer (Machine.start dev mem)).1 = false) ∧
      ((¬ ∃ j < c.CF_CARD_TIMEOUT,
          nthStatus d (commandIssued c d c.CF_CMD_WRITE sector numSectors
            (Machine.start dev mem)).dev j &&& 0xff = c.CF_STS_READY) →
        (_MMCF_writeSectors c b d sector numSectors buffer (Machine.start dev mem)).1
          = false)) ∧
    ((¬ ∃ j < c.CF_CARD_TIMEOUT, nthStatus d dev j &&& c.CF_STS_BUSY = 0) →
      (∃ j < c.CF_CARD_TIMEOUT,
        nthStatus d (waitWhileBusy c d (Machine.start dev mem)).2.dev j
          &&& c.CF_STS_INSERTED ≠ 0) →
      (waitWhileBusy c d (Machine.start dev mem)).1 = c.CF_CARD_TIMEOUT ∧
      (_MMCF_clearStatus c d (Machine.start dev mem)).1 = true ∧
      writesTo Reg.STS_CMD (_MMCF_readSectors c b d sector numSectors buffer
        (Machine.start dev mem)).2.trace = [c.CF_CMD_READ % 65536] ∧
      writesTo Reg.STS_CMD (_MMCF_writeSectors c b d sector numSectors buffer
        (Machine.start dev mem)).2.trace = [c.CF_CMD_WRITE % 65536]) := by
  have hins := waitUntilInserted_passes_iff c d (waitWhileBusy c d (Machine.start dev mem)).2
  refine ⟨?_, fun m => ⟨waitWhileBusy_passes_iff c d m, waitUntilInserted_passes_iff c d m,
    waitUntilReady_passes_iff c d m⟩, ?_, ?_, ?_, ?_⟩
  · intro cont m
    obtain ⟨_, _, _, _, h4, _⟩ := poll_spec d c.CF_CARD_TIMEOUT cont m
    rw [statusSamples_poll]
    omega
  · rw [clearStatus_true_iff]
    exact hins
  · intro hno
    have hp : c.CF_CARD_TIMEOUT ≤ (preludeWaits c d (Machine.start dev mem)).1 := by
      have : ¬ (preludeWaits c d (Machine.start dev mem)).1 < c.CF_CARD_TIMEOUT :=
        fun h => hno (hins.1 h)
      omega
    rw [readSectors_timeout c b d sector numSectors buffer _ hp,
      writeSectors_timeout c b d sector numSectors buffer _ hp]
    exact ⟨rfl, rfl⟩
  · intro hyes hn
    have hpre : (preludeWaits c d (Machine.start dev mem)).1 < c.CF_CARD_TIMEOUT := hins.2 hyes
    constructor
    · intro hno
      have hf : readReadyOK c b d ((buffer, buffer),
          commandIssued c d c.CF_CMD_READ sector numSectors (Machine.start dev mem)) 0
            = false := by
        simp only [readReadyOK, readIter, decide_eq_false_iff_not]
        exact fun h => hno ((waitUntilReady_passes_iff c d _).1 h)
      rw [readSectors_issued c b d sector numSectors buffer _ hpre,
        readSectorLoop_fail c b d _ 0 _ _ hn (fun j hj => absurd hj (by simp)) hf]
    · intro hno
      have hf : writeReadyOK c b d ((buffer, buffer),
          commandIssued c d c.CF_CMD_WRITE sector numSectors (Machine.start dev mem)) 0
            = false := by
        simp only [writeReadyOK, writeIter, decide_eq_false_iff_not]
        exact fun h => hno ((waitUntilReady_passes_iff c d _).1 h)
      rw [writeSectors_issued c b d sector numSectors buffer _ hpre,
        writeSectorLoop_fail c b d _ 0 _ _ hn (fun j hj => absurd hj (by simp)) hf]
  · intro hbusy hyes
    have hpre : (preludeWaits c d (Machine.start dev mem)).1 < c.CF_CARD_TIMEOUT := hins.2 hyes
    have e : (Machine.start dev mem).trace = [] := rfl
    have hcw : ∀ op s n, writesTo Reg.STS_CMD (commandWrites c op s n) = [op % 65536] := by
      intro op s n
      simp [writesTo, commandWrites]
    refine ⟨?_, (clearStatus_true_iff c d _).2 hpre, ?_, ?_⟩
    · obtain ⟨_, _, _, _, h4, _⟩ := poll_spec d c.CF_CARD_TIMEOUT
        (fun v => v &&& c.CF_STS_BUSY != 0) (Machine.start dev mem)
      have hn : ¬ (waitWhileBusy c d (Machine.start dev mem)).1 < c.CF_CARD_TIMEOUT :=
        fun h => hbusy ((waitWhileBusy_passes_iff c d _).1 h)
      have h4b : (waitWhileBusy c d (Machine.start dev mem)).1 ≤ c.CF_CARD_TIMEOUT := h4
      omega
    · obtain ⟨_, _, t0, t, h1, h2, h3, _⟩ :=
        readSectors_run c b d sector numSectors buffer (Machine.start dev mem) hpre
      rw [h1, e]
      simp only [List.nil_append, writesTo_append, writesTo_status _ t0 h2, hcw,
        writesTo_none Reg.STS_CMD t (by decide) (fun a ha => (h3 a ha).imp_right Or.inl),
        List.append_nil]
    · obtain ⟨_, _, t0, t, h1, h2, h3, _⟩ :=
        writeSectors_run c b d sector numSectors buffer (Machine.start dev mem) hpre
      rw [h1, e]
      simp only [List.nil_append, writesTo_append, writesTo_status _ t0 h2, hcw,
        writesTo_none Reg.STS_CMD t (by decide) (fun a ha => (h3 a ha).imp_right Or.inr),
        List.append_nil]

set_option maxRecDepth 100000 in
/-- C16 with polling bound 5.  Inserted flag first shown on sample 6 of its
wait: the read returns false; on sample 5: it goes through.  Ready first shown
on sample 6 of the sector's wait: false; on sample 5: true.  Busy flag first
clear on sample 6 of the wait while busy, whose counter is then 5: the read
returns true all the same. -/
theorem C16_wait_boundary_witness :
    ((_MMCF_readSectors (sampleConsts 5) Build.direct (lateCard 6 0x00 0x58) 0 1 4096
        (Machine.start 0 zeroMem)).1 = false ∧
      (_MMCF_readSectors (sampleConsts 5) Build.direct (lateCard 5 0x00 0x58) 0 1 4096
        (Machine.start 0 zeroMem)).1 = true) ∧
    ((_MMCF_readSectors (sampleConsts 5) Build.direct (lateCard 7 0x50 0x58) 0 1 4096
        (Machine.start 0 zeroMem)).1 = false ∧
      (_MMCF_readSectors (sampleConsts 5) Build.direct (lateCard 6 0x50 0x58) 0 1 4096
        (Machine.start 0 zeroMem)).1 = true) ∧
    ((waitWhileBusy (sampleConsts 5) (lateCard 5 0xD0 0x58) (Machine.start 0 zeroMem)).1 = 5 ∧
      (¬ ∃ j < 5, nthStatus (lateCard 5 0xD0 0x58) 0 j &&& (sampleConsts 5).CF_STS_BUSY = 0) ∧
      nthStatus (lateCard 5 0xD0 0x58) 0 5 &&& (sampleConsts 5).CF_STS_BUSY = 0 ∧
      (_MMCF_readSectors (sampleConsts 5) Build.direct (lateCard 5 0xD0 0x58) 0 1 4096
        (Machine.start 0 zeroMem)).1 = true ∧
      (_MMCF_clearStatus (sampleConsts 5) (lateCard 5 0xD0 0x58)
        (Machine.start 0 zeroMem)).1 = true) := by
  have h1 := (C16_wait_boundary (sampleConsts 5) Build.direct (lateCard 6 0x00 0x58) 0 1 4096
    0 zeroMem).2.2.2.1 (by decide)
  have h3 := ((C16_wait_boundary (sampleConsts 5) Build.direct (lateCard 7 0x50 0x58) 0 1 4096
    0 zeroMem).2.2.2.2.1 (by decide) (by decide)).1 (by decide)
  have h5 := (C16_wait_boundary (sampleConsts 5) Build.direct (lateCard 5 0xD0 0x58) 0 1 4096
    0 zeroMem).2.2.2.2.2 (by decide) (by decide)
  exact ⟨⟨h1.1, by decide⟩, ⟨h3, by decide⟩, h5.1, by decide, by decide, by decide, h5.2.1⟩

end ClaimBoundary

section ClaimInsertionTests

variable {σ : Type}

/-- On a card whose status always reads a value with a bit of
`CF_STS_INSERTED` set, the opening waits succeed, `_MMCF_clearStatus` returns
true and a read writes its command. -/
theorem shared_bit_passes (c : Consts) (hT : 0 < c.CF_CARD_TIMEOUT) (b : Build)
    (d : Device σ) (v sector numSectors buffer : Nat) (dev : σ) (mem : Nat → Nat)
    (hconst : ∀ s, (d.read Reg.STS_CMD s).1 % 65536 = v)
    (hshare : v &&& c.CF_STS_INSERTED ≠ 0) :
    (preludeWaits c d (Machine.start dev mem)).1 < c.CF_CARD_TIMEOUT ∧
    (_MMCF_clearStatus c d (Machine.start dev mem)).1 = true ∧
    writesTo Reg.STS_CMD (_MMCF_readSectors c b d sector numSectors buffer
      (Machine.start dev mem)).2.trace = [c.CF_CMD_READ % 65536] := by
  have hp : (preludeWaits c d (Machine.start dev mem)).1 = 0 := by
    have : waitUntilInserted c d (waitWhileBusy c d (Machine.start dev mem)).2 =
        (0, (busRead d Reg.STS_CMD (waitWhileBusy c d (Machine.start dev mem)).2).2) := by
      apply poll_stop_first
      simp [hconst, hshare]
    simp only [preludeWaits, this]
  have hpre : (preludeWaits c d (Machine.start dev mem)).1 < c.CF_CARD_TIMEOUT := by omega
  refine ⟨hpre, (clearStatus_true_iff c d _).2 hpre, ?_⟩
  have e : (Machine.start dev mem).trace = [] := rfl
  obtain ⟨_, _, t0, t, h1, h2, h3, _⟩ :=
    readSectors_run c b d sector numSectors buffer (Machine.start dev mem) hpre
  have hcw : ∀ op s n, writesTo Reg.STS_CMD (commandWrites c op s n) = [op % 65536] := by
    intro op s n
    simp [writesTo, commandWrites]
  rw [h1, e]
  simp only [List.nil_append, writesTo_append, writesTo_status _ t0 h2, hcw,
    writesTo_none Reg.STS_CMD t (by decide) (fun a ha => (h3 a ha).imp_right Or.inl),
    List.append_nil]

/-- On a card whose status always reads a value whose low byte is not
`CF_STS_INSERTED`, `_MMCF_isInserted` returns false. -/
theorem isInserted_rejects (c : Consts) (d : Device σ) (v : Nat) (dev : σ) (mem : Nat → Nat)
    (hconst : ∀ s, (d.read Reg.STS_CMD s).1 % 65536 = v)
    (hdiff : v &&& 0xff ≠ c.CF_STS_INSERTED) :
    (_MMCF_isInserted c d (Machine.start dev mem)).1 = false := by
  simp only [_MMCF_isInserted, decide_eq_false_iff_not, busRead_val, hconst]
  exact hdiff

/-- C18: with `CF_STS_INSERTED` a non-zero byte (and a positive polling bound),
the insertion test of the opening waits is strictly weaker than that of
`_MMCF_isInserted`.  Weaker: whenever `_MMCF_isInserted` returns true, the
status value it sampled, met by the wait for the inserted flag as its first
sample, ends that wait at once with counter 0; so on a card whose status always
reads one value, `_MMCF_isInserted` returning true implies that the opening
waits succeed, `_MMCF_clearStatus` returns true and `_MMCF_readSectors` writes
its command.  Strictly: there is a status value such that, on the card always
reading it, `_MMCF_isInserted` returns false while `_MMCF_readSectors` passes
the opening waits and writes its command; every value that shares a bit with
`CF_STS_INSERTED` but whose low byte differs from it is one (0x58, the ready
sentinel, against 0x50, say). -/
theorem C18_prelude_test_weaker (c : Consts)
    (hbyte : 0 < c.CF_STS_INSERTED ∧ c.CF_STS_INSERTED < 256)
    (hT : 0 < c.CF_CARD_TIMEOUT) :
    (∀ (d : Device σ) (m m2 : Machine σ),
      (_MMCF_isInserted c d m).1 = true →
      nthStatus d m2.dev 0 =
        (busRead d Reg.STS_CMD (busWrite d Reg.STS_CMD c.CF_STS_INSERTED m)).1 →
      (waitUntilInserted c d m2).1 = 0 ∧
      (waitUntilInserted c d m2).1 < c.CF_CARD_TIMEOUT) ∧
    (∀ (b : Build) (d : Device σ) (v sector numSectors buffer : Nat) (dev : σ)
        (mem : Nat → Nat),
      (∀ s, (d.read Reg.STS_CMD s).1 % 65536 = v) →
      (_MMCF_isInserted c d (Machine.start dev mem)).1 = true →
        (preludeWaits c d (Machine.start dev mem)).1 < c.CF_CARD_TIMEOUT ∧
        (_MMCF_clearStatus c d (Machine.start dev mem)).1 = true ∧
        writesTo Reg.STS_CMD (_MMCF_readSectors c b d sector numSectors buffer
          (Machine.start dev mem)).2.trace = [c.CF_CMD_READ % 65536]) ∧
    (∃ v < 65536,
      (_MMCF_isInserted c (constCard v 0 0) (Machine.start () zeroMem)).1 = false ∧
      (preludeWaits c (constCard v 0 0) (Machine.start () zeroMem)).1 < c.CF_CARD_TIMEOUT ∧
      writesTo Reg.STS_CMD (_MMCF_readSectors c Build.direct (constCard v 0 0) 0 1 0
        (Machine.start () zeroMem)).2.trace = [c.CF_CMD_READ % 65536]) ∧
    (∀ (b : Build) (d : Device σ) (v sector numSectors buffer : Nat) (dev : σ)
        (mem : Nat → Nat),
      (∀ s, (d.read Reg.STS_CMD s).1 % 65536 = v) →
      v &&& c.CF_STS_INSERTED ≠ 0 → v &&& 0xff ≠ c.CF_STS_INSERTED →
        (_MMCF_isInserted c d (Machine.start dev mem)).1 = false ∧
        (preludeWaits c d (Machine.start dev mem)).1 < c.CF_CARD_TIMEOUT ∧
        writesTo Reg.STS_CMD (_MMCF_readSectors c b d sector numSectors buffer
          (Machine.start dev mem)).2.trace = [c.CF_CMD_READ % 65536]) := by
  refine ⟨?_, ?_, ?_, ?_⟩
  · intro d m m2 hacc hsame
    have hlow : (busRead d Reg.STS_CMD (busWrite d Reg.STS_CMD c.CF_STS_INSERTED m)).1
        &&& 0xff = c.CF_STS_INSERTED := by
      simpa only [_MMCF_isInserted, decide_eq_true_eq] using hacc
    have hbit := land_low_self _ _ hlow
    have hstop : waitUntilInserted c d m2 = (0, (busRead d Reg.STS_CMD m2).2) := by
      apply poll_stop_first
      have hv : (d.read Reg.STS_CMD m2.dev).1 % 65536 = nthStatus d m2.dev 0 := rfl
      rw [hv, hsame, hbit]
      have : c.CF_STS_INSERTED ≠ 0 := by omega
      simp [this]
    rw [hstop]
    exact ⟨rfl, hT⟩
  · intro b d v sector numSectors buffer dev mem hconst hacc
    have hlow : v &&& 0xff = c.CF_STS_INSERTED := by
      have := hacc
      simp only [_MMCF_isInserted, decide_eq_true_eq, busRead_val, hconst] at this
      exact this
    have hshare : v &&& c.CF_STS_INSERTED ≠ 0 := by
      rw [land_low_self v _ hlow]; omega
    exact shared_bit_passes c hT b d v sector numSectors buffer dev mem hconst hshare
  · have hself : c.CF_STS_INSERTED &&& 0xff = c.CF_STS_INSERTED := by
      rw [and_ff]; omega
    by_cases h255 : c.CF_STS_INSERTED = 255
    · have hshare : 1 &&& c.CF_STS_INSERTED ≠ 0 := by rw [h255]; decide
      have hdiff : 1 &&& 0xff ≠ c.CF_STS_INSERTED := by rw [h255]; decide
      have hp := shared_bit_passes c hT Build.direct (constCard 1 0 0) 1 0 1 0 () zeroMem
        (fun _ => rfl) hshare
      exact ⟨1, by decide, isInserted_rejects c (constCard 1 0 0) 1 () zeroMem (fun _ => rfl) hdiff,
        hp.1, hp.2.2⟩
    · have hshare : 255 &&& c.CF_STS_INSERTED ≠ 0 := by
        rw [Nat.and_comm]
        show c.CF_STS_INSERTED &&& 0xff ≠ 0
        rw [hself]; omega
      have hdiff : 255 &&& 0xff ≠ c.CF_STS_INSERTED := by
        intro h
        exact h255 (by rw [← h]; decide)
      have hp := shared_bit_passes c hT Build.direct (constCard 255 0 0) 255 0 1 0 () zeroMem
        (fun _ => rfl) hshare
      exact ⟨255, by decide, isInserted_rejects c (constCard 255 0 0) 255 () zeroMem (fun _ => rfl) hdiff,
        hp.1, hp.2.2⟩
  · intro b d v sector numSectors buffer dev mem hconst hshare hdiff
    have hp := shared_bit_passes c hT b d v sector numSectors buffer dev mem hconst hshare
    exact ⟨isInserted_rejects c d v dev mem hconst hdiff, hp.1, hp.2.2⟩

/-- C18 with the sample constants: on a card whose status always reads 0x50
`_MMCF_isInserted` says yes and the opening waits succeed; on a card whose
status always reads 0x58 `_MMCF_isInserted` says no, and `_MMCF_readSectors`
issues its command all the same. -/
theorem C18_prelude_test_weaker_witness :
    (0 < (sampleConsts 1000).CF_STS_INSERTED ∧ (sampleConsts 1000).CF_STS_INSERTED < 256) ∧
    ((_MMCF_isInserted (sampleConsts 1000) (constCard 0x50 0 0) (Machine.start () zeroMem)).1
        = true ∧
      (preludeWaits (sampleConsts 1000) (constCard 0x50 0 0) (Machine.start () zeroMem)).1
        < (sampleConsts 1000).CF_CARD_TIMEOUT) ∧
    ((_MMCF_isInserted (sampleConsts 1000) (constCard 0x58 0 0) (Machine.start () zeroMem)).1
        = false ∧
      writesTo Reg.STS_CMD (_MMCF_readSectors (sampleConsts 1000) Build.direct
        (constCard 0x58 0 0) 0 1 4096 (Machine.start () zeroMem)).2.trace = [0x20]) := by
  have h := C18_prelude_test_weaker (σ := Unit) (sampleConsts 1000) (by decide) (by decide)
  have h1 := h.2.1 Build.direct (constCard 0x50 0 0) 0x50 0 1 4096 () zeroMem
    (fun _ => rfl) (by decide)
  have h2 := h.2.2.2 Build.direct (constCard 0x58 0 0) 0x58 0 1 4096 () zeroMem
    (fun _ => rfl) (by decide) (by decide)
  exact ⟨by decide, ⟨by decide, h1.1⟩, ⟨h2.1, h2.2.2⟩⟩

end ClaimInsertionTests

end MMCF
